import Mathlib

/-!
# dsector / ufwb: element model, attribute fallback, expressions and merge

A shallow embedding of the Go package `ufwb` (files `structs.go`,
`xml_transform.go`, `validate.go`, `extends_test.go`).

* Go pointers (`*Structure`, `*Number`) are addresses into a store; `nil` is
  `none`.  The store maps every address to the object that lives there, so a
  non-nil pointer always points at an object, as in Go.
* A Go method that can panic or recurse without end returns a `Run`: a
  returned value, a panic, or `diverge` when the recursion budget is used up.
* Go's `int64` is `Int` together with explicit range checks.
-/

namespace ufwb

/-! ## Outcomes of a call -/

/-- Outcome of running a Go function that may panic or fail to terminate. -/
inductive Run (α : Type) where
  | ret (a : α)
  | panic (msg : String)
  | diverge
  deriving DecidableEq, Repr

/-! ## `structs.go`: scalar types -/

/-- The constants of Go's `type Bool int8 // tri-state bool unset, false, true`
(`UnknownBool`, `False`, `True`; "No other value is allowed"). -/
inductive TriBool where
  | UnknownBool
  | False
  | True
  deriving DecidableEq, Repr, Inhabited

/-- The Go method `func (b Bool) bool() bool`: panics on anything but `False` and `True`. -/
def TriBool.bool : TriBool → Run Bool
  | .False => .ret false
  | .True => .ret true
  | .UnknownBool => .panic "Unknown bool state"

/-- The Go function `boolOf`. -/
def boolOf (b : Bool) : TriBool :=
  if b then .True else .False

/-- The Go type `Endian` with its four constants. -/
inductive Endian where
  | UnknownEndian
  | DynamicEndian
  | BigEndian
  | LittleEndian
  deriving DecidableEq, Repr, Inhabited

/-- The Go type `Display`. -/
inductive Display where
  | UnknownDisplay
  | BinaryDisplay
  | DecDisplay
  | HexDisplay
  deriving DecidableEq, Repr, Inhabited

/-- The Go type `LengthUnit`. -/
inductive LengthUnit where
  | UnknownLengthUnit
  | BitLengthUnit
  | ByteLengthUnit
  deriving DecidableEq, Repr, Inhabited

/-- The Go type `Order`. -/
inductive Order where
  | UnknownOrder
  | FixedOrder
  | VariableOrder
  deriving DecidableEq, Repr, Inhabited

/-- A non-nil Go `Expression`: `ConstExpression` (an `int64`) or `StringExpression`.
The nil interface value is `none : Option Expression`. -/
inductive Expression where
  | ConstExpression (i : Int)
  | StringExpression (s : String)
  deriving DecidableEq, Repr

/-! ## `structs.go`: elements and the store -/

/-- A non-nil value of the Go interface `Element`: the concrete type and the address. -/
inductive ElementRef where
  | ofStructure (addr : Nat)
  | ofNumber (addr : Nat)
  | ofString (addr : Nat)
  | ofBinary (addr : Nat)
  | ofOffset (addr : Nat)
  | ofStructRef (addr : Nat)
  | ofGrammarRef (addr : Nat)
  | ofCustom (addr : Nat)
  | ofScript (addr : Nat)
  | ofPadding (addr : Nat)
  | ofGrammar (addr : Nat)
  deriving DecidableEq, Repr

/-- The Go struct `Base`. -/
structure Base where
  elemType : String := ""
  id : Int := 0
  name : String := ""
  description : String := ""
  deriving DecidableEq, Repr, Inhabited

/-- The Go struct `Repeats`. -/
structure Repeats where
  repeatMin : Option Expression := none
  repeatMax : Option Expression := none
  deriving DecidableEq, Repr, Inhabited

/-- The Go struct `Colourful`; a colour is a `uint32`, `nil` is `none`. -/
structure Colourful where
  fillColour : Option Nat := none
  strokeColour : Option Nat := none
  deriving DecidableEq, Repr, Inhabited

/-- The Go struct `Structure`; `derives` and `parent` are `*Structure`. -/
structure Structure where
  base : Base := {}
  repeats : Repeats := {}
  colourful : Colourful := {}
  derives : Option Nat := none
  parent : Option Nat := none
  length : Option Expression := none
  lengthUnit : LengthUnit := .UnknownLengthUnit
  lengthOffset : Option Expression := none
  endian : Endian := .UnknownEndian
  signed : TriBool := .UnknownBool
  encoding : String := ""
  order : Order := .UnknownOrder
  display : Display := .UnknownDisplay
  elements : List ElementRef := []
  deriving DecidableEq, Repr, Inhabited

/-- The Go struct `FixedValue` (the field `value interface{}` is never filled by the code
at hand and is left out). -/
structure FixedValue where
  name : String := ""
  description : String := ""
  deriving DecidableEq, Repr, Inhabited

/-- The Go struct `FixedBinaryValue`; `value` is a byte slice. -/
structure FixedBinaryValue where
  name : String := ""
  value : List Nat := []
  description : String := ""
  deriving DecidableEq, Repr, Inhabited

/-- The Go struct `FixedStringValue`. -/
structure FixedStringValue where
  name : String := ""
  value : String := ""
  description : String := ""
  deriving DecidableEq, Repr, Inhabited

/-- The Go struct `Mask`; `value` is a `uint64`. -/
structure Mask where
  name : String := ""
  value : Nat := 0
  description : String := ""
  values : List FixedValue := []
  deriving DecidableEq, Repr, Inhabited

/-- The Go struct `Number`; `derives` is a `*Number`, `parent` a `*Structure`. -/
structure Number where
  base : Base := {}
  repeats : Repeats := {}
  colourful : Colourful := {}
  derives : Option Nat := none
  parent : Option Nat := none
  type : String := ""
  length : Option Expression := none
  lengthUnit : LengthUnit := .UnknownLengthUnit
  endian : Endian := .UnknownEndian
  signed : TriBool := .UnknownBool
  display : Display := .UnknownDisplay
  valueExpression : String := ""
  minVal : String := ""
  maxVal : String := ""
  mustMatch : TriBool := .UnknownBool
  values : List FixedValue := []
  masks : List Mask := []
  deriving DecidableEq, Repr, Inhabited

/-- The Go struct `String`, an element (named apart from Lean's strings); `derives` is a
`*String`, `parent` a `*Structure`, `delimiter` a byte. -/
structure StringElement where
  base : Base := {}
  repeats : Repeats := {}
  colourful : Colourful := {}
  derives : Option Nat := none
  parent : Option Nat := none
  typ : String := ""
  length : Option Expression := none
  lengthUnit : LengthUnit := .UnknownLengthUnit
  encoding : String := ""
  delimiter : Nat := 0
  mustMatch : TriBool := .UnknownBool
  values : List FixedStringValue := []
  deriving DecidableEq, Repr, Inhabited

/-- The Go struct `Binary`. -/
structure Binary where
  base : Base := {}
  repeats : Repeats := {}
  colourful : Colourful := {}
  derives : Option Nat := none
  parent : Option Nat := none
  length : Option Expression := none
  lengthUnit : LengthUnit := .UnknownLengthUnit
  mustMatch : TriBool := .UnknownBool
  values : List FixedBinaryValue := []
  deriving DecidableEq, Repr, Inhabited

/-- The Go struct `Offset`; the three `ElementId` fields are interface values. -/
structure Offset where
  base : Base := {}
  repeats : Repeats := {}
  colourful : Colourful := {}
  derives : Option Nat := none
  parent : Option Nat := none
  length : Option Expression := none
  lengthUnit : LengthUnit := .UnknownLengthUnit
  endian : Endian := .UnknownEndian
  display : Display := .UnknownDisplay
  relativeTo : Option ElementRef := none
  followNullReference : TriBool := .UnknownBool
  references : Option ElementRef := none
  referencedSize : Option ElementRef := none
  additional : String := ""
  deriving DecidableEq, Repr, Inhabited

/-- The Go struct `StructRef`; `structure` is a `*Structure`. -/
structure StructRef where
  base : Base := {}
  repeats : Repeats := {}
  colourful : Colourful := {}
  disabled : TriBool := .UnknownBool
  derives : Option Nat := none
  target : Option Nat := none
  deriving DecidableEq, Repr, Inhabited

/-- The Go struct `GrammarRef`; `grammar` is a `*Grammar`. -/
structure GrammarRef where
  base : Base := {}
  repeats : Repeats := {}
  derives : Option Nat := none
  uti : String := ""
  filename : String := ""
  disabled : TriBool := .UnknownBool
  grammar : Option Nat := none
  deriving DecidableEq, Repr, Inhabited

/-- The Go struct `Custom`; `script` is a `*Script`. -/
structure Custom where
  base : Base := {}
  colourful : Colourful := {}
  derives : Option Nat := none
  length : Option Expression := none
  lengthUnit : LengthUnit := .UnknownLengthUnit
  script : Option Nat := none
  deriving DecidableEq, Repr, Inhabited

/-- The Go struct `Script` of `structs.go`, the script element (`xml_transform.go` still
calls it `ScriptElement`). -/
structure Script where
  base : Base := {}
  repeats : Repeats := {}
  derives : Option Nat := none
  typ : String := ""
  language : String := ""
  text : String := ""
  deriving DecidableEq, Repr, Inhabited

/-- The Go struct `Grammar`; `Start` is a `*Structure`, `Scripts` are `*Script`. -/
structure Grammar where
  base : Base := {}
  repeats : Repeats := {}
  author : String := ""
  ext : String := ""
  email : String := ""
  complete : TriBool := .UnknownBool
  uti : String := ""
  start : Option Nat := none
  scripts : List Nat := []
  elements : List ElementRef := []
  deriving DecidableEq, Repr, Inhabited

/-- The Go struct `Padding`. -/
structure Padding where
  base : Base := {}
  deriving DecidableEq, Repr, Inhabited

/-- The store: the `Structure` and the `Number` living at each address, and likewise the
elements of every other concrete type (all zero values unless said otherwise). -/
structure Heap where
  structures : Nat → Structure
  numbers : Nat → Number
  strings : Nat → StringElement := fun _ => {}
  binaries : Nat → Binary := fun _ => {}
  offsets : Nat → Offset := fun _ => {}
  structRefs : Nat → StructRef := fun _ => {}
  grammarRefs : Nat → GrammarRef := fun _ => {}
  customs : Nat → Custom := fun _ => {}
  scripts : Nat → Script := fun _ => {}
  paddings : Nat → Padding := fun _ => {}
  grammars : Nat → Grammar := fun _ => {}

/-- The Go method `func (s *Structure) Signed() bool` on the structure at address `a`;
`fuel` bounds the depth of the recursion through `derives` and `parent`. -/
def Structure.Signed (h : Heap) : Nat → Nat → Run Bool
  | 0, _ => .diverge
  | fuel + 1, a =>
    let s := h.structures a
    if s.signed ≠ .UnknownBool then s.signed.bool
    else
      match s.derives with
      | some d => Structure.Signed h fuel d
      | none =>
        match s.parent with
        | some p => Structure.Signed h fuel p
        | none => .ret true

/-- The Go method `func (n *Number) Signed() bool` on the number at address `a`. -/
def Number.Signed (h : Heap) : Nat → Nat → Run Bool
  | 0, _ => .diverge
  | fuel + 1, a =>
    let n := h.numbers a
    if n.signed ≠ .UnknownBool then n.signed.bool
    else
      match n.derives with
      | some d => Number.Signed h fuel d
      | none =>
        match n.parent with
        | some p => Structure.Signed h fuel p
        | none => .ret true

/-- A node of the fallback graph: a `Structure` or a `Number` at an address. -/
inductive Node where
  | ofStructure (a : Nat)
  | ofNumber (a : Nat)
  deriving DecidableEq, Repr

/-- The `derives` and `parent` links leaving a node. -/
def Heap.links (h : Heap) : Node → List Node
  | .ofStructure a =>
    ((h.structures a).derives.map Node.ofStructure).toList ++
      ((h.structures a).parent.map Node.ofStructure).toList
  | .ofNumber a =>
    ((h.numbers a).derives.map Node.ofNumber).toList ++
      ((h.numbers a).parent.map Node.ofStructure).toList

/-- The link relation: `Link h y x` when `x` has a `derives` or `parent` link to `y`. -/
def Link (h : Heap) (y x : Node) : Prop := y ∈ h.links x

/-- The call `Signed()` on a node, dispatching on its concrete type. -/
def Node.Signed (h : Heap) (fuel : Nat) : Node → Run Bool
  | .ofStructure a => Structure.Signed h fuel a
  | .ofNumber a => Number.Signed h fuel a

/-- A small store.  Structure 0 is a root with `signed="no"`; structure 1 sits inside it;
its derived copy is structure 2.  Numbers 0, 2 and 4 sit inside structure 0: number 0
derives from number 1, which has no links and no `signed`; number 2 derives from number 3,
which has `signed="yes"`; number 4 derives from nothing. -/
def sampleHeap : Heap where
  structures := fun a =>
    match a with
    | 0 => { signed := .False }
    | 1 => { parent := some 0 }
    | 2 => { derives := some 0 }
    | _ => {}
  numbers := fun a =>
    match a with
    | 0 => { derives := some 1, parent := some 0 }
    | 2 => { derives := some 3, parent := some 0 }
    | 3 => { signed := .True }
    | 4 => { parent := some 0 }
    | _ => {}

/-- The sample store with other ancestors: the same `signed` values, but structure 0 now
derives from structure 5 and sits inside structure 6 (both `signed="yes"`), number 3 derives
from number 0, and number 4 keeps structure 0 as its parent. -/
def sampleHeapRelinked : Heap where
  structures := fun a =>
    match a with
    | 0 => { signed := .False, derives := some 5, parent := some 6 }
    | 1 => { parent := some 0 }
    | 5 => { signed := .True }
    | 6 => { signed := .True }
    | _ => {}
  numbers := fun a =>
    match a with
    | 3 => { signed := .True, derives := some 0, parent := some 6 }
    | 4 => { parent := some 0 }
    | _ => {}

/-- A store with a cycle: structure 0 derives from itself and has no `signed`. -/
def cyclicHeap : Heap where
  structures := fun a =>
    match a with
    | 0 => { derives := some 0 }
    | _ => {}
  numbers := fun _ => {}

/-- The `signed` field of a node. -/
def Heap.signedOf (h : Heap) : Node → TriBool
  | .ofStructure a => (h.structures a).signed
  | .ofNumber a => (h.numbers a).signed

/-- The nodes a node can fall back to: `Reaches h x y` when `y` is `x` or is reached from
`x` along `derives` and `parent` links. -/
def Reaches (h : Heap) (x y : Node) : Prop :=
  Relation.ReflTransGen (fun u v => Link h v u) x y

/-! ## `structs.go`: `Padding` -/

/-- The Go struct `Ufwb`, the document: the grammar and the id/name maps, as association
lists from key to element. -/
structure Ufwb where
  version : String := ""
  grammar : Option Nat := none
  elements : List (String × ElementRef) := []
  scripts : List (String × Nat) := []
  deriving DecidableEq, Repr, Inhabited

/-- The concrete types that implement the Go interface `Element` (what `%T` prints). -/
inductive ElementKind where
  | Grammar
  | GrammarRef
  | Structure
  | Custom
  | StructRef
  | String
  | Binary
  | Number
  | Offset
  | Script
  | Padding
  deriving DecidableEq, Repr, Inhabited

/-- A value of the Go interface `ElementId` as an error carries it: what the interface lets
one observe of the element behind the pointer, its concrete type and its `Base` (`Id()`,
`Name()`, `Description()`, `IdString()`). -/
structure ElementId where
  kind : ElementKind
  base : Base
  deriving DecidableEq, Repr, Inhabited

/-- An error value as the package meets them: `io.EOF`, the error of `errors.New(msg)`, the
error of `fmt.Errorf(format, arg)` (kept as format and argument), the errors of
`encoding/hex` (`InvalidByteError(b)`, `ErrLength`), or a `validationError` wrapping an
error for an element. -/
inductive GoError where
  | eof
  | message (msg : String)
  | errorf (format : String) (arg : String)
  | hexInvalidByte (b : Nat)
  | hexErrLength
  | validationError (e : ElementId) (err : GoError)
  deriving DecidableEq, Repr

/-- The aggregator `toerr.Errors`: the errors appended so far, oldest first. -/
structure Errors where
  errs : List GoError := []
  deriving DecidableEq, Repr, Inhabited

/-- The Go method `func (*Padding) Length() Expression`. -/
def Padding.Length (_ : Padding) : Option Expression := none

/-- The Go method `func (*Padding) LengthUnit() LengthUnit`. -/
def Padding.LengthUnit (_ : Padding) : LengthUnit := .ByteLengthUnit

/-- The Go method `func (*Padding) RepeatMax() Expression`. -/
def Padding.RepeatMax (_ : Padding) : Option Expression := some (.ConstExpression 1)

/-- The Go method `func (*Padding) RepeatMin() Expression`. -/
def Padding.RepeatMin (_ : Padding) : Option Expression := some (.ConstExpression 1)

/-- The Go method `func (*Padding) update(*Ufwb, *Structure, *toerr.Errors)`: the state it
could write through its pointers is the store, the document and the aggregator; the body
is empty, so all three come back as they were. -/
def Padding.update (_ : Padding) (h : Heap) (u : Ufwb) (_parent : Option Nat)
    (errs : Errors) : Heap × Ufwb × Errors :=
  (h, u, errs)

/-! ## `strconv.ParseInt` (Go standard library, Go 1.13 and later) and `NewExpression` -/

/-- The UTF-8 bytes of one character: a Go string is its byte sequence. -/
def charBytes (c : Char) : List Nat :=
  let v := c.toNat
  if v < 0x80 then [v]
  else if v < 0x800 then [0xC0 + v / 0x40, 0x80 + v % 0x40]
  else if v < 0x10000 then [0xE0 + v / 0x1000, 0x80 + v / 0x40 % 0x40, 0x80 + v % 0x40]
  else [0xF0 + v / 0x40000, 0x80 + v / 0x1000 % 0x40, 0x80 + v / 0x40 % 0x40,
    0x80 + v % 0x40]

/-- The bytes of a Go string. -/
def goBytes (s : String) : List Nat :=
  s.data.flatMap charBytes

/-- The error kinds of `strconv.NumError`. -/
inductive NumErr where
  | ErrSyntax
  | ErrRange
  | ErrBase
  | ErrBitSize
  deriving DecidableEq, Repr

/-- The Go helper `lower(c byte) byte`, that is `c | ('x' - 'X')`. -/
def lower (c : Nat) : Nat := c ||| 0x20

/-- The digit loop of `strconv.ParseUint` over the remaining bytes: `n` is the value so
far, `us` whether an underscore has been skipped.  An error carries the value Go returns
with it. -/
def parseUintLoop (base : Nat) (base0 : Bool) (cutoff maxVal : Nat) :
    List Nat → Nat → Bool → Except (Nat × NumErr) (Nat × Bool)
  | [], n, us => .ok (n, us)
  | c :: cs, n, us =>
    if c = 95 ∧ base0 = true then parseUintLoop base base0 cutoff maxVal cs n true
    else
      let digit : Option Nat :=
        if 48 ≤ c ∧ c ≤ 57 then some (c - 48)
        else if 97 ≤ lower c ∧ lower c ≤ 122 then some (lower c - 97 + 10)
        else none
      match digit with
      | none => .error (0, .ErrSyntax)
      | some d =>
        if d ≥ base then .error (0, .ErrSyntax)
        else if n ≥ cutoff then .error (maxVal, .ErrRange)
        else
          let n0 := n * base % 2 ^ 64
          let n1 := (n0 + d) % 2 ^ 64
          if n1 < n0 ∨ n1 > maxVal then .error (maxVal, .ErrRange)
          else parseUintLoop base base0 cutoff maxVal cs n1 us

/-- The loop of the Go helper `underscoreOK`; `i` is its state byte (`^`, `0`, `_`, `!`). -/
def underscoreLoop (hex : Bool) : List Nat → Nat → Bool
  | [], i => i ≠ 95
  | c :: cs, i =>
    if (48 ≤ c ∧ c ≤ 57) ∨ (hex = true ∧ 97 ≤ lower c ∧ lower c ≤ 102) then
      underscoreLoop hex cs 48
    else if c = 95 then
      if i ≠ 48 then false else underscoreLoop hex cs 95
    else if i = 95 then false
    else underscoreLoop hex cs 33

/-- The Go helper `underscoreOK`: underscores only between digits or between a base prefix
and a digit. -/
def underscoreOK (s : List Nat) : Bool :=
  let s1 :=
    match s with
    | c :: cs => if c = 45 ∨ c = 43 then cs else s
    | [] => s
  match s1 with
  | c0 :: c1 :: cs =>
    if c0 = 48 ∧ (lower c1 = 98 ∨ lower c1 = 111 ∨ lower c1 = 120) then
      underscoreLoop (lower c1 = 120) cs 48
    else underscoreLoop false s1 94
  | _ => underscoreLoop false s1 94

/-- The `case base == 0` switch of `strconv.ParseUint` ("Look for octal, hex prefix"): the
base the prefix implies, and the bytes after the prefix. -/
def basePrefix (s : List Nat) : Nat × List Nat :=
  if s.head? = some 48 then
    if s.length ≥ 3 ∧ lower (s.getD 1 0) = 98 then (2, s.drop 2)
    else if s.length ≥ 3 ∧ lower (s.getD 1 0) = 111 then (8, s.drop 2)
    else if s.length ≥ 3 ∧ lower (s.getD 1 0) = 120 then (16, s.drop 2)
    else (8, s.drop 1)
  else (10, s)

/-- The Go function `strconv.ParseUint(s, base, bitSize)`: the value and the error. -/
def ParseUint (s : List Nat) (base bitSize : Nat) : Nat × Option NumErr :=
  if s = [] then (0, some .ErrSyntax)
  else
    let base0 : Bool := base = 0
    let pre : Option (Nat × List Nat) :=
      if 2 ≤ base ∧ base ≤ 36 then some (base, s)
      else if base = 0 then some (basePrefix s)
      else none
    match pre with
    | none => (0, some .ErrBase)
    | some (b, digits) =>
      let bits := if bitSize = 0 then 64 else bitSize
      if bits > 64 then (0, some .ErrBitSize)
      else
        let cutoff := (2 ^ 64 - 1) / b + 1
        let maxVal := 2 ^ bits - 1
        match parseUintLoop b base0 cutoff maxVal digits 0 false with
        | .error (v, e) => (v, some e)
        | .ok (n, us) =>
          if us = true ∧ underscoreOK s = false then (0, some .ErrSyntax)
          else (n, none)

/-- Go's conversion to `int64`: wrap into the signed 64-bit range. -/
def int64 (x : Int) : Int := (x + 2 ^ 63) % 2 ^ 64 - 2 ^ 63

/-- The Go function `strconv.ParseInt(s, base, bitSize)`: the value and the error. -/
def ParseInt (s : List Nat) (base bitSize : Nat) : Int × Option NumErr :=
  if s = [] then (0, some .ErrSyntax)
  else
    let neg : Bool := s.head? = some 45
    let body := if s.head? = some 43 ∨ s.head? = some 45 then s.tail else s
    match ParseUint body base bitSize with
    | (_, some .ErrSyntax) => (0, some .ErrSyntax)
    | (_, some .ErrBase) => (0, some .ErrBase)
    | (_, some .ErrBitSize) => (0, some .ErrBitSize)
    | (un, _) =>
      let bits := if bitSize = 0 then 64 else bitSize
      let cutoff := 2 ^ (bits - 1)
      if neg = false ∧ un ≥ cutoff then (int64 (cutoff - 1 : Nat), some .ErrRange)
      else if neg = true ∧ un > cutoff then (int64 (-(cutoff : Int)), some .ErrRange)
      else
        let n := int64 un
        (if neg then int64 (-n) else n, none)

/-- The Go function `NewExpression`: `none` is the nil `Expression`. -/
def NewExpression (expr : String) : Option Expression :=
  if expr = "" then none
  else
    match ParseInt (goBytes expr) 0 64 with
    | (i, none) => some (.ConstExpression i)
    | (_, some _) => some (.StringExpression expr)

/-! ## Integer literals, as the Go language specification writes them

`ParseInt` with base 0 is documented to accept an optional sign followed by an integer
literal of the Go syntax:

    int_lit     = decimal_lit | binary_lit | octal_lit | hex_lit .
    decimal_lit = "0" | ( "1" … "9" ) [ [ "_" ] decimal_digits ] .
    binary_lit  = "0" ( "b" | "B" ) [ "_" ] binary_digits .
    octal_lit   = "0" [ "o" | "O" ] [ "_" ] octal_digits .
    hex_lit     = "0" ( "x" | "X" ) [ "_" ] hex_digits .
    digits      = digit { [ "_" ] digit } .

The recognisers below follow this grammar, not the parser. -/

/-- Byte `c` is a digit of the given base: `0`-`9`, `a`-`z` or `A`-`Z`, by value. -/
def isDigitOf (base c : Nat) : Bool :=
  decide ((48 ≤ c ∧ c ≤ 57 ∧ c - 48 < base) ∨ (97 ≤ c ∧ c ≤ 122 ∧ c - 97 + 10 < base) ∨
    (65 ≤ c ∧ c ≤ 90 ∧ c - 65 + 10 < base))

/-- The grammar fragment `{ [ "_" ] digit }`: digits, each optionally preceded by one
underscore. -/
def sepDigits (base : Nat) : List Nat → Bool
  | [] => true
  | c :: rest =>
    if c = 95 then
      match rest with
      | [] => false
      | d :: rest' => isDigitOf base d && sepDigits base rest'
    else isDigitOf base c && sepDigits base rest

/-- The grammar rule `int_lit`. -/
def isIntLit : List Nat → Bool
  | [] => false
  | c :: rest =>
    if c = 48 then
      match rest with
      | [] => true
      | p :: ds =>
        if p = 98 ∨ p = 66 then !ds.isEmpty && sepDigits 2 ds
        else if p = 111 ∨ p = 79 then !ds.isEmpty && sepDigits 8 ds
        else if p = 120 ∨ p = 88 then !ds.isEmpty && sepDigits 16 ds
        else sepDigits 8 rest
    else decide (49 ≤ c ∧ c ≤ 57) && sepDigits 10 rest

/-- An optional sign followed by an `int_lit`. -/
def isSignedIntLit (s : List Nat) : Bool :=
  if s.head? = some 43 ∨ s.head? = some 45 then isIntLit s.tail else isIntLit s

/-- The string is a valid base-prefixed integer literal. -/
def IsIntegerLiteral (s : String) : Prop :=
  isSignedIntLit (goBytes s) = true

instance (s : String) : Decidable (IsIntegerLiteral s) :=
  inferInstanceAs (Decidable (isSignedIntLit (goBytes s) = true))

/-! ## The inheritance resolver `extend` (`extends_test.go`)

The function `extend` itself is not among the sources; only its tests are.  The element
values are the ones the tests build (`Structure{IdName, Endian, Length, Elements}`,
`String{IdName, Type}`, `Number{IdName, Type, Length}`), together with the `parent`
back-reference that the merge is said to skip. -/

/-- The Go struct `IdName` of the tests: `IdName{id, name, description}`. -/
structure IdName where
  id : Int := 0
  name : String := ""
  description : String := ""
  deriving DecidableEq, Repr, Inhabited

/-- An element value as `extends_test.go` builds it, children included. -/
inductive Elem where
  | struct (idName : IdName) (endian : Endian) (length : String) (parent : Option Nat)
      (elements : List Elem)
  | string (idName : IdName) (typ : String) (parent : Option Nat)
  | number (idName : IdName) (typ : String) (length : String) (parent : Option Nat)
  deriving Repr, Inhabited

/-- The concrete struct type of an element. -/
inductive ElemKind where
  | Structure
  | String
  | Number
  deriving DecidableEq, Repr

/-- The dynamic type of a value passed to `extend` as `interface{}`. -/
inductive GoType where
  | int
  | struct (k : ElemKind)
  | pointer (k : ElemKind)
  | slice (k : ElemKind)
  deriving DecidableEq, Repr

/-- A value passed to `extend` as `interface{}`: an integer such as `1`, a struct value
such as `Structure{}`, a pointer such as `&Structure{}`, or a slice such as
`[]Structure{}`. -/
inductive Operand where
  | int (i : Int)
  | value (e : Elem)
  | pointer (e : Elem)
  | slice (k : ElemKind) (es : List Elem)
  deriving Repr

def Elem.kind : Elem → ElemKind
  | .struct .. => .Structure
  | .string .. => .String
  | .number .. => .Number

def Elem.idName : Elem → IdName
  | .struct i .. => i
  | .string i .. => i
  | .number i .. => i

/-- The name children are matched by. -/
def Elem.name (e : Elem) : String := e.idName.name

/-- The attribute `Endian`; elements without it read as unset. -/
def Elem.endian : Elem → Endian
  | .struct _ e .. => e
  | _ => .UnknownEndian

/-- The attribute `Type`; elements without it read as unset. -/
def Elem.typ : Elem → String
  | .string _ t _ => t
  | .number _ t _ _ => t
  | _ => ""

/-- The attribute `Length`; elements without it read as unset. -/
def Elem.length : Elem → String
  | .struct _ _ l .. => l
  | .number _ _ l _ => l
  | _ => ""

/-- The `parent` back-reference. -/
def Elem.parent : Elem → Option Nat
  | .struct _ _ _ p _ => p
  | .string _ _ p => p
  | .number _ _ _ p => p

/-- The children of a Structure. -/
def Elem.elements : Elem → List Elem
  | .struct _ _ _ _ cs => cs
  | _ => []

def Operand.goType : Operand → GoType
  | .int _ => .int
  | .value e => .struct e.kind
  | .pointer e => .pointer e.kind
  | .slice k _ => .slice k

/-- The merge error: a type mismatch, reported with both concrete types (`dst`, `src`). -/
inductive MergeError where
  | TypeMismatch (dst src : GoType)
  deriving DecidableEq, Repr

/-- Modelled from the spec: the per-attribute rule of the missing `extend`, "copy every
attribute from `src` into the corresponding attribute of `dst` wherever `dst`'s attribute
is at its zero/unset value; attributes `dst` has explicitly set are never overwritten". -/
def fill {α : Type} [DecidableEq α] (zero dst src : α) : α :=
  if dst = zero then src else dst

/-- Modelled from the spec: the missing `extend` on the embedded `IdName`, field by
field. -/
def fillIdName (dst src : IdName) : IdName :=
  { id := fill 0 dst.id src.id
    name := fill "" dst.name src.name
    description := fill "" dst.description src.description }

/-- Modelled from the spec: the lookup behind "children are matched by name", the first
child of the missing `extend`'s source with that name. -/
def findByName (es : List Elem) (name : String) : Option Elem :=
  es.find? (fun e => e.name = name)

mutual
/-- Modelled from the spec: the missing `extend` on two elements.  Attributes are filled
by `fill`; the `parent` back-reference, a non-inheritable field, is skipped; the children
of a Structure are merged by `extendChildren`; two elements of different concrete type are
a `TypeMismatch`. -/
def extendElem : Elem → Elem → Except MergeError Elem
  | .struct i e l p cs, .struct i' e' l' _ cs' =>
    match extendChildren cs cs' with
    | .error err => .error err
    | .ok cs2 =>
      .ok (.struct (fillIdName i i') (fill .UnknownEndian e e') (fill "" l l') p cs2)
  | .string i t p, .string i' t' _ =>
    .ok (.string (fillIdName i i') (fill "" t t') p)
  | .number i t l p, .number i' t' l' _ =>
    .ok (.number (fillIdName i i') (fill "" t t') (fill "" l l') p)
  | d, s => .error (.TypeMismatch (.pointer d.kind) (.pointer s.kind))
/-- Modelled from the spec: the missing `extend` on the children of two Structures, "a
child present in `dst` inherits from the same-named child in `src` recursively; a child
present only in `src` is NOT added to `dst`; a child present in both but of different
concrete element type is a hard `TypeMismatch` error". -/
def extendChildren : List Elem → List Elem → Except MergeError (List Elem)
  | [], _ => .ok []
  | c :: cs, srcs =>
    match (match findByName srcs c.name with
        | none => Except.ok c
        | some s => extendElem c s) with
    | .error err => .error err
    | .ok c2 =>
      match extendChildren cs srcs with
      | .error err => .error err
      | .ok cs2 => .ok (c2 :: cs2)
end

/-- Modelled from the spec: the missing function `extend(dst, src interface{}) error`,
returning the state of `dst` after the call and the error.  It "fails with `TypeMismatch`
when `src`/`dst` are not both pointers to the same concrete struct type, or when one is not
a pointer at all", and a failed call "never partially mutates `dst`": the spec says so for
mismatched operands, and the model reports `dst` as it was after a mismatch among the
children as well, where the spec is silent. -/
def extend (dst src : Operand) : Operand × Option MergeError :=
  match dst, src with
  | .pointer d, .pointer s =>
    match extendElem d s with
    | .ok r => (.pointer r, none)
    | .error err => (dst, some err)
  | _, _ => (dst, some (.TypeMismatch dst.goType src.goType))

mutual
/-- No child of `dst`, at any depth, meets a same-named child of `src` of a different
concrete type (and `dst`, `src` have the same concrete type themselves). -/
def mergeable : Elem → Elem → Bool
  | .struct _ _ _ _ cs, .struct _ _ _ _ cs' => mergeableChildren cs cs'
  | .string .., .string .. => true
  | .number .., .number .. => true
  | _, _ => false
/-- The children part of `mergeable`. -/
def mergeableChildren : List Elem → List Elem → Bool
  | [], _ => true
  | c :: cs, srcs =>
    (match findByName srcs c.name with
      | none => true
      | some s => mergeable c s) && mergeableChildren cs srcs
end

/-- What the merge does to one child: left as it is when `src` has no child of that name,
else merged with the first such child. -/
def ChildMerged (srcs : List Elem) (c rc : Elem) : Prop :=
  match findByName srcs c.name with
  | none => rc = c
  | some s => extendElem c s = .ok rc

/-- An attribute of the result `r` fills the gap: kept from `d` when `d` has it set, taken
from `s` when `d` has it unset. -/
def FillsGap {α : Type} (zero d s r : α) : Prop :=
  (d ≠ zero → r = d) ∧ (d = zero → r = s)

/-- The `src` of `TestExtends`. -/
def testSrc : Elem :=
  .struct { id := 1, name := "struct", description := "better description" } .BigEndian ""
    none
    [.string { id := 2, name := "string" } "zero-terminated" none,
     .number { id := 3, name := "number" } "integer" "4" none,
     .struct { id := 4, name := "substruct" } .UnknownEndian "prev.size" none []]

/-- The `dst` of `TestExtends`. -/
def testDst : Elem :=
  .struct { id := 11, name := "struct" } .UnknownEndian "" none
    [.string { id := 12, name := "string" } "" none,
     .number { id := 13, name := "number" } "" "" none,
     .struct { id := 14, name := "substruct" } .UnknownEndian "" none [],
     .number { id := 15, name := "number2" } "" "2" none]

/-- The `want` of `TestExtends`. -/
def testWant : Elem :=
  .struct { id := 11, name := "struct", description := "better description" } .BigEndian ""
    none
    [.string { id := 12, name := "string" } "zero-terminated" none,
     .number { id := 13, name := "number" } "integer" "4" none,
     .struct { id := 14, name := "substruct" } .UnknownEndian "prev.size" none [],
     .number { id := 15, name := "number2" } "" "2" none]

/-- Two Structures whose children named `x` are a Number and a String. -/
def clashDst : Elem :=
  .struct { id := 1, name := "s" } .UnknownEndian "" none
    [.number { id := 2, name := "x" } "" "" none]

/-- See `clashDst`. -/
def clashSrc : Elem :=
  .struct { id := 3, name := "s" } .BigEndian "" none
    [.string { id := 4, name := "x" } "pascal" none]

/-- The zero values `&Structure{}` and `&Number{}` of `TestExtendDifferentTypes`. -/
def emptyStructure : Elem := .struct {} .UnknownEndian "" none []

/-- See `emptyStructure`. -/
def emptyNumber : Elem := .number {} "" "" none

/-! ## `structs.go`: identity, `Script`, lookup by name -/

/-- The Go method `func (b *Base) Id() int`. -/
def Base.Id (b : Base) : Int := b.id

/-- The Go method `func (b *Base) Name() string`. -/
def Base.Name (b : Base) : String := b.name

/-- The Go method `func (b *Base) Description() string`. -/
def Base.Description (b : Base) : String := b.description

/-- The embedded `Base` of the element behind a non-nil `Element` value. -/
def Heap.base (h : Heap) : ElementRef → Base
  | .ofStructure a => (h.structures a).base
  | .ofNumber a => (h.numbers a).base
  | .ofString a => (h.strings a).base
  | .ofBinary a => (h.binaries a).base
  | .ofOffset a => (h.offsets a).base
  | .ofStructRef a => (h.structRefs a).base
  | .ofGrammarRef a => (h.grammarRefs a).base
  | .ofCustom a => (h.customs a).base
  | .ofScript a => (h.scripts a).base
  | .ofPadding a => (h.paddings a).base
  | .ofGrammar a => (h.grammars a).base

/-- The call `element.Name()` on a non-nil `Element` value. -/
def Heap.Name (h : Heap) (e : ElementRef) : String := (h.base e).Name

/-- The Go method `func (s *Script) Length() Expression`. -/
def Script.Length (_ : Script) : Option Expression := some (.ConstExpression 0)

/-- The Go method `func (s *Script) LengthUnit() LengthUnit`. -/
def Script.LengthUnit (_ : Script) : LengthUnit := .ByteLengthUnit

/-- The loop of `Elements.Find` over the elements from index `i` on; `Name` is the method
`Name()` of the interface `Element`. -/
def Elements.findFrom {α : Type} (Name : α → String) (name : String) :
    List α → Nat → Int × Option α
  | [], _ => (-1, none)
  | element :: rest, i =>
    if Name element = name then ((i : Int), some element)
    else Elements.findFrom Name name rest (i + 1)

/-- The Go method `func (e Elements) Find(name string) (int, Element)` on a slice of
non-nil elements. -/
def Elements.Find {α : Type} (Name : α → String) (e : List α) (name : String) :
    Int × Option α :=
  Elements.findFrom Name name e 0

/-- The Go method `func (s *Structure) ElementByName(name string) Element` on the structure
at address `a`; `fuel` bounds the depth of the recursion through `derives`. -/
def Structure.ElementByName (h : Heap) : Nat → Nat → String → Run (Option ElementRef)
  | 0, _, _ => .diverge
  | fuel + 1, a, name =>
    match (Elements.Find h.Name (h.structures a).elements name).2 with
    | some e => .ret (some e)
    | none =>
      match (h.structures a).derives with
      | some d => Structure.ElementByName h fuel d name
      | none => .ret none

/-- The `derives` link between structures: `DerivesLink h d a` when the structure at `a`
derives from the one at `d`. -/
def DerivesLink (h : Heap) (d a : Nat) : Prop := (h.structures a).derives = some d

/-- The derives chain: `OnChain h a b n` when the structure at `b` is reached from the one
at `a` by `n` steps along `derives` (the structure itself for `n = 0`). -/
inductive OnChain (h : Heap) : Nat → Nat → Nat → Prop where
  | self (a : Nat) : OnChain h a a 0
  | step (a d b n : Nat) : (h.structures a).derives = some d → OnChain h d b n →
      OnChain h a b (n + 1)

/-- The structure at `b` has no child called `name`. -/
def NoChildNamed (h : Heap) (b : Nat) (name : String) : Prop :=
  ∀ e ∈ (h.structures b).elements, h.Name e ≠ name

/-- The element `e` is the first child of the structure at `b` called `name`. -/
def FirstChildNamed (h : Heap) (b : Nat) (name : String) (e : ElementRef) : Prop :=
  ∃ i : Nat, (h.structures b).elements.get? i = some e ∧ h.Name e = name ∧
    ∀ j, j < i → ∀ e', (h.structures b).elements.get? j = some e' → h.Name e' ≠ name

/-- The store with the `parent` back-reference of every structure replaced. -/
def Heap.withParents (h : Heap) (parents : Nat → Option Nat) : Heap :=
  { h with structures := fun a => { h.structures a with parent := parents a } }

/-- A store for lookups by name.  Structure 0 derives from structure 1, which derives from
structure 2.  Structure 0 has the children number 0 (`a`) and number 1 (`b`); structure 1
has number 2 (`b`) and number 3 (`c`); structure 2 has number 4 (`c`) and number 5 (`d`). -/
def lookupHeap : Heap where
  structures := fun a =>
    match a with
    | 0 => { derives := some 1, elements := [.ofNumber 0, .ofNumber 1] }
    | 1 => { derives := some 2, parent := some 0, elements := [.ofNumber 2, .ofNumber 3] }
    | 2 => { elements := [.ofNumber 4, .ofNumber 5] }
    | _ => {}
  numbers := fun a =>
    match a with
    | 0 => { base := { id := 10, name := "a" } }
    | 1 => { base := { id := 11, name := "b" } }
    | 2 => { base := { id := 12, name := "b" } }
    | 3 => { base := { id := 13, name := "c" } }
    | 4 => { base := { id := 14, name := "c" } }
    | 5 => { base := { id := 15, name := "d" } }
    | _ => {}

/-! ## `validate.go`: `validationError` -/

/-- The Go struct `validationError`: an element and the wrapped error. -/
structure validationError where
  e : ElementId
  err : GoError
  deriving DecidableEq, Repr

/-- The error value (`error` interface) that a `*validationError` is. -/
def validationError.toError (v : validationError) : GoError :=
  .validationError v.e v.err

/-- The Go method `func (err *validationError) IsEof() bool`: `err.err == io.EOF`. -/
def validationError.IsEof (v : validationError) : Bool :=
  decide (v.err = GoError.eof)

/-! ## `xml_transform.go`: the attribute parsers -/

/-- The method `Append` of the aggregator `toerr.Errors`. -/
def Errors.Append (errs : Errors) (e : GoError) : Errors :=
  { errs := errs.errs ++ [e] }

/-- The Go function `yesno(s string, errs *toerr.Errors) Bool`, returning with its result
the aggregator as it leaves it. -/
def yesno (s : String) (errs : Errors) : TriBool × Errors :=
  if s = "" then (.UnknownBool, errs)
  else (boolOf (s == "yes"), errs)

/-- The Go function `endian(s string, errs *toerr.Errors) Endian`. -/
def endian (s : String) (errs : Errors) : Endian × Errors :=
  if s = "big" then (.BigEndian, errs)
  else if s = "little" then (.LittleEndian, errs)
  else if s = "dynamic" then (.DynamicEndian, errs)
  else if s = "" then (.UnknownEndian, errs)
  else (.UnknownEndian, errs.Append (.errorf "unknown endian: %q" s))

/-- The Go function `display(s string, errs *toerr.Errors) Display`. -/
def display (s : String) (errs : Errors) : Display × Errors :=
  if s = "dec" then (.DecDisplay, errs)
  else if s = "hex" then (.HexDisplay, errs)
  else if s = "binary" then (.BinaryDisplay, errs)
  else if s = "" then (.UnknownDisplay, errs)
  else (.UnknownDisplay, errs.Append (.errorf "unknown display: %q" s))

/-- The Go function `lengthunit(s string, errs *toerr.Errors) LengthUnit`. -/
def lengthunit (s : String) (errs : Errors) : LengthUnit × Errors :=
  if s = "bit" then (.BitLengthUnit, errs)
  else if s = "byte" then (.ByteLengthUnit, errs)
  else if s = "" then (.UnknownLengthUnit, errs)
  else (.UnknownLengthUnit, errs.Append (.errorf "unknown length unit: %q" s))

/-- The Go function `order(s string, errs *toerr.Errors) Order`. -/
def order (s : String) (errs : Errors) : Order × Errors :=
  if s = "fixed" then (.FixedOrder, errs)
  else if s = "variable" then (.VariableOrder, errs)
  else if s = "" then (.UnknownOrder, errs)
  else (.UnknownOrder, errs.Append (.errorf "unknown order: %q" s))

/-! ## `encoding/hex` and `regexp` (Go standard library), and `colour` -/

/-- Sequencing of calls: the rest runs on what a call returned; a panic or a divergence
ends the run. -/
def Run.bind {α β : Type} (r : Run α) (f : α → Run β) : Run β :=
  match r with
  | .ret a => f a
  | .panic msg => .panic msg
  | .diverge => .diverge

/-- The table `reverseHexTable` of `encoding/hex`: the value of a hex digit byte, `none` for
every other byte (where the table holds `0xff`). -/
def fromHexChar (c : Nat) : Option Nat :=
  if 48 ≤ c ∧ c ≤ 57 then some (c - 48)
  else if 97 ≤ c ∧ c ≤ 102 then some (c - 97 + 10)
  else if 65 ≤ c ∧ c ≤ 70 then some (c - 65 + 10)
  else none

/-- The loop of `hex.Decode` over the remaining source bytes, with the bytes decoded so
far, and the check of a trailing odd byte after it. -/
def hexDecodeLoop : List Nat → List Nat → List Nat × Option GoError
  | [], acc => (acc, none)
  | [p], acc =>
    match fromHexChar p with
    | none => (acc, some (.hexInvalidByte p))
    | some _ => (acc, some .hexErrLength)
  | p :: q :: rest, acc =>
    match fromHexChar p with
    | none => (acc, some (.hexInvalidByte p))
    | some a =>
      match fromHexChar q with
      | none => (acc, some (.hexInvalidByte q))
      | some b => hexDecodeLoop rest (acc ++ [a * 16 + b])

/-- The Go function `hex.DecodeString(s)`: the bytes decoded before any error, and the
error. -/
def hexDecodeString (s : String) : List Nat × Option GoError :=
  hexDecodeLoop (goBytes s) []

/-- The character class `[0-9A-F]` of `colourRegex`. -/
def isUpperHexDigit (c : Char) : Bool :=
  (48 ≤ c.toNat ∧ c.toNat ≤ 57) ∨ (65 ≤ c.toNat ∧ c.toNat ≤ 70)

/-- The call `colourRegex.MatchString(s)` for the pattern `^[0-9A-F]{6}$`: the whole text is
six characters of the class. -/
def colourRegexMatch (s : String) : Bool :=
  s.data.length = 6 ∧ s.data.all isUpperHexDigit

/-- The Go function `colour(s string, errs *toerr.Errors) *Colour`; an index out of range
on `b[0]`, `b[1]`, `b[2]` is a panic. -/
def colour (s : String) (errs : Errors) : Run (Option Nat × Errors) :=
  if s = "" then .ret (none, errs)
  else if colourRegexMatch s = false then
    .ret (none, errs.Append (.errorf "invalid colour: %q" s))
  else
    match hexDecodeString s with
    | (_, some err) => .ret (none, errs.Append err)
    | (b, none) =>
      match b with
      | b0 :: b1 :: b2 :: _ =>
        .ret (some ((b0 <<< 16 ||| b1 <<< 8 ||| b2) % 2 ^ 32), errs)
      | _ => .panic "index out of range"

/-- The colour that `colour` returns for a text (read off a call on the empty aggregator). -/
def colourValue (s : String) : Option Nat :=
  match colour s {} with
  | .ret (c, _) => c
  | _ => none

/-! ## `xml_transform.go`: the XML nodes and `transform`

The Go declarations of the XML node types are not among the sources; the records below
carry the attributes that `transform` reads, under the names it reads them by. -/

/-- The Go struct `XmlIdName` (`XmlIdName{id, name, description}` in `xml_test.go`). -/
structure XmlIdName where
  Id : Int := 0
  Name : String := ""
  Description : String := ""
  deriving DecidableEq, Repr, Inhabited

/-- The Go struct `XmlFixedValue`. -/
structure XmlFixedValue where
  Name : String := ""
  Value : String := ""
  deriving DecidableEq, Repr, Inhabited

/-- The Go struct `XmlMask`. -/
structure XmlMask where
  Name : String := ""
  Values : List XmlFixedValue := []
  deriving DecidableEq, Repr, Inhabited

/-- The Go struct `XmlString` (`Typ` is its field `Type`). -/
structure XmlString where
  idName : XmlIdName := {}
  Typ : String := ""
  Length : String := ""
  LengthUnit : String := ""
  Encoding : String := ""
  MustMatch : String := ""
  RepeatMin : String := ""
  RepeatMax : String := ""
  FillColour : String := ""
  StrokeColour : String := ""
  Values : List XmlFixedValue := []
  deriving DecidableEq, Repr, Inhabited

/-- The Go struct `XmlBinary`. -/
structure XmlBinary where
  idName : XmlIdName := {}
  Length : String := ""
  LengthUnit : String := ""
  RepeatMin : String := ""
  RepeatMax : String := ""
  FillColour : String := ""
  StrokeColour : String := ""
  MustMatch : String := ""
  Values : List XmlFixedValue := []
  deriving DecidableEq, Repr, Inhabited

/-- The Go struct `XmlNumber` (`Typ` is its field `Type`). -/
structure XmlNumber where
  idName : XmlIdName := {}
  Typ : String := ""
  Length : String := ""
  LengthUnit : String := ""
  RepeatMin : String := ""
  RepeatMax : String := ""
  Endian : String := ""
  Signed : String := ""
  Display : String := ""
  FillColour : String := ""
  StrokeColour : String := ""
  MustMatch : String := ""
  Values : List XmlFixedValue := []
  Masks : List XmlMask := []
  deriving DecidableEq, Repr, Inhabited

/-- The Go struct `XmlStructRef`. -/
structure XmlStructRef where
  idName : XmlIdName := {}
  RepeatMin : String := ""
  RepeatMax : String := ""
  FillColour : String := ""
  StrokeColour : String := ""
  deriving DecidableEq, Repr, Inhabited

/-- The Go struct `XmlCustom`. -/
structure XmlCustom where
  idName : XmlIdName := {}
  deriving DecidableEq, Repr, Inhabited

/-- The Go struct `XmlGrammarRef`. -/
structure XmlGrammarRef where
  idName : XmlIdName := {}
  deriving DecidableEq, Repr, Inhabited

/-- The Go struct `XmlOffset`. -/
structure XmlOffset where
  idName : XmlIdName := {}
  deriving DecidableEq, Repr, Inhabited

/-- The Go struct `XmlScriptElement`. -/
structure XmlScriptElement where
  idName : XmlIdName := {}
  deriving DecidableEq, Repr, Inhabited

/-- The attributes of the Go struct `XmlStructure` (its children `Elements` come with the
node, see `XmlElement`). -/
structure XmlStructureAttr where
  idName : XmlIdName := {}
  Length : String := ""
  LengthOffset : String := ""
  LengthUnit : String := ""
  RepeatMin : String := ""
  RepeatMax : String := ""
  Endian : String := ""
  Signed : String := ""
  Encoding : String := ""
  Order : String := ""
  Display : String := ""
  FillColour : String := ""
  StrokeColour : String := ""
  deriving DecidableEq, Repr, Inhabited

/-- A non-nil value of the Go interface `XmlElement`: a child node of a structure, with
the method `transform(errs) Element`.  A structure node comes with its child nodes. -/
inductive XmlElement where
  | ofStructure (xml : XmlStructureAttr) (elements : List XmlElement)
  | ofString (xml : XmlString)
  | ofBinary (xml : XmlBinary)
  | ofNumber (xml : XmlNumber)
  | ofCustom (xml : XmlCustom)
  | ofStructRef (xml : XmlStructRef)
  | ofGrammarRef (xml : XmlGrammarRef)
  | ofOffset (xml : XmlOffset)
  | ofScriptElement (xml : XmlScriptElement)
  deriving Repr, Inhabited

/-- The Go struct `XmlStructure`: the attributes and the child nodes `Elements`. -/
structure XmlStructure where
  attr : XmlStructureAttr := {}
  Elements : List XmlElement := []
  deriving Repr, Inhabited

/-- The Go struct `XmlGrammar`. -/
structure XmlGrammar where
  idName : XmlIdName := {}
  Author : String := ""
  Ext : String := ""
  Email : String := ""
  Complete : String := ""
  Uti : String := ""
  Start : String := ""
  Structures : List XmlStructure := []
  deriving Repr, Inhabited

/-- The element that `transform` returns, by value: the struct behind the returned pointer
and, for a Grammar or a Structure, the elements appended to it, in order (in these values
the slice field of the struct itself stays empty).  The back-pointer `Xml` to the node is
left out. -/
inductive Element where
  | ofGrammar (g : Grammar) (elements : List Element)
  | ofGrammarRef (g : GrammarRef)
  | ofStructure (s : Structure) (elements : List Element)
  | ofCustom (c : Custom)
  | ofStructRef (s : StructRef)
  | ofString (s : StringElement)
  | ofBinary (b : Binary)
  | ofNumber (n : Number)
  | ofOffset (o : Offset)
  | ofScript (s : Script)
  deriving Repr, Inhabited

/-- The method `XmlIdName.toIdName(elemType, errs) Base` is not among the sources: it is a
parameter, a function of the identity, the type name and the aggregator, giving the `Base`
and the aggregator as it leaves it. -/
abbrev ToIdName := XmlIdName → String → Errors → Base × Errors

/-- A `toIdName` uses the aggregator only to append: what it builds and what it appends do
not depend on what was collected before. -/
def AppendOnly (toIdName : ToIdName) : Prop :=
  ∀ (x : XmlIdName) (t : String) (errs : Errors),
    toIdName x t errs =
      ((toIdName x t {}).1, { errs := errs.errs ++ (toIdName x t {}).2.errs })

/-- A sample `toIdName`: it copies the identity and appends nothing. -/
def plainToIdName : ToIdName :=
  fun x t errs => ({ elemType := t, id := x.Id, name := x.Name, description := x.Description },
    errs)

/-- Modelled from the spec: `Reference`, which `transform` applies to the attribute texts
`length`, `lengthOffset`, `repeatMin` and `repeatMax`, is not among the sources.  The fields
it fills are declared `Expression` in `structs.go`, and the spec has the empty attribute
text stand for nil, "not specified", and otherwise a constant or a formula: that is
`NewExpression`. -/
def Reference (s : String) : Option Expression := NewExpression s

/-- The Go function `strings.TrimPrefix(s, pre)`. -/
def TrimPrefix (s pre : String) : String :=
  if pre.data.isPrefixOf s.data then String.mk (s.data.drop pre.data.length) else s

/-- The Go method `func (xml *XmlMask) transform(errs *toerr.Errors) *Mask`; it never uses
the aggregator. -/
def XmlMask.transform (xml : XmlMask) : Mask :=
  { name := xml.Name
    values := xml.Values.map (fun x => ({ name := x.Name } : FixedValue)) }

/-- The Go method `func (xml *XmlGrammarRef) transform(errs *toerr.Errors) Element`. -/
def XmlGrammarRef.transform (toIdName : ToIdName) (xml : XmlGrammarRef) (errs : Errors) :
    Run (GrammarRef × Errors) :=
  let (base, e1) := toIdName xml.idName "GrammarRef" errs
  .ret ({ base := base }, e1)

/-- The Go method `func (xml *XmlCustom) transform(errs *toerr.Errors) Element`. -/
def XmlCustom.transform (toIdName : ToIdName) (xml : XmlCustom) (errs : Errors) :
    Run (Custom × Errors) :=
  let (base, e1) := toIdName xml.idName "Custom" errs
  .ret ({ base := base }, e1)

/-- The Go method `func (xml *XmlOffset) transform(errs *toerr.Errors) Element`. -/
def XmlOffset.transform (toIdName : ToIdName) (xml : XmlOffset) (errs : Errors) :
    Run (Offset × Errors) :=
  let (base, e1) := toIdName xml.idName "Offset" errs
  .ret ({ base := base }, e1)

/-- The Go method `func (xml *XmlScriptElement) transform(errs *toerr.Errors) Element`. -/
def XmlScriptElement.transform (toIdName : ToIdName) (xml : XmlScriptElement)
    (errs : Errors) : Run (Script × Errors) :=
  let (base, e1) := toIdName xml.idName "ScriptElement" errs
  .ret ({ base := base }, e1)

/-- The Go method `func (xml *XmlStructRef) transform(errs *toerr.Errors) Element`. -/
def XmlStructRef.transform (toIdName : ToIdName) (xml : XmlStructRef) (errs : Errors) :
    Run (StructRef × Errors) :=
  let (base, e1) := toIdName xml.idName "StructRef" errs
  let repeatMin := Reference xml.RepeatMin
  let repeatMax := Reference xml.RepeatMax
  (colour xml.FillColour e1).bind fun (fill, e2) =>
  (colour xml.StrokeColour e2).bind fun (stroke, e3) =>
  .ret ({ base := base
          repeats := { repeatMin := repeatMin, repeatMax := repeatMax }
          colourful := { fillColour := fill, strokeColour := stroke } }, e3)

/-- The composite literal `&String{...}` that opens `XmlString.transform`, its calls in
the order Go evaluates them. -/
def XmlString.literal (toIdName : ToIdName) (xml : XmlString) (errs : Errors) :
    Run (StringElement × Errors) :=
  let (base, e1) := toIdName xml.idName "String" errs
  let length := Reference xml.Length
  let (lengthUnit, e2) := lengthunit xml.LengthUnit e1
  let (mustMatch, e3) := yesno xml.MustMatch e2
  let repeatMin := Reference xml.RepeatMin
  let repeatMax := Reference xml.RepeatMax
  (colour xml.FillColour e3).bind fun (fill, e4) =>
  (colour xml.StrokeColour e4).bind fun (stroke, e5) =>
  .ret ({ base := base
          typ := xml.Typ
          length := length
          lengthUnit := lengthUnit
          encoding := xml.Encoding
          mustMatch := mustMatch
          repeats := { repeatMin := repeatMin, repeatMax := repeatMax }
          colourful := { fillColour := fill, strokeColour := stroke } }, e5)

/-- The check `if s.length == "" { ... }` of `XmlString.transform`: with the length unset,
a `fixed-length` or `pascal` string gets a `validationError` carrying the element. -/
def XmlString.lengthCheck (s : StringElement) (errs : Errors) : Errors :=
  if s.length = none then
    if s.typ = "fixed-length" then
      errs.Append (.validationError ⟨.String, s.base⟩
        (.message "fixed-length strings requires a length"))
    else if s.typ = "pascal" then
      errs.Append (.validationError ⟨.String, s.base⟩
        (.message "pascal strings requires a length"))
    else errs
  else errs

/-- The diagnostics the length check of `XmlString.transform` appends for the element `s`:
what it leaves in an empty aggregator. -/
def XmlString.lengthDiag (s : StringElement) : List GoError :=
  (XmlString.lengthCheck s {}).errs

/-- The Go method `func (xml *XmlString) transform(errs *toerr.Errors) Element`. -/
def XmlString.transform (toIdName : ToIdName) (xml : XmlString) (errs : Errors) :
    Run (StringElement × Errors) :=
  (XmlString.literal toIdName xml errs).bind fun (s, e1) =>
  let e2 := XmlString.lengthCheck s e1
  let values := s.values ++
    xml.Values.map (fun x => ({ name := x.Name, value := x.Value } : FixedStringValue))
  .ret ({ s with values := values }, e2)

/-- The loop over `xml.Values` of `XmlBinary.transform`: each value is hex-decoded after
trimming `0x` and `0X`, a decoding error is appended, and the value is kept either way. -/
def XmlBinary.valuesLoop :
    List XmlFixedValue → List FixedBinaryValue → Errors → List FixedBinaryValue × Errors
  | [], values, errs => (values, errs)
  | x :: rest, values, errs =>
    let bs := TrimPrefix (TrimPrefix x.Value "0x") "0X"
    let (value, err) := hexDecodeString bs
    let errs1 :=
      match err with
      | some e => errs.Append e
      | none => errs
    XmlBinary.valuesLoop rest (values ++ [{ name := x.Name, value := value }]) errs1

/-- The Go method `func (xml *XmlBinary) transform(errs *toerr.Errors) Element`. -/
def XmlBinary.transform (toIdName : ToIdName) (xml : XmlBinary) (errs : Errors) :
    Run (Binary × Errors) :=
  let (base, e1) := toIdName xml.idName "Binary" errs
  let length := Reference xml.Length
  let (lengthUnit, e2) := lengthunit xml.LengthUnit e1
  let repeatMin := Reference xml.RepeatMin
  let repeatMax := Reference xml.RepeatMax
  (colour xml.FillColour e2).bind fun (fill, e3) =>
  (colour xml.StrokeColour e3).bind fun (stroke, e4) =>
  let (mustMatch, e5) := yesno xml.MustMatch e4
  let b : Binary :=
    { base := base
      length := length
      lengthUnit := lengthUnit
      repeats := { repeatMin := repeatMin, repeatMax := repeatMax }
      colourful := { fillColour := fill, strokeColour := stroke }
      mustMatch := mustMatch }
  let (values, e6) := XmlBinary.valuesLoop xml.Values b.values e5
  .ret ({ b with values := values }, e6)

/-- The Go method `func (xml *XmlNumber) transform(errs *toerr.Errors) Element`. -/
def XmlNumber.transform (toIdName : ToIdName) (xml : XmlNumber) (errs : Errors) :
    Run (Number × Errors) :=
  let (base, e1) := toIdName xml.idName "Number" errs
  let length := Reference xml.Length
  let (lengthUnit, e2) := lengthunit xml.LengthUnit e1
  let repeatMin := Reference xml.RepeatMin
  let repeatMax := Reference xml.RepeatMax
  let (endian, e3) := endian xml.Endian e2
  let (signed, e4) := yesno xml.Signed e3
  let (display, e5) := display xml.Display e4
  (colour xml.FillColour e5).bind fun (fill, e6) =>
  (colour xml.StrokeColour e6).bind fun (stroke, e7) =>
  let (mustMatch, e8) := yesno xml.MustMatch e7
  let n : Number :=
    { base := base
      type := xml.Typ
      length := length
      lengthUnit := lengthUnit
      repeats := { repeatMin := repeatMin, repeatMax := repeatMax }
      endian := endian
      signed := signed
      display := display
      colourful := { fillColour := fill, strokeColour := stroke }
      mustMatch := mustMatch }
  let values := n.values ++ xml.Values.map (fun x => ({ name := x.Name } : FixedValue))
  let masks := n.masks ++ xml.Masks.map XmlMask.transform
  .ret ({ n with values := values, masks := masks }, e8)

/-- The composite literal `&Structure{...}` that opens `XmlStructure.transform`, its calls
in the order Go evaluates them. -/
def XmlStructure.literal (toIdName : ToIdName) (xml : XmlStructureAttr) (errs : Errors) :
    Run (Structure × Errors) :=
  let (base, e1) := toIdName xml.idName "Structure" errs
  let length := Reference xml.Length
  let lengthOffset := Reference xml.LengthOffset
  let (lengthUnit, e2) := lengthunit xml.LengthUnit e1
  let repeatMin := Reference xml.RepeatMin
  let repeatMax := Reference xml.RepeatMax
  let (endian, e3) := endian xml.Endian e2
  let (signed, e4) := yesno xml.Signed e3
  let (order, e5) := order xml.Order e4
  let (display, e6) := display xml.Display e5
  (colour xml.FillColour e6).bind fun (fill, e7) =>
  (colour xml.StrokeColour e7).bind fun (stroke, e8) =>
  .ret ({ base := base
          length := length
          lengthOffset := lengthOffset
          lengthUnit := lengthUnit
          repeats := { repeatMin := repeatMin, repeatMax := repeatMax }
          endian := endian
          signed := signed
          encoding := xml.Encoding
          order := order
          display := display
          colourful := { fillColour := fill, strokeColour := stroke } }, e8)

mutual
/-- The method `transform(errs *toerr.Errors) Element` of a child node, dispatched on its
concrete type; for a structure node this is
`func (xml *XmlStructure) transform(errs *toerr.Errors) Element`: the literal, then the
loop that appends the transform of every child. -/
def XmlElement.transform (toIdName : ToIdName) : XmlElement → Errors → Run (Element × Errors)
  | .ofStructure xml elements, errs =>
    (XmlStructure.literal toIdName xml errs).bind fun (s, e1) =>
    (XmlElement.transformAll toIdName elements e1).bind fun (els, e2) =>
    .ret (.ofStructure s els, e2)
  | .ofString xml, errs =>
    (XmlString.transform toIdName xml errs).bind fun (s, e1) => .ret (.ofString s, e1)
  | .ofBinary xml, errs =>
    (XmlBinary.transform toIdName xml errs).bind fun (b, e1) => .ret (.ofBinary b, e1)
  | .ofNumber xml, errs =>
    (XmlNumber.transform toIdName xml errs).bind fun (n, e1) => .ret (.ofNumber n, e1)
  | .ofCustom xml, errs =>
    (XmlCustom.transform toIdName xml errs).bind fun (c, e1) => .ret (.ofCustom c, e1)
  | .ofStructRef xml, errs =>
    (XmlStructRef.transform toIdName xml errs).bind fun (r, e1) => .ret (.ofStructRef r, e1)
  | .ofGrammarRef xml, errs =>
    (XmlGrammarRef.transform toIdName xml errs).bind fun (g, e1) => .ret (.ofGrammarRef g, e1)
  | .ofOffset xml, errs =>
    (XmlOffset.transform toIdName xml errs).bind fun (o, e1) => .ret (.ofOffset o, e1)
  | .ofScriptElement xml, errs =>
    (XmlScriptElement.transform toIdName xml errs).bind fun (c, e1) => .ret (.ofScript c, e1)
/-- The loop `for _, e := range xml.Elements { s.elements = append(s.elements,
e.transform(errs)) }`: the transformed children in order, and the aggregator after them. -/
def XmlElement.transformAll (toIdName : ToIdName) :
    List XmlElement → Errors → Run (List Element × Errors)
  | [], errs => .ret ([], errs)
  | e :: rest, errs =>
    (XmlElement.transform toIdName e errs).bind fun (el, e1) =>
    (XmlElement.transformAll toIdName rest e1).bind fun (els, e2) =>
    .ret (el :: els, e2)
end

/-- The Go method `func (xml *XmlStructure) transform(errs *toerr.Errors) Element`. -/
def XmlStructure.transform (toIdName : ToIdName) (xml : XmlStructure) (errs : Errors) :
    Run (Element × Errors) :=
  XmlElement.transform toIdName (.ofStructure xml.attr xml.Elements) errs

/-- The loop `for _, s := range xml.Structures { g.Elements = append(g.Elements,
s.transform(errs)) }` of `XmlGrammar.transform`. -/
def XmlGrammar.structuresLoop (toIdName : ToIdName) :
    List XmlStructure → Errors → Run (List Element × Errors)
  | [], errs => .ret ([], errs)
  | s :: rest, errs =>
    (XmlStructure.transform toIdName s errs).bind fun (el, e1) =>
    (XmlGrammar.structuresLoop toIdName rest e1).bind fun (els, e2) =>
    .ret (el :: els, e2)

/-- The check `if g.Xml.Start == "" { ... }` of `XmlGrammar.transform`. -/
def XmlGrammar.startCheck (xml : XmlGrammar) (g : Grammar) (errs : Errors) : Errors :=
  if xml.Start = "" then
    errs.Append (.validationError ⟨.Grammar, g.base⟩ (.message "missing start attribute"))
  else errs

/-- The Go method `func (xml *XmlGrammar) transform(errs *toerr.Errors) Element`. -/
def XmlGrammar.transform (toIdName : ToIdName) (xml : XmlGrammar) (errs : Errors) :
    Run (Element × Errors) :=
  let (base, e1) := toIdName xml.idName "Grammar" errs
  let (complete, e2) := yesno xml.Complete e1
  let g : Grammar :=
    { base := base
      author := xml.Author
      ext := xml.Ext
      email := xml.Email
      complete := complete
      uti := xml.Uti }
  let e3 := XmlGrammar.startCheck xml g e2
  (XmlGrammar.structuresLoop toIdName xml.Structures e3).bind fun (els, e4) =>
  .ret (.ofGrammar g els, e4)

/-- The diagnostics an attribute contributes: none when it is valid, the one given when it
is not. -/
def diagUnless (valid : Bool) (e : GoError) : List GoError :=
  if valid then [] else [e]

/-- A structure node with an unknown endian, an invalid `signed`, an unknown display and a
lower-case fill colour, and two children: a fixed-length string without a length and a
number with an unknown length unit and the length `-5`. -/
def sampleStructureNode : XmlStructure :=
  { attr := { idName := { Id := 1, Name := "s" }, Endian := "middle", Signed := "maybe",
              Display := "octal", FillColour := "ffffff" }
    Elements :=
      [.ofString { idName := { Id := 2, Name := "t" }, Typ := "fixed-length" },
       .ofNumber { idName := { Id := 3, Name := "n" }, Length := "-5", LengthUnit := "nibble" }] }

/-- The value that `yesno` returns for a text (read off a call on the empty aggregator). -/
def yesnoValue (s : String) : TriBool := (yesno s {}).1

/-- The value that `endian` returns for a text. -/
def endianValue (s : String) : Endian := (endian s {}).1

/-- The value that `display` returns for a text. -/
def displayValue (s : String) : Display := (display s {}).1

/-- The value that `lengthunit` returns for a text. -/
def lengthunitValue (s : String) : LengthUnit := (lengthunit s {}).1

/-- The value that `order` returns for a text. -/
def orderValue (s : String) : Order := (order s {}).1

/-- The diagnostics that the transform of a node appends (read off a call on the empty
aggregator). -/
def XmlElement.diags (toIdName : ToIdName) (xml : XmlElement) : List GoError :=
  match XmlElement.transform toIdName xml {} with
  | .ret (_, e) => e.errs
  | _ => []

/-- The values that the loop of `XmlBinary.transform` appends (read off a run from nothing). -/
def XmlBinary.valuesOf (vs : List XmlFixedValue) : List FixedBinaryValue :=
  (XmlBinary.valuesLoop vs [] {}).1

/-- The diagnostics that the loop of `XmlBinary.transform` appends: the hex-decoding errors
of the values, in order. -/
def XmlBinary.valueDiags (vs : List XmlFixedValue) : List GoError :=
  (XmlBinary.valuesLoop vs [] {}).2.errs

/-- The diagnostic of the attribute `endian`: none for a keyword or the empty text. -/
def endianDiag (s : String) : List GoError :=
  diagUnless (s = "big" ∨ s = "little" ∨ s = "dynamic" ∨ s = "")
    (.errorf "unknown endian: %q" s)

/-- The diagnostic of the attribute `display`. -/
def displayDiag (s : String) : List GoError :=
  diagUnless (s = "dec" ∨ s = "hex" ∨ s = "binary" ∨ s = "")
    (.errorf "unknown display: %q" s)

/-- The diagnostic of the attribute `lengthunit`. -/
def lengthunitDiag (s : String) : List GoError :=
  diagUnless (s = "bit" ∨ s = "byte" ∨ s = "") (.errorf "unknown length unit: %q" s)

/-- The diagnostic of the attribute `order`. -/
def orderDiag (s : String) : List GoError :=
  diagUnless (s = "fixed" ∨ s = "variable" ∨ s = "") (.errorf "unknown order: %q" s)

/-- The diagnostic of a colour attribute: none for the empty text or six upper-case hex
digits. -/
def colourDiag (s : String) : List GoError :=
  diagUnless (s = "" ∨ colourRegexMatch s = true) (.errorf "invalid colour: %q" s)

/-! ## `SetSigned`, the colour constants, the table `validValues` and the `default` tags -/

/-- The Go method `func (s *Structure) SetSigned(signed bool)` on the structure at address
`a`: the store after the assignment `s.signed = boolOf(signed)`. -/
def Structure.SetSigned (h : Heap) (a : Nat) (signed : Bool) : Heap :=
  { h with
    structures := fun x =>
      if x = a then { h.structures a with signed := boolOf signed } else h.structures x }

/-- The Go method `func (n *Number) SetSigned(signed bool)` on the number at address `a`:
the store after the assignment `n.signed = boolOf(signed)`. -/
def Number.SetSigned (h : Heap) (a : Nat) (signed : Bool) : Heap :=
  { h with
    numbers := fun x =>
      if x = a then { h.numbers a with signed := boolOf signed } else h.numbers x }

/-- The Go constant `Black = Colour(0x000000)`. -/
def Black : Nat := 0x000000

/-- The Go constant `White = Colour(0xffffff)`. -/
def White : Nat := 0xffffff

/-- The Go map `validValues` of `validate.go`, as the lookup `validValues[tag]`: `none` for
a key the map does not hold.  The source comments it: "The first value is the default if
otherwise not specified." -/
def validValues : String → Option (List String)
  | "bool" => some ["no", "yes"]
  | "endian" => some ["little", "big", "dynamic"]
  | "lang" => some ["Lua", "Python"]
  | "lengthunit" => some ["byte", "bit"]
  | "display" => some ["dec", "hex", "binary"]
  | "string-type" => some ["zero-terminated", "fixed-length", "pascal"]
  | "number-type" => some ["integer", "float"]
  | _ => none

/-- The first value that `validValues` lists for a key. -/
def firstValidValue (tag : String) : Option String :=
  (validValues tag).bind List.head?

/-- The values that the struct tags `default:"..."` of `structs.go` name for the fields of a
`Number`. -/
structure Defaults where
  lengthUnit : LengthUnit
  endian : Endian
  signed : TriBool
  display : Display
  mustMatch : TriBool
  deriving DecidableEq, Repr

/-- The struct tags of `Number`: `lengthUnit` has `default:"ByteLengthUnit"`, `endian` has
`default:"LittleEndian"`, `signed` has `default:"True"`, `display` has
`default:"DecDisplay"` and `mustMatch` has `default:"True"`; `Structure` carries the same
tags on `lengthUnit`, `endian`, `signed` and `display`. -/
def Number.defaults : Defaults :=
  { lengthUnit := .ByteLengthUnit
    endian := .LittleEndian
    signed := .True
    display := .DecDisplay
    mustMatch := .True }

/-! ## The reading of a colour text that the specification gives -/

/-- The sixteen characters a colour text may hold. -/
def upperHexDigits : List Char := "0123456789ABCDEF".data

/-- The value of a character as an upper-case hex digit: its place among
`0123456789ABCDEF`. -/
def upperHexDigitValue (c : Char) : Nat := upperHexDigits.indexOf c

/-- A text read as a base-16 number, most significant digit first. -/
def base16Value (s : String) : Nat :=
  s.data.foldl (fun acc c => acc * 16 + upperHexDigitValue c) 0

/-- The text consists of exactly six characters from `0-9A-F`. -/
def IsSixUpperHex (s : String) : Prop :=
  s.data.length = 6 ∧ ∀ c ∈ s.data, c ∈ upperHexDigits

instance (s : String) : Decidable (IsSixUpperHex s) :=
  inferInstanceAs (Decidable (s.data.length = 6 ∧ ∀ c ∈ s.data, c ∈ upperHexDigits))

/-! ## The value of an integer literal, as the Go language specification gives it -/

/-- The value of a digit byte: `0`-`9` count 0 to 9, `a`-`z` and `A`-`Z` count from 10. -/
def digitValue (c : Nat) : Nat :=
  if 48 ≤ c ∧ c ≤ 57 then c - 48
  else if 97 ≤ c ∧ c ≤ 122 then c - 97 + 10
  else c - 65 + 10

/-- The number that a run of digits spells in a base, continuing from `acc`; underscores
only separate digits and count for nothing. -/
def digitsValue (base : Nat) : List Nat → Nat → Nat
  | [], acc => acc
  | c :: cs, acc =>
    if c = 95 then digitsValue base cs acc
    else digitsValue base cs (acc * base + digitValue c)

/-- The value of an `int_lit` of the Go grammar: binary after `0b` or `0B`, octal after
`0o` or `0O` or a leading `0`, hexadecimal after `0x` or `0X`, decimal otherwise. -/
def intLitValue : List Nat → Nat
  | [] => 0
  | c :: rest =>
    if c = 48 then
      match rest with
      | [] => 0
      | p :: ds =>
        if p = 98 ∨ p = 66 then digitsValue 2 ds 0
        else if p = 111 ∨ p = 79 then digitsValue 8 ds 0
        else if p = 120 ∨ p = 88 then digitsValue 16 ds 0
        else digitsValue 8 rest 0
    else digitsValue 10 (c :: rest) 0

/-- The value of an optionally signed `int_lit`. -/
def signedIntLitValue (s : List Nat) : Int :=
  if s.head? = some 45 then -(intLitValue s.tail : Int)
  else if s.head? = some 43 then (intLitValue s.tail : Int)
  else (intLitValue s : Int)

/-- The value of the integer literal that a text spells (read from its bytes). -/
def IntegerLiteralValue (s : String) : Int := signedIntLitValue (goBytes s)

/-! # Theorems -/

/-! ## Attribute fallback: `Signed()` -/

theorem structure_signed_succ (h : Heap) (fuel a : Nat) :
    Structure.Signed h (fuel + 1) a =
      if (h.structures a).signed ≠ .UnknownBool then (h.structures a).signed.bool
      else
        match (h.structures a).derives with
        | some d => Structure.Signed h fuel d
        | none =>
          match (h.structures a).parent with
          | some p => Structure.Signed h fuel p
          | none => .ret true := rfl

theorem number_signed_succ (h : Heap) (fuel a : Nat) :
    Number.Signed h (fuel + 1) a =
      if (h.numbers a).signed ≠ .UnknownBool then (h.numbers a).signed.bool
      else
        match (h.numbers a).derives with
        | some d => Number.Signed h fuel d
        | none =>
          match (h.numbers a).parent with
          | some p => Structure.Signed h fuel p
          | none => .ret true := rfl

theorem bool_boolOf (b : Bool) : (boolOf b).bool = .ret b := by
  cases b <;> rfl

theorem boolOf_ne_unknown (b : Bool) : boolOf b ≠ .UnknownBool := by
  cases b <;> simp [boolOf]

theorem exists_boolOf_of_ne_unknown (t : TriBool) (ht : t ≠ .UnknownBool) :
    ∃ b, t = boolOf b := by
  cases t
  · exact absurd rfl ht
  · exact ⟨false, rfl⟩
  · exact ⟨true, rfl⟩

/-- More budget never changes a value that `Structure.Signed` has returned. -/
theorem structure_signed_mono (h : Heap) :
    ∀ (fuel a : Nat) (b : Bool), Structure.Signed h fuel a = .ret b →
      ∀ k, Structure.Signed h (fuel + k) a = .ret b := by
  intro fuel
  induction fuel with
  | zero => intro a b hb; simp [Structure.Signed] at hb
  | succ fuel ih =>
    intro a b hb k
    have hk : fuel + 1 + k = (fuel + k) + 1 := by omega
    rw [hk, structure_signed_succ]
    rw [structure_signed_succ] at hb
    split
    · next hs => rw [if_pos hs] at hb; exact hb
    · next hs =>
      rw [if_neg hs] at hb
      split
      · next d hd => rw [hd] at hb; exact ih d b hb k
      · next hd =>
        rw [hd] at hb
        split
        · next p hp => rw [hp] at hb; exact ih p b hb k
        · next hp => rw [hp] at hb; exact hb

/-- More budget never changes a value that `Number.Signed` has returned. -/
theorem number_signed_mono (h : Heap) :
    ∀ (fuel a : Nat) (b : Bool), Number.Signed h fuel a = .ret b →
      ∀ k, Number.Signed h (fuel + k) a = .ret b := by
  intro fuel
  induction fuel with
  | zero => intro a b hb; simp [Number.Signed] at hb
  | succ fuel ih =>
    intro a b hb k
    have hk : fuel + 1 + k = (fuel + k) + 1 := by omega
    rw [hk, number_signed_succ]
    rw [number_signed_succ] at hb
    split
    · next hs => rw [if_pos hs] at hb; exact hb
    · next hs =>
      rw [if_neg hs] at hb
      split
      · next d hd => rw [hd] at hb; exact ih d b hb k
      · next hd =>
        rw [hd] at hb
        split
        · next p hp => rw [hp] at hb; exact structure_signed_mono h fuel p b hb k
        · next hp => rw [hp] at hb; exact hb

theorem node_signed_mono (h : Heap) (fuel : Nat) (x : Node) (b : Bool)
    (hb : Node.Signed h fuel x = .ret b) (fuel' : Nat) (hle : fuel ≤ fuel') :
    Node.Signed h fuel' x = .ret b := by
  obtain ⟨k, rfl⟩ := Nat.exists_eq_add_of_le hle
  cases x with
  | ofStructure a => exact structure_signed_mono h fuel a b hb k
  | ofNumber a => exact number_signed_mono h fuel a b hb k

/-- An explicitly set `signed` on a Number is what `Signed()` returns. -/
theorem number_signed_set (h : Heap) (fuel a : Nat) (b : Bool)
    (hb : (h.numbers a).signed = boolOf b) : Number.Signed h (fuel + 1) a = .ret b := by
  rw [number_signed_succ, if_pos (by rw [hb]; exact boolOf_ne_unknown b), hb, bool_boolOf]

/-- An explicitly set `signed` on a Structure is what `Signed()` returns. -/
theorem structure_signed_set (h : Heap) (fuel a : Nat) (b : Bool)
    (hb : (h.structures a).signed = boolOf b) :
    Structure.Signed h (fuel + 1) a = .ret b := by
  rw [structure_signed_succ, if_pos (by rw [hb]; exact boolOf_ne_unknown b), hb,
    bool_boolOf]

/-- C1: the fallback chain of `Signed()`, for every Number and every Structure and any
positive recursion budget: an explicitly set `signed` (the value `boolOf b`) is returned as
`b`; unset with no `derives` and no `parent` gives `true`; unset with no `derives` and a
parent `p` gives whatever `p.Signed()` gives; unset with a `derives` target whose `signed`
is explicitly set gives the target's value. -/
theorem signed_fallback_chain (h : Heap) (a fuel : Nat) :
    (∀ b, (h.numbers a).signed = boolOf b → Number.Signed h (fuel + 1) a = .ret b) ∧
    ((h.numbers a).signed = .UnknownBool → (h.numbers a).derives = none →
      (h.numbers a).parent = none → Number.Signed h (fuel + 1) a = .ret true) ∧
    (∀ p, (h.numbers a).signed = .UnknownBool → (h.numbers a).derives = none →
      (h.numbers a).parent = some p →
      Number.Signed h (fuel + 1) a = Structure.Signed h fuel p) ∧
    (∀ d b, (h.numbers a).signed = .UnknownBool → (h.numbers a).derives = some d →
      (h.numbers d).signed = boolOf b → Number.Signed h (fuel + 2) a = .ret b) ∧
    (∀ b, (h.structures a).signed = boolOf b → Structure.Signed h (fuel + 1) a = .ret b) ∧
    ((h.structures a).signed = .UnknownBool → (h.structures a).derives = none →
      (h.structures a).parent = none → Structure.Signed h (fuel + 1) a = .ret true) ∧
    (∀ p, (h.structures a).signed = .UnknownBool → (h.structures a).derives = none →
      (h.structures a).parent = some p →
      Structure.Signed h (fuel + 1) a = Structure.Signed h fuel p) ∧
    (∀ d b, (h.structures a).signed = .UnknownBool → (h.structures a).derives = some d →
      (h.structures d).signed = boolOf b → Structure.Signed h (fuel + 2) a = .ret b) := by
  have hn := number_signed_set h fuel
  have hs := structure_signed_set h fuel
  refine ⟨hn a, ?_, ?_, ?_, hs a, ?_, ?_, ?_⟩
  · intro h1 h2 h3
    rw [number_signed_succ, h1, h2, h3]; rfl
  · intro p h1 h2 h3
    rw [number_signed_succ, h1, h2, h3]; rfl
  · intro d b h1 h2 h3
    rw [number_signed_succ, h1, h2]
    exact hn d b h3
  · intro h1 h2 h3
    rw [structure_signed_succ, h1, h2, h3]; rfl
  · intro p h1 h2 h3
    rw [structure_signed_succ, h1, h2, h3]; rfl
  · intro d b h1 h2 h3
    rw [structure_signed_succ, h1, h2]
    exact hs d b h3

/-- Witness for C1 on the sample store: one instance of each of the eight cases. -/
theorem signed_fallback_chain_witness :
    Number.Signed sampleHeap 1 3 = .ret true ∧
    Number.Signed sampleHeap 1 1 = .ret true ∧
    Number.Signed sampleHeap 2 4 = Structure.Signed sampleHeap 1 0 ∧
    Number.Signed sampleHeap 2 2 = .ret true ∧
    Structure.Signed sampleHeap 1 0 = .ret false ∧
    Structure.Signed sampleHeap 1 7 = .ret true ∧
    Structure.Signed sampleHeap 2 1 = Structure.Signed sampleHeap 1 0 ∧
    Structure.Signed sampleHeap 2 2 = .ret false :=
  ⟨(signed_fallback_chain sampleHeap 3 0).1 true rfl,
   (signed_fallback_chain sampleHeap 1 0).2.1 rfl rfl rfl,
   (signed_fallback_chain sampleHeap 4 1).2.2.1 0 rfl rfl rfl,
   (signed_fallback_chain sampleHeap 2 0).2.2.2.1 3 true rfl rfl rfl,
   (signed_fallback_chain sampleHeap 0 0).2.2.2.2.1 false rfl,
   (signed_fallback_chain sampleHeap 7 0).2.2.2.2.2.1 rfl rfl rfl,
   (signed_fallback_chain sampleHeap 1 1).2.2.2.2.2.2.1 0 rfl rfl rfl,
   (signed_fallback_chain sampleHeap 2 0).2.2.2.2.2.2.2 0 false rfl rfl rfl⟩

theorem link_structure_derives (h : Heap) (a d : Nat)
    (hd : (h.structures a).derives = some d) :
    Link h (.ofStructure d) (.ofStructure a) := by
  simp [Link, Heap.links, hd]

theorem link_structure_parent (h : Heap) (a p : Nat)
    (hp : (h.structures a).parent = some p) :
    Link h (.ofStructure p) (.ofStructure a) := by
  simp [Link, Heap.links, hp]

theorem link_number_derives (h : Heap) (a d : Nat)
    (hd : (h.numbers a).derives = some d) :
    Link h (.ofNumber d) (.ofNumber a) := by
  simp [Link, Heap.links, hd]

theorem link_number_parent (h : Heap) (a p : Nat)
    (hp : (h.numbers a).parent = some p) :
    Link h (.ofStructure p) (.ofNumber a) := by
  simp [Link, Heap.links, hp]

theorem reaches_step (h : Heap) {x y z : Node} (hxy : Link h y x) (hyz : Reaches h y z) :
    Reaches h x z :=
  Relation.ReflTransGen.head hxy hyz

/-- Along an acyclic chain in which no node has `signed` set, `Signed()` ends in the
hard-coded default `true`. -/
theorem signed_default_of_unset (h : Heap) (x : Node) (hacc : Acc (Link h) x)
    (hun : ∀ y, Reaches h x y → h.signedOf y = .UnknownBool) :
    ∃ fuel, Node.Signed h fuel x = .ret true := by
  induction hacc with
  | intro x _ ih =>
    have hx : h.signedOf x = .UnknownBool := hun x Relation.ReflTransGen.refl
    cases x with
    | ofStructure a =>
      have hs : (h.structures a).signed = .UnknownBool := hx
      cases hd : (h.structures a).derives with
      | some d =>
        have hl := link_structure_derives h a d hd
        obtain ⟨fuel, hf⟩ := ih _ hl (fun y hy => hun y (reaches_step h hl hy))
        refine ⟨fuel + 1, ?_⟩
        show Structure.Signed h (fuel + 1) a = .ret true
        rw [structure_signed_succ, hs, hd]
        exact hf
      | none =>
        cases hp : (h.structures a).parent with
        | some p =>
          have hl := link_structure_parent h a p hp
          obtain ⟨fuel, hf⟩ := ih _ hl (fun y hy => hun y (reaches_step h hl hy))
          refine ⟨fuel + 1, ?_⟩
          show Structure.Signed h (fuel + 1) a = .ret true
          rw [structure_signed_succ, hs, hd, hp]
          exact hf
        | none =>
          refine ⟨1, ?_⟩
          show Structure.Signed h (0 + 1) a = .ret true
          rw [structure_signed_succ, hs, hd, hp]
          rfl
    | ofNumber a =>
      have hs : (h.numbers a).signed = .UnknownBool := hx
      cases hd : (h.numbers a).derives with
      | some d =>
        have hl := link_number_derives h a d hd
        obtain ⟨fuel, hf⟩ := ih _ hl (fun y hy => hun y (reaches_step h hl hy))
        refine ⟨fuel + 1, ?_⟩
        show Number.Signed h (fuel + 1) a = .ret true
        rw [number_signed_succ, hs, hd]
        exact hf
      | none =>
        cases hp : (h.numbers a).parent with
        | some p =>
          have hl := link_number_parent h a p hp
          obtain ⟨fuel, hf⟩ := ih _ hl (fun y hy => hun y (reaches_step h hl hy))
          refine ⟨fuel + 1, ?_⟩
          show Number.Signed h (fuel + 1) a = .ret true
          rw [number_signed_succ, hs, hd, hp]
          exact hf
        | none =>
          refine ⟨1, ?_⟩
          show Number.Signed h (0 + 1) a = .ret true
          rw [number_signed_succ, hs, hd, hp]
          rfl

/-- On any store, `Signed()` never panics: `bool()` is reached only behind the guard
`signed != UnknownBool`. -/
theorem structure_signed_ne_panic (h : Heap) :
    ∀ (fuel a : Nat) (msg : String), Structure.Signed h fuel a ≠ .panic msg := by
  intro fuel
  induction fuel with
  | zero => intro a msg; simp [Structure.Signed]
  | succ fuel ih =>
    intro a msg
    rw [structure_signed_succ]
    split
    · next hs =>
      obtain ⟨b, hb⟩ := exists_boolOf_of_ne_unknown _ hs
      rw [hb, bool_boolOf]; simp
    · split
      · exact ih _ msg
      · split
        · exact ih _ msg
        · simp

theorem number_signed_ne_panic (h : Heap) :
    ∀ (fuel a : Nat) (msg : String), Number.Signed h fuel a ≠ .panic msg := by
  intro fuel
  induction fuel with
  | zero => intro a msg; simp [Number.Signed]
  | succ fuel ih =>
    intro a msg
    rw [number_signed_succ]
    split
    · next hs =>
      obtain ⟨b, hb⟩ := exists_boolOf_of_ne_unknown _ hs
      rw [hb, bool_boolOf]; simp
    · split
      · exact ih _ msg
      · split
        · exact structure_signed_ne_panic h fuel _ msg
        · simp

/-- On an acyclic chain `Signed()` returns a boolean for some recursion budget. -/
theorem signed_returns_of_acc (h : Heap) (x : Node) (hacc : Acc (Link h) x) :
    ∃ (b : Bool) (fuel : Nat), Node.Signed h fuel x = .ret b := by
  induction hacc with
  | intro x _ ih =>
    cases x with
    | ofStructure a =>
      by_cases hs : (h.structures a).signed = .UnknownBool
      · cases hd : (h.structures a).derives with
        | some d =>
          obtain ⟨b, fuel, hf⟩ := ih _ (link_structure_derives h a d hd)
          refine ⟨b, fuel + 1, ?_⟩
          show Structure.Signed h (fuel + 1) a = .ret b
          rw [structure_signed_succ, hs, hd]
          exact hf
        | none =>
          cases hp : (h.structures a).parent with
          | some p =>
            obtain ⟨b, fuel, hf⟩ := ih _ (link_structure_parent h a p hp)
            refine ⟨b, fuel + 1, ?_⟩
            show Structure.Signed h (fuel + 1) a = .ret b
            rw [structure_signed_succ, hs, hd, hp]
            exact hf
          | none =>
            refine ⟨true, 1, ?_⟩
            show Structure.Signed h (0 + 1) a = .ret true
            rw [structure_signed_succ, hs, hd, hp]
            rfl
      · obtain ⟨b, hb⟩ := exists_boolOf_of_ne_unknown _ hs
        exact ⟨b, 1, structure_signed_set h 0 a b hb⟩
    | ofNumber a =>
      by_cases hs : (h.numbers a).signed = .UnknownBool
      · cases hd : (h.numbers a).derives with
        | some d =>
          obtain ⟨b, fuel, hf⟩ := ih _ (link_number_derives h a d hd)
          refine ⟨b, fuel + 1, ?_⟩
          show Number.Signed h (fuel + 1) a = .ret b
          rw [number_signed_succ, hs, hd]
          exact hf
        | none =>
          cases hp : (h.numbers a).parent with
          | some p =>
            obtain ⟨b, fuel, hf⟩ := ih _ (link_number_parent h a p hp)
            refine ⟨b, fuel + 1, ?_⟩
            show Number.Signed h (fuel + 1) a = .ret b
            rw [number_signed_succ, hs, hd, hp]
            exact hf
          | none =>
            refine ⟨true, 1, ?_⟩
            show Number.Signed h (0 + 1) a = .ret true
            rw [number_signed_succ, hs, hd, hp]
            rfl
      · obtain ⟨b, hb⟩ := exists_boolOf_of_ne_unknown _ hs
        exact ⟨b, 1, number_signed_set h 0 a b hb⟩

theorem reaches_of_no_links (h : Heap) (x y : Node) (hx : h.links x = [])
    (hxy : Reaches h x y) : y = x := by
  rcases Relation.ReflTransGen.cases_head hxy with heq | ⟨z, hz, _⟩
  · exact heq.symm
  · have : z ∈ h.links x := hz
    rw [hx] at this
    simp at this

theorem acc_of_no_links (h : Heap) (x : Node) (hx : h.links x = []) : Acc (Link h) x := by
  refine Acc.intro x (fun y hy => ?_)
  have : y ∈ h.links x := hy
  rw [hx] at this
  simp at this

/-- C2, as stated, fails on the sample store.  Number 0 has no `signed`, derives from
number 1 and sits inside structure 0; number 1 has no `signed` and no links, so nothing
it falls back to has `signed` set; structure 0 has `signed = False` and resolves to
`false`.  Yet `Signed()` on number 0 returns `true` for every budget that lets it return,
and never `false`. -/
theorem number_signed_ignores_parent_counterexample :
    (sampleHeap.numbers 0).signed = .UnknownBool ∧
    (sampleHeap.numbers 0).derives = some 1 ∧
    (sampleHeap.numbers 0).parent = some 0 ∧
    (∀ y, Reaches sampleHeap (.ofNumber 1) y → sampleHeap.signedOf y = .UnknownBool) ∧
    (sampleHeap.structures 0).signed = .False ∧
    (∀ fuel, Structure.Signed sampleHeap (fuel + 1) 0 = .ret false) ∧
    (∀ fuel, Number.Signed sampleHeap (fuel + 2) 0 = .ret true) ∧
    (∀ fuel, Number.Signed sampleHeap fuel 0 ≠ .ret false) := by
  refine ⟨rfl, rfl, rfl, ?_, rfl, fun _ => rfl, fun _ => rfl, ?_⟩
  · intro y hy
    rw [reaches_of_no_links sampleHeap (.ofNumber 1) y rfl hy]
    rfl
  · intro fuel
    match fuel with
    | 0 => simp [Number.Signed]
    | 1 => simp [Number.Signed, sampleHeap]
    | k + 2 =>
      have : Number.Signed sampleHeap (k + 2) 0 = .ret true := rfl
      rw [this]; simp

/-- C2 (amended): for every Number with unset `signed` that has a `derives` target, whatever
its enclosing Structure is, if the target's chain is acyclic and neither the target nor
anything it falls back to has `signed` set, then `Signed()` returns the hard-coded default
`true` (the derives target's resolved value), for every large enough recursion budget. -/
theorem number_signed_derives_default (h : Heap) (a d : Nat)
    (hs : (h.numbers a).signed = .UnknownBool)
    (hd : (h.numbers a).derives = some d)
    (hacc : Acc (Link h) (.ofNumber d))
    (hun : ∀ y, Reaches h (.ofNumber d) y → h.signedOf y = .UnknownBool) :
    ∃ fuel, ∀ fuel', fuel ≤ fuel' → Number.Signed h fuel' a = .ret true := by
  obtain ⟨fuel, hf⟩ := signed_default_of_unset h _ hacc hun
  refine ⟨fuel + 1, fun fuel' hle => ?_⟩
  have h1 : Number.Signed h (fuel + 1) a = .ret true := by
    rw [number_signed_succ, hs, hd]
    exact hf
  obtain ⟨k, rfl⟩ := Nat.exists_eq_add_of_le hle
  exact number_signed_mono h (fuel + 1) a true h1 k

/-- Witness for the amended C2: number 0 of the sample store, whose parent has
`signed = False`, resolves to `true`. -/
theorem number_signed_derives_default_witness :
    (sampleHeap.numbers 0).parent = some 0 ∧ (sampleHeap.structures 0).signed = .False ∧
    ∃ fuel, ∀ fuel', fuel ≤ fuel' → Number.Signed sampleHeap fuel' 0 = .ret true :=
  ⟨rfl, rfl, number_signed_derives_default sampleHeap 0 1 rfl rfl
    (acc_of_no_links sampleHeap (.ofNumber 1) rfl)
    (fun y hy => by rw [reaches_of_no_links sampleHeap (.ofNumber 1) y rfl hy]; rfl)⟩

/-- C3: explicit values mask ancestors.  Two stores that agree on the explicitly set
`signed` of a Number (or Structure) give the same `Signed()` whatever `derives`, `parent`
and everything else are in either; and for a node with unset `signed` and no `derives`
whose parent `p` has `signed` explicitly set, two stores that agree on that value give the
same `Signed()` whatever the `derives` and `parent` of `p` are in either. -/
theorem signed_masked_by_explicit (h h' : Heap) (a p fuel fuel' : Nat) (b : Bool) :
    ((h.numbers a).signed = boolOf b → (h'.numbers a).signed = boolOf b →
      Number.Signed h (fuel + 1) a = Number.Signed h' (fuel' + 1) a) ∧
    ((h.structures a).signed = boolOf b → (h'.structures a).signed = boolOf b →
      Structure.Signed h (fuel + 1) a = Structure.Signed h' (fuel' + 1) a) ∧
    ((h.numbers a).signed = .UnknownBool → (h.numbers a).derives = none →
      (h.numbers a).parent = some p →
      (h'.numbers a).signed = .UnknownBool → (h'.numbers a).derives = none →
      (h'.numbers a).parent = some p →
      (h.structures p).signed = boolOf b → (h'.structures p).signed = boolOf b →
      Number.Signed h (fuel + 2) a = Number.Signed h' (fuel' + 2) a) ∧
    ((h.structures a).signed = .UnknownBool → (h.structures a).derives = none →
      (h.structures a).parent = some p →
      (h'.structures a).signed = .UnknownBool → (h'.structures a).derives = none →
      (h'.structures a).parent = some p →
      (h.structures p).signed = boolOf b → (h'.structures p).signed = boolOf b →
      Structure.Signed h (fuel + 2) a = Structure.Signed h' (fuel' + 2) a) := by
  refine ⟨?_, ?_, ?_, ?_⟩
  · intro h1 h2
    rw [number_signed_set h fuel a b h1, number_signed_set h' fuel' a b h2]
  · intro h1 h2
    rw [structure_signed_set h fuel a b h1, structure_signed_set h' fuel' a b h2]
  · intro h1 h2 h3 h1' h2' h3' hp hp'
    rw [number_signed_succ, h1, h2, h3, number_signed_succ, h1', h2', h3']
    show Structure.Signed h (fuel + 1) p = Structure.Signed h' (fuel' + 1) p
    rw [structure_signed_set h fuel p b hp, structure_signed_set h' fuel' p b hp']
  · intro h1 h2 h3 h1' h2' h3' hp hp'
    rw [structure_signed_succ, h1, h2, h3, structure_signed_succ, h1', h2', h3']
    show Structure.Signed h (fuel + 1) p = Structure.Signed h' (fuel' + 1) p
    rw [structure_signed_set h fuel p b hp, structure_signed_set h' fuel' p b hp']

/-- Witness for C3: the sample store and its relinked variant agree on number 3
(`signed="yes"`), on structure 0 (`signed="no"`), and on number 4 and structure 1 (both
unset, inside structure 0), although the ancestors differ. -/
theorem signed_masked_by_explicit_witness :
    Number.Signed sampleHeap 1 3 = Number.Signed sampleHeapRelinked 4 3 ∧
    Structure.Signed sampleHeap 1 0 = Structure.Signed sampleHeapRelinked 4 0 ∧
    Number.Signed sampleHeap 2 4 = Number.Signed sampleHeapRelinked 5 4 ∧
    Structure.Signed sampleHeap 2 1 = Structure.Signed sampleHeapRelinked 5 1 :=
  ⟨(signed_masked_by_explicit sampleHeap sampleHeapRelinked 3 0 0 3 true).1 rfl rfl,
   (signed_masked_by_explicit sampleHeap sampleHeapRelinked 0 0 0 3 false).2.1 rfl rfl,
   (signed_masked_by_explicit sampleHeap sampleHeapRelinked 4 0 0 3 false).2.2.1
     rfl rfl rfl rfl rfl rfl rfl rfl,
   (signed_masked_by_explicit sampleHeap sampleHeapRelinked 1 0 0 3 false).2.2.2
     rfl rfl rfl rfl rfl rfl rfl rfl⟩

/-- C4: for every Number and Structure whose `derives` and `parent` links admit no endless
chain (`Acc`: on a finite graph, no cycle is reachable), `Signed()` returns one boolean for
every large enough recursion budget; and on any store it never panics, since `bool()` is
only reached behind the guard `signed != UnknownBool`. -/
theorem signed_terminates (h : Heap) (x : Node) (hacc : Acc (Link h) x) :
    (∃ (b : Bool) (fuel : Nat), ∀ fuel', fuel ≤ fuel' → Node.Signed h fuel' x = .ret b) ∧
    (∀ (fuel : Nat) (msg : String), Node.Signed h fuel x ≠ .panic msg) := by
  constructor
  · obtain ⟨b, fuel, hf⟩ := signed_returns_of_acc h x hacc
    exact ⟨b, fuel, fun fuel' hle => node_signed_mono h fuel x b hf fuel' hle⟩
  · intro fuel msg
    cases x with
    | ofStructure a => exact structure_signed_ne_panic h fuel a msg
    | ofNumber a => exact number_signed_ne_panic h fuel a msg

/-- On a cycle of unset nodes the recursion of `Signed()` never returns, whatever the
budget: the acyclicity that C4 asks for cannot be dropped. -/
theorem signed_diverges_on_cycle (fuel : Nat) :
    Structure.Signed cyclicHeap fuel 0 = .diverge := by
  induction fuel with
  | zero => rfl
  | succ fuel ih =>
    rw [structure_signed_succ]
    exact ih

theorem sampleHeap_acc_number0 : Acc (Link sampleHeap) (.ofNumber 0) := by
  refine Acc.intro _ (fun y hy => ?_)
  have hmem : y ∈ [Node.ofNumber 1, Node.ofStructure 0] := hy
  simp only [List.mem_cons, List.mem_singleton, List.mem_nil_iff, or_false] at hmem
  rcases hmem with rfl | rfl
  · exact acc_of_no_links sampleHeap (.ofNumber 1) rfl
  · exact acc_of_no_links sampleHeap (.ofStructure 0) rfl

/-- Witness for C4: number 0 of the sample store, which derives from number 1 and sits
inside structure 0, has an acyclic chain, and `Signed()` returns on it. -/
theorem signed_terminates_witness :
    (∃ (b : Bool) (fuel : Nat), ∀ fuel', fuel ≤ fuel' →
      Node.Signed sampleHeap fuel' (.ofNumber 0) = .ret b) ∧
    (∀ (fuel : Nat) (msg : String), Node.Signed sampleHeap fuel (.ofNumber 0) ≠ .panic msg) :=
  signed_terminates sampleHeap (.ofNumber 0) sampleHeap_acc_number0

/-! ## Expressions -/

theorem charBytes_digitChar (d : Nat) (hd : d < 10) :
    charBytes (Nat.digitChar d) = [48 + d] := by
  interval_cases d <;> rfl

/-- One round of the digit loop of `ParseUint` on a decimal digit, away from overflow. -/
theorem parseUintLoop_digit (base0 : Bool) (d n : Nat) (cs : List Nat) (us : Bool)
    (hd : d < 10) (hn : n * 10 + d < 2 ^ 64) :
    parseUintLoop 10 base0 ((2 ^ 64 - 1) / 10 + 1) (2 ^ 64 - 1) ((48 + d) :: cs) n us =
      parseUintLoop 10 base0 ((2 ^ 64 - 1) / 10 + 1) (2 ^ 64 - 1) cs (n * 10 + d) us := by
  have h1 : ¬ (48 + d = 95 ∧ base0 = true) := by omega
  have h2 : 48 ≤ 48 + d ∧ 48 + d ≤ 57 := by omega
  have h3 : ¬ (d ≥ 10) := by omega
  have h4 : ¬ (n ≥ (2 ^ 64 - 1) / 10 + 1) := by norm_num at hn ⊢; omega
  have h5 : n * 10 % 2 ^ 64 = n * 10 := Nat.mod_eq_of_lt (by omega)
  have h6 : (n * 10 + d) % 2 ^ 64 = n * 10 + d := Nat.mod_eq_of_lt hn
  have h7 : ¬ (n * 10 + d < n * 10 ∨ n * 10 + d > 2 ^ 64 - 1) := by omega
  rw [parseUintLoop]
  simp only [h1, h2, and_self, if_true, if_false, Nat.add_sub_cancel_left, h3, h4, h5, h6, h7]

/-- Parsing the decimal digits that `Nat.toDigitsCore` puts in front of `ds`, starting from
zero, is parsing `ds` starting from `n`. -/
theorem parseUintLoop_toDigitsCore (base0 us : Bool) :
    ∀ (fuel n : Nat) (ds : List Char), n < fuel → n < 2 ^ 64 →
      parseUintLoop 10 base0 ((2 ^ 64 - 1) / 10 + 1) (2 ^ 64 - 1)
          ((Nat.toDigitsCore 10 fuel n ds).flatMap charBytes) 0 us =
        parseUintLoop 10 base0 ((2 ^ 64 - 1) / 10 + 1) (2 ^ 64 - 1)
          (ds.flatMap charBytes) n us := by
  intro fuel
  induction fuel with
  | zero => intro n ds hn; omega
  | succ fuel ih =>
    intro n ds hn h64
    have hmod : n % 10 < 10 := Nat.mod_lt n (by decide)
    by_cases h0 : n / 10 = 0
    · have hn10 : n % 10 = n := by omega
      have hstep := parseUintLoop_digit base0 (n % 10) 0 (ds.flatMap charBytes) us hmod
        (by omega)
      simp only [Nat.toDigitsCore, h0, if_true, List.flatMap_cons, charBytes_digitChar _ hmod,
        List.singleton_append]
      rw [hstep]
      congr 1
      omega
    · have hstep := parseUintLoop_digit base0 (n % 10) (n / 10) (ds.flatMap charBytes) us
        hmod (by omega)
      simp only [Nat.toDigitsCore, h0, if_false]
      rw [ih (n / 10) _ (by omega) (by omega)]
      simp only [List.flatMap_cons, charBytes_digitChar _ hmod, List.singleton_append]
      rw [hstep]
      congr 1
      omega

/-- The decimal representation of a positive number starts with a digit from 1 to 9. -/
theorem toDigitsCore_head :
    ∀ (fuel n : Nat) (ds : List Char), 1 ≤ n → n < fuel →
      ∃ d rest, 1 ≤ d ∧ d < 10 ∧ Nat.toDigitsCore 10 fuel n ds = Nat.digitChar d :: rest := by
  intro fuel
  induction fuel with
  | zero => intro n ds _ hn; omega
  | succ fuel ih =>
    intro n ds h1 hn
    by_cases h0 : n / 10 = 0
    · refine ⟨n % 10, ds, by omega, Nat.mod_lt n (by decide), ?_⟩
      simp only [Nat.toDigitsCore, h0, if_true]
    · obtain ⟨d, rest, hd1, hd2, hrest⟩ :=
        ih (n / 10) (Nat.digitChar (n % 10) :: ds) (by omega) (by omega)
      refine ⟨d, rest, hd1, hd2, ?_⟩
      simp only [Nat.toDigitsCore, h0, if_false]
      exact hrest

theorem goBytes_repr (n : Nat) :
    goBytes (Nat.repr n) = (Nat.toDigits 10 n).flatMap charBytes := rfl

/-- The bytes of the decimal representation of a natural number: never empty, and the
first one is a digit, `0` only for the number zero. -/
theorem goBytes_repr_head (n : Nat) :
    ∃ d rest, d < 10 ∧ (n = 0 ∨ 1 ≤ d) ∧ goBytes (Nat.repr n) = (48 + d) :: rest := by
  by_cases hn : n = 0
  · subst hn
    exact ⟨0, [], by decide, Or.inl rfl, rfl⟩
  · obtain ⟨d, rest, hd1, hd2, hrest⟩ :=
      toDigitsCore_head (n + 1) n [] (by omega) (by omega)
    refine ⟨d, rest.flatMap charBytes, hd2, Or.inr hd1, ?_⟩
    rw [goBytes_repr, Nat.toDigits, hrest, List.flatMap_cons, charBytes_digitChar d hd2]
    rfl

/-- `ParseUint` with base 0 reads the decimal representation of any 64-bit unsigned
number back. -/
theorem parseUint_repr (n : Nat) (hn : n < 2 ^ 64) :
    ParseUint (goBytes (Nat.repr n)) 0 64 = (n, none) := by
  by_cases h0 : n = 0
  · subst h0; rfl
  · obtain ⟨d, rest, hd, hd1, hs⟩ := goBytes_repr_head n
    have hd1 : 1 ≤ d := by
      rcases hd1 with h | h
      · exact absurd h h0
      · exact h
    have hloop := parseUintLoop_toDigitsCore true false (n + 1) n [] (by omega) hn
    rw [← Nat.toDigits, ← goBytes_repr, hs] at hloop
    have hhead : ¬ ((48 + d) = 48) := by omega
    have hnil : parseUintLoop 10 true ((2 ^ 64 - 1) / 10 + 1) (2 ^ 64 - 1)
        (([] : List Char).flatMap charBytes) n false = .ok (n, false) := by
      simp [parseUintLoop]
    rw [hnil] at hloop
    simp only [ParseUint, basePrefix, hs, List.head?_cons, Option.some.injEq, hhead,
      if_false] at hloop ⊢
    norm_num at hloop
    simp [hloop]

theorem goBytes_minus (t : String) : goBytes ("-" ++ t) = 45 :: goBytes t := by
  simp [goBytes, String.data_append, charBytes]

/-- `ParseInt` with base 0 and 64 bits reads the decimal representation of any `int64`
back. -/
theorem parseInt_toString (n : Int) (hlo : -2 ^ 63 ≤ n) (hhi : n < 2 ^ 63) :
    ParseInt (goBytes (toString n)) 0 64 = (n, none) := by
  cases n with
  | ofNat m =>
    have hm : m < 2 ^ 63 := by
      have : (m : Int) < 2 ^ 63 := hhi
      exact_mod_cast this
    have hstr : toString (Int.ofNat m) = Nat.repr m := rfl
    obtain ⟨d, rest, hd, _, hs⟩ := goBytes_repr_head m
    have hu := parseUint_repr m (by omega)
    rw [hstr]
    rw [hs] at hu
    have h45 : ¬ (48 + d = 45) := by omega
    have h43 : ¬ (48 + d = 43) := by omega
    have hcut : ¬ (m ≥ 2 ^ 63) := by omega
    have hint : int64 (m : Int) = (m : Int) := by
      simp only [int64]
      omega
    simp only [ParseInt, hs, List.head?_cons, Option.some.injEq, h45, h43, or_self, if_false,
      hu]
    simp [hint]
    omega
  | negSucc m =>
    have hm : m + 1 ≤ 2 ^ 63 := by
      have : -(2 : Int) ^ 63 ≤ Int.negSucc m := hlo
      rw [Int.negSucc_eq] at this
      have h2 : ((m + 1 : Nat) : Int) ≤ 2 ^ 63 := by push_cast; omega
      exact_mod_cast h2
    have hstr : toString (Int.negSucc m) = "-" ++ Nat.repr (m + 1) := rfl
    have hu := parseUint_repr (m + 1) (by omega)
    rw [hstr, goBytes_minus]
    have hcut : ¬ (m + 1 > 2 ^ 63) := by omega
    have hint : int64 (-int64 ((m + 1 : Nat) : Int)) = Int.negSucc m := by
      rw [Int.negSucc_eq]
      simp only [int64]
      push_cast
      omega
    simp only [ParseInt, List.head?_cons, List.tail_cons]
    simp only [reduceCtorEq, if_false, or_true, if_true, hu]
    simp only [hint]
    simp
    omega

theorem toString_int_ne_empty (n : Int) : toString n ≠ "" := by
  intro h
  have hb : goBytes (toString n) = [] := by rw [h]; rfl
  cases n with
  | ofNat m =>
    obtain ⟨d, rest, _, _, hs⟩ := goBytes_repr_head m
    have hstr : toString (Int.ofNat m) = Nat.repr m := rfl
    rw [hstr, hs] at hb
    exact List.cons_ne_nil _ _ hb
  | negSucc m =>
    have hstr : toString (Int.negSucc m) = "-" ++ Nat.repr (m + 1) := rfl
    rw [hstr, goBytes_minus] at hb
    exact List.cons_ne_nil _ _ hb

/-- `NewExpression` on a non-empty string is decided by `ParseInt`. -/
theorem newExpression_of_ne_empty (expr : String) (h : expr ≠ "") :
    NewExpression expr =
      match ParseInt (goBytes expr) 0 64 with
      | (i, none) => some (.ConstExpression i)
      | (_, some _) => some (.StringExpression expr) := by
  simp only [NewExpression, h, if_false]

/-- C8: `NewExpression` returns nil exactly on the empty string, and on every non-empty
string it returns a `ConstExpression` or a `StringExpression`. -/
theorem newExpression_nil_iff_empty (expr : String) :
    (NewExpression expr = none ↔ expr = "") ∧
    (expr ≠ "" →
      (∃ i, NewExpression expr = some (.ConstExpression i)) ∨
      (∃ t, NewExpression expr = some (.StringExpression t))) := by
  have hne : expr ≠ "" →
      (∃ i, NewExpression expr = some (.ConstExpression i)) ∨
      (∃ t, NewExpression expr = some (.StringExpression t)) := by
    intro h
    rw [newExpression_of_ne_empty expr h]
    rcases hp : ParseInt (goBytes expr) 0 64 with ⟨i, e⟩
    cases e with
    | none => exact Or.inl ⟨i, rfl⟩
    | some e => exact Or.inr ⟨expr, rfl⟩
  refine ⟨⟨fun hnil => ?_, fun hempty => ?_⟩, hne⟩
  · by_contra h
    rcases hne h with ⟨i, hi⟩ | ⟨t, ht⟩
    · rw [hi] at hnil; exact Option.some_ne_none _ hnil
    · rw [ht] at hnil; exact Option.some_ne_none _ hnil
  · subst hempty; rfl

/-- Witness for C8: the non-empty input `"prev.size"`. -/
theorem newExpression_nil_iff_empty_witness :
    (∃ i, NewExpression "prev.size" = some (.ConstExpression i)) ∨
    (∃ t, NewExpression "prev.size" = some (.StringExpression t)) :=
  (newExpression_nil_iff_empty "prev.size").2 (by decide)

/-- C10: every Padding element has repeat bounds `ConstExpression(1)`, a nil length, the
byte length unit, and an `update` that leaves the store, the document and the error
aggregator as they were. -/
theorem padding_fixed (p : Padding) (h : Heap) (u : Ufwb) (parent : Option Nat)
    (errs : Errors) :
    p.RepeatMin = some (.ConstExpression 1) ∧
    p.RepeatMax = some (.ConstExpression 1) ∧
    p.Length = none ∧
    p.LengthUnit = .ByteLengthUnit ∧
    p.update h u parent errs = (h, u, errs) :=
  ⟨rfl, rfl, rfl, rfl, rfl⟩

/-! ### What `ParseInt` accepts is an integer literal -/

theorem lt_128_of_lower_lt (c : Nat) (h : lower c < 128) : c < 128 := by
  by_contra hc
  have hge : c ≥ 2 ^ 7 := by omega
  obtain ⟨i, hi, hbit⟩ := Nat.ge_two_pow_implies_high_bit_true hge
  have hor : (lower c).testBit i = true := by
    simp only [lower, Nat.testBit_or, hbit, Bool.true_or]
  have h2 := Nat.testBit_implies_ge hor
  have h3 : 2 ^ 7 ≤ 2 ^ i := Nat.pow_le_pow_right (by decide) hi
  omega

theorem lower_small :
    ∀ c, c < 128 →
      ((97 ≤ lower c ∧ lower c ≤ 122) →
        (97 ≤ c ∧ c ≤ 122 ∧ lower c = c) ∨ (65 ≤ c ∧ c ≤ 90 ∧ lower c = c + 32)) ∧
      ((48 ≤ c ∧ c ≤ 57) ∨ (97 ≤ c ∧ c ≤ 122) → lower c = c) ∧
      ((65 ≤ c ∧ c ≤ 90) → lower c = c + 32) ∧
      (c = 95 → lower c = 127) := by
  decide

/-- The bytes that `lower` sends into `a`-`z` are the letters. -/
theorem lower_letter (c : Nat) (h1 : 97 ≤ lower c) (h2 : lower c ≤ 122) :
    (97 ≤ c ∧ c ≤ 122 ∧ lower c = c) ∨ (65 ≤ c ∧ c ≤ 90 ∧ lower c = c + 32) :=
  (lower_small c (lt_128_of_lower_lt c (by omega))).1 ⟨h1, h2⟩

theorem lower_of_lowercase (c : Nat) (h : (48 ≤ c ∧ c ≤ 57) ∨ (97 ≤ c ∧ c ≤ 122)) :
    lower c = c :=
  (lower_small c (by omega)).2.1 h

theorem lower_of_uppercase (c : Nat) (h : 65 ≤ c ∧ c ≤ 90) : lower c = c + 32 :=
  (lower_small c (by omega)).2.2.1 h

theorem lower_underscore : lower 95 = 127 := by decide

theorem isDigitOf_iff (base c : Nat) :
    isDigitOf base c = true ↔
      (48 ≤ c ∧ c ≤ 57 ∧ c - 48 < base) ∨ (97 ≤ c ∧ c ≤ 122 ∧ c - 97 + 10 < base) ∨
        (65 ≤ c ∧ c ≤ 90 ∧ c - 65 + 10 < base) := by
  simp [isDigitOf]

/-- One accepted round of the digit loop: the byte was an underscore, or a digit of the
base. -/
theorem parseUintLoop_cons_ok (base cutoff maxVal c n : Nat) (cs : List Nat) (us : Bool)
    (r : Nat × Bool)
    (h : parseUintLoop base true cutoff maxVal (c :: cs) n us = .ok r) :
    (c = 95 ∧ parseUintLoop base true cutoff maxVal cs n true = .ok r) ∨
    (isDigitOf base c = true ∧ ∃ n1, parseUintLoop base true cutoff maxVal cs n1 us = .ok r) := by
  rw [parseUintLoop] at h
  by_cases h95 : c = 95
  · left
    simp only [h95, and_self, if_true] at h
    exact ⟨h95, h⟩
  · right
    simp only [h95, false_and, if_false] at h
    by_cases hdec : 48 ≤ c ∧ c ≤ 57
    · simp only [hdec, and_self, if_true] at h
      by_cases hb : c - 48 ≥ base
      · simp [hb] at h
      · simp only [hb, if_false] at h
        split at h
        · simp at h
        · split at h
          · simp at h
          · exact ⟨(isDigitOf_iff base c).2 (Or.inl ⟨hdec.1, hdec.2, by omega⟩), _, h⟩
    · simp only [hdec, if_false] at h
      by_cases hlet : 97 ≤ lower c ∧ lower c ≤ 122
      · simp only [hlet, and_self, if_true] at h
        by_cases hb : lower c - 97 + 10 ≥ base
        · simp [hb] at h
        · simp only [hb, if_false] at h
          split at h
          · simp at h
          · split at h
            · simp at h
            · refine ⟨(isDigitOf_iff base c).2 ?_, _, h⟩
              rcases lower_letter c hlet.1 hlet.2 with ⟨h1, h2, h3⟩ | ⟨h1, h2, h3⟩
              · exact Or.inr (Or.inl ⟨h1, h2, by omega⟩)
              · exact Or.inr (Or.inr ⟨h1, h2, by omega⟩)
      · simp [hlet] at h

/-- Once an underscore has been skipped the loop reports it. -/
theorem parseUintLoop_us_true (base cutoff maxVal : Nat) :
    ∀ (cs : List Nat) (n : Nat) (r : Nat × Bool),
      parseUintLoop base true cutoff maxVal cs n true = .ok r → r.2 = true := by
  intro cs
  induction cs with
  | nil =>
    intro n r h
    simp only [parseUintLoop, Except.ok.injEq] at h
    rw [← h]
  | cons c cs ih =>
    intro n r h
    rcases parseUintLoop_cons_ok base cutoff maxVal c n cs true r h with ⟨_, h2⟩ | ⟨_, n1, h2⟩
    · exact ih n r h2
    · exact ih n1 r h2

/-- Every byte the digit loop accepts is a digit of the base, or an underscore, and then
the loop reports an underscore. -/
theorem parseUintLoop_ok_bytes (base cutoff maxVal : Nat) :
    ∀ (cs : List Nat) (n : Nat) (us : Bool) (r : Nat × Bool),
      parseUintLoop base true cutoff maxVal cs n us = .ok r →
      ∀ c ∈ cs, (c = 95 ∧ r.2 = true) ∨ isDigitOf base c = true := by
  intro cs
  induction cs with
  | nil => intro n us r _ c hc; simp at hc
  | cons c0 cs ih =>
    intro n us r h c hc
    rcases parseUintLoop_cons_ok base cutoff maxVal c0 n cs us r h with
      ⟨h95, h2⟩ | ⟨hdig, n1, h2⟩
    · rcases List.mem_cons.1 hc with rfl | hmem
      · exact Or.inl ⟨h95, parseUintLoop_us_true base cutoff maxVal cs n r h2⟩
      · exact ih n true r h2 c hmem
    · rcases List.mem_cons.1 hc with rfl | hmem
      · exact Or.inr hdig
      · exact ih n1 us r h2 c hmem

theorem isDigitOf_underscore (base : Nat) : isDigitOf base 95 = false := by
  simp [isDigitOf]

theorem sepDigits_cons_digit (base c : Nat) (cs : List Nat) (hc : isDigitOf base c = true)
    (hcs : sepDigits base cs = true) : sepDigits base (c :: cs) = true := by
  have h95 : c ≠ 95 := by
    rintro rfl
    rw [isDigitOf_underscore] at hc
    exact Bool.false_ne_true hc
  rw [sepDigits.eq_def]
  simp [h95, hc, hcs]

theorem sepDigits_of_all_digits (base : Nat) :
    ∀ cs : List Nat, (∀ c ∈ cs, isDigitOf base c = true) → sepDigits base cs = true := by
  intro cs
  induction cs with
  | nil => intro _; rfl
  | cons c cs ih =>
    intro h
    exact sepDigits_cons_digit base c cs (h c (List.mem_cons_self _ _))
      (ih (fun x hx => h x (List.mem_cons_of_mem _ hx)))

theorem underscoreLoop_cons_underscore (hex : Bool) (cs : List Nat) (i : Nat) :
    underscoreLoop hex (95 :: cs) i = if i ≠ 48 then false else underscoreLoop hex cs 95 := by
  rw [underscoreLoop]
  simp [lower_underscore]

theorem underscoreLoop_cons_digit (hex : Bool) (c : Nat) (cs : List Nat) (i : Nat)
    (hc : (48 ≤ c ∧ c ≤ 57) ∨ (hex = true ∧ 97 ≤ lower c ∧ lower c ≤ 102)) :
    underscoreLoop hex (c :: cs) i = underscoreLoop hex cs 48 := by
  rw [underscoreLoop]
  simp only [hc, if_true]

/-- When `underscoreOK` is content with a run of digits and underscores, the run has the
shape `{ [ "_" ] digit }`. -/
theorem sepDigits_of_underscoreLoop (base : Nat) (hex : Bool)
    (hrec : ∀ c, isDigitOf base c = true →
      (48 ≤ c ∧ c ≤ 57) ∨ (hex = true ∧ 97 ≤ lower c ∧ lower c ≤ 102)) :
    ∀ cs : List Nat, (∀ c ∈ cs, c = 95 ∨ isDigitOf base c = true) →
      (underscoreLoop hex cs 48 = true → sepDigits base cs = true) ∧
      (underscoreLoop hex cs 95 = true →
        ∃ d rest, cs = d :: rest ∧ isDigitOf base d = true ∧ sepDigits base rest = true) := by
  intro cs
  induction cs with
  | nil =>
    intro _
    refine ⟨fun _ => rfl, fun h => ?_⟩
    simp [underscoreLoop] at h
  | cons c cs ih =>
    intro hall
    have ihcs := ih (fun x hx => hall x (List.mem_cons_of_mem _ hx))
    rcases hall c (List.mem_cons_self _ _) with h95 | hdig
    · subst h95
      refine ⟨fun h => ?_, fun h => ?_⟩
      · rw [underscoreLoop_cons_underscore] at h
        simp only [ne_eq, not_true_eq_false, if_false] at h
        obtain ⟨d, rest, hcs, hd, hrest⟩ := ihcs.2 h
        subst hcs
        rw [sepDigits.eq_def]
        simp [hd, hrest]
      · rw [underscoreLoop_cons_underscore] at h
        simp at h
    · refine ⟨fun h => ?_, fun h => ?_⟩
      · rw [underscoreLoop_cons_digit hex c cs 48 (hrec c hdig)] at h
        exact sepDigits_cons_digit base c cs hdig (ihcs.1 h)
      · rw [underscoreLoop_cons_digit hex c cs 95 (hrec c hdig)] at h
        exact ⟨c, cs, rfl, hdig, ihcs.1 h⟩

/-- The run of bytes the digit loop accepted has the shape `{ [ "_" ] digit }`, given that
`underscoreOK` was content whenever an underscore was seen. -/
theorem sepDigits_of_bytes (base : Nat) (hex us : Bool) (cs : List Nat)
    (hrec : ∀ c, isDigitOf base c = true →
      (48 ≤ c ∧ c ≤ 57) ∨ (hex = true ∧ 97 ≤ lower c ∧ lower c ≤ 102))
    (hall : ∀ c ∈ cs, (c = 95 ∧ us = true) ∨ isDigitOf base c = true)
    (hus : us = true → underscoreLoop hex cs 48 = true) :
    sepDigits base cs = true := by
  cases us with
  | false =>
    refine sepDigits_of_all_digits base cs (fun c hc => ?_)
    rcases hall c hc with ⟨_, h⟩ | h
    · exact absurd h (by decide)
    · exact h
  | true =>
    refine (sepDigits_of_underscoreLoop base hex hrec cs (fun c hc => ?_)).1 (hus rfl)
    rcases hall c hc with ⟨h, _⟩ | h
    · exact Or.inl h
    · exact Or.inr h

theorem digit_recognised_le_ten (base : Nat) (hb : base ≤ 10) (hex : Bool) (c : Nat)
    (h : isDigitOf base c = true) :
    (48 ≤ c ∧ c ≤ 57) ∨ (hex = true ∧ 97 ≤ lower c ∧ lower c ≤ 102) := by
  rcases (isDigitOf_iff base c).1 h with h1 | h1 | h1
  · exact Or.inl ⟨h1.1, h1.2.1⟩
  · omega
  · omega

theorem digit_recognised_hex (c : Nat) (h : isDigitOf 16 c = true) :
    (48 ≤ c ∧ c ≤ 57) ∨ (true = true ∧ 97 ≤ lower c ∧ lower c ≤ 102) := by
  rcases (isDigitOf_iff 16 c).1 h with h1 | h1 | h1
  · exact Or.inl ⟨h1.1, h1.2.1⟩
  · right
    rw [lower_of_lowercase c (Or.inr ⟨h1.1, h1.2.1⟩)]
    exact ⟨rfl, h1.1, by omega⟩
  · right
    rw [lower_of_uppercase c ⟨h1.1, h1.2.1⟩]
    exact ⟨rfl, by omega, by omega⟩

theorem parseUint_finish (r : Except (Nat × NumErr) (Nat × Bool)) (ok : Bool) (v : Nat)
    (e : Option NumErr)
    (h : (match r with
      | .error (v, e) => (v, some e)
      | .ok (n, us) =>
        if us = true ∧ ok = false then (0, some NumErr.ErrSyntax) else (n, none)) = (v, e)) :
    (e = none → ∃ us, r = .ok (v, us) ∧ (us = true → ok = true)) ∧
    (e = some .ErrRange → ∃ v0, r = .error (v0, .ErrRange) ∧ v = v0) := by
  rcases r with ⟨v0, e0⟩ | ⟨n, us⟩
  · simp only [Prod.mk.injEq] at h
    refine ⟨fun he => ?_, fun he => ?_⟩
    · rw [he] at h; simp at h
    · rw [he] at h
      simp only [Option.some.injEq] at h
      exact ⟨v0, by rw [h.2], h.1.symm⟩
  · by_cases hc : us = true ∧ ok = false
    · simp only [hc, and_self, if_true, Prod.mk.injEq] at h
      refine ⟨fun he => ?_, fun he => ?_⟩
      · rw [he] at h; simp at h
      · rw [he] at h; simp at h
    · simp only [hc, if_false, Prod.mk.injEq] at h
      refine ⟨fun _ => ⟨us, by rw [h.1], fun hu => ?_⟩, fun he => ?_⟩
      · cases ok with
        | true => rfl
        | false => exact absurd ⟨hu, rfl⟩ hc
      · rw [he] at h; simp at h

/-- With base 0 and 64 bits, `ParseUint` on a non-empty string is the digit loop on the
bytes after the prefix, followed by the underscore check. -/
theorem parseUint_zero (s : List Nat) (hs : s ≠ []) :
    ParseUint s 0 64 =
      match parseUintLoop (basePrefix s).1 true ((2 ^ 64 - 1) / (basePrefix s).1 + 1)
          (2 ^ 64 - 1) (basePrefix s).2 0 false with
      | .error (v, e) => (v, some e)
      | .ok (n, us) =>
        if us = true ∧ underscoreOK s = false then (0, some NumErr.ErrSyntax)
        else (n, none) := by
  simp [ParseUint, hs]

theorem underscoreOK_unprefixed (c : Nat) (rest : List Nat) (h45 : c ≠ 45) (h43 : c ≠ 43)
    (h48 : c ≠ 48) : underscoreOK (c :: rest) = underscoreLoop false (c :: rest) 94 := by
  cases rest with
  | nil => simp [underscoreOK, h45, h43]
  | cons c1 cs => simp [underscoreOK, h45, h43, h48]

theorem underscoreOK_prefixed (p : Nat) (ds : List Nat)
    (hp : lower p = 98 ∨ lower p = 111 ∨ lower p = 120) :
    underscoreOK (48 :: p :: ds) = underscoreLoop (decide (lower p = 120)) ds 48 := by
  simp [underscoreOK, hp]

theorem underscoreOK_zero_plain (p : Nat) (ds : List Nat)
    (hp : ¬ (lower p = 98 ∨ lower p = 111 ∨ lower p = 120)) :
    underscoreOK (48 :: p :: ds) = underscoreLoop false (p :: ds) 48 := by
  have h : underscoreOK (48 :: p :: ds) = underscoreLoop false (48 :: p :: ds) 94 := by
    simp [underscoreOK, hp]
  rw [h, underscoreLoop_cons_digit false 48 (p :: ds) 94 (Or.inl ⟨by decide, by decide⟩)]

theorem eq_of_lower_eq (p v : Nat) (hv1 : 97 ≤ v) (hv2 : v ≤ 122) (h : lower p = v) :
    p = v ∨ p = v - 32 := by
  rcases lower_letter p (by omega) (by omega) with ⟨_, _, h3⟩ | ⟨_, _, h3⟩
  · left; omega
  · right; omega

/-- A prefixed literal `0b…`, `0o…`, `0x…`: the bytes after the prefix form
`[ "_" ] digits`. -/
theorem sepDigits_of_prefixed (base : Nat) (p n : Nat) (us : Bool) (ds : List Nat)
    (hp : lower p = 98 ∨ lower p = 111 ∨ lower p = 120)
    (hbase : base ≤ 10 ∧ lower p ≠ 120 ∨ base = 16 ∧ lower p = 120)
    (hloop : parseUintLoop base true ((2 ^ 64 - 1) / base + 1) (2 ^ 64 - 1) ds 0 false =
      .ok (n, us))
    (hus : us = true → underscoreOK (48 :: p :: ds) = true) :
    sepDigits base ds = true := by
  have hall := parseUintLoop_ok_bytes base _ _ ds 0 false (n, us) hloop
  rw [underscoreOK_prefixed p ds hp] at hus
  rcases hbase with ⟨hb, hx⟩ | ⟨hb, hx⟩
  · have hdec : decide (lower p = 120) = false := by simp [hx]
    rw [hdec] at hus
    exact sepDigits_of_bytes base false us ds (digit_recognised_le_ten base hb false) hall hus
  · have hdec : decide (lower p = 120) = true := by simp [hx]
    rw [hdec] at hus
    subst hb
    exact sepDigits_of_bytes 16 true us ds digit_recognised_hex hall hus

/-- Whatever `ParseUint` accepts with base 0 is an `int_lit` of the Go grammar. -/
theorem isIntLit_of_parseUint (s : List Nat) (n : Nat) (h : ParseUint s 0 64 = (n, none)) :
    isIntLit s = true := by
  cases s with
  | nil => simp [ParseUint] at h
  | cons c rest =>
    rw [parseUint_zero (c :: rest) (List.cons_ne_nil _ _)] at h
    obtain ⟨us, hloop, hus⟩ := (parseUint_finish _ _ n none h).1 rfl
    by_cases hc : c = 48
    · subst hc
      cases rest with
      | nil => rfl
      | cons p ds =>
        have hlen : (48 :: p :: ds).length ≥ 3 ↔ ds ≠ [] := by
          cases ds <;> simp
        by_cases hb : ds ≠ [] ∧ lower p = 98
        · have hpre : basePrefix (48 :: p :: ds) = (2, ds) := by
            simp [basePrefix, hb.1, hb.2]
          rw [hpre] at hloop
          have hsep := sepDigits_of_prefixed 2 p n us ds (Or.inl hb.2)
            (Or.inl ⟨by decide, by omega⟩) hloop hus
          have hp := eq_of_lower_eq p 98 (by decide) (by decide) hb.2
          have hne : ds.isEmpty = false := by
            cases ds with
            | nil => exact absurd rfl hb.1
            | cons _ _ => rfl
          rw [isIntLit.eq_def]
          simp [hp, hne, hsep]
        · by_cases ho : ds ≠ [] ∧ lower p = 111
          · have hpre : basePrefix (48 :: p :: ds) = (8, ds) := by
              simp [basePrefix, ho.1, ho.2]
            rw [hpre] at hloop
            have hsep := sepDigits_of_prefixed 8 p n us ds (Or.inr (Or.inl ho.2))
              (Or.inl ⟨by decide, by omega⟩) hloop hus
            have hp := eq_of_lower_eq p 111 (by decide) (by decide) ho.2
            have hne : ds.isEmpty = false := by
              cases ds with
              | nil => exact absurd rfl ho.1
              | cons _ _ => rfl
            rw [isIntLit.eq_def]
            rcases hp with hp | hp <;> simp [hp, hne, hsep]
          · by_cases hx : ds ≠ [] ∧ lower p = 120
            · have hpre : basePrefix (48 :: p :: ds) = (16, ds) := by
                simp [basePrefix, hx.1, hx.2]
              rw [hpre] at hloop
              have hsep := sepDigits_of_prefixed 16 p n us ds (Or.inr (Or.inr hx.2))
                (Or.inr ⟨rfl, hx.2⟩) hloop hus
              have hp := eq_of_lower_eq p 120 (by decide) (by decide) hx.2
              have hne : ds.isEmpty = false := by
                cases ds with
                | nil => exact absurd rfl hx.1
                | cons _ _ => rfl
              rw [isIntLit.eq_def]
              rcases hp with hp | hp <;> simp [hp, hne, hsep]
            · have hpre : basePrefix (48 :: p :: ds) = (8, p :: ds) := by
                simp only [basePrefix, List.head?_cons, if_true, hlen, List.getD_cons_succ,
                  List.getD_cons_zero, hb, ho, hx, if_false, List.drop_succ_cons, List.drop_zero]
              rw [hpre] at hloop
              have hall := parseUintLoop_ok_bytes 8 _ _ (p :: ds) 0 false (n, us) hloop
              have hpd : p = 95 ∨ (48 ≤ p ∧ p ≤ 55) := by
                rcases hall p (List.mem_cons_self _ _) with ⟨h95, _⟩ | hd
                · exact Or.inl h95
                · rcases (isDigitOf_iff 8 p).1 hd with h1 | h1 | h1
                  · right; omega
                  · omega
                  · omega
              have hlow : ¬ (lower p = 98 ∨ lower p = 111 ∨ lower p = 120) := by
                rcases hpd with h95 | hd
                · rw [h95, lower_underscore]; omega
                · rw [lower_of_lowercase p (Or.inl ⟨hd.1, by omega⟩)]; omega
              rw [underscoreOK_zero_plain p ds hlow] at hus
              have hsep := sepDigits_of_bytes 8 false us (p :: ds)
                (digit_recognised_le_ten 8 (by decide) false) hall hus
              have hp1 : ¬ (p = 98 ∨ p = 66) := by omega
              have hp2 : ¬ (p = 111 ∨ p = 79) := by omega
              have hp3 : ¬ (p = 120 ∨ p = 88) := by omega
              rw [isIntLit.eq_def]
              simp [hp1, hp2, hp3, hsep]
    · have hpre : basePrefix (c :: rest) = (10, c :: rest) := by
        simp [basePrefix, hc]
      rw [hpre] at hloop
      have hall := parseUintLoop_ok_bytes 10 _ _ (c :: rest) 0 false (n, us) hloop
      have hallr : ∀ x ∈ rest, (x = 95 ∧ us = true) ∨ isDigitOf 10 x = true :=
        fun x hx => hall x (List.mem_cons_of_mem _ hx)
      have hcd : 49 ≤ c ∧ c ≤ 57 := by
        rcases hall c (List.mem_cons_self _ _) with ⟨h95, hu⟩ | hd
        · have hok := hus hu
          rw [underscoreOK_unprefixed c rest (by omega) (by omega) hc, h95,
            underscoreLoop_cons_underscore] at hok
          simp at hok
        · rcases (isDigitOf_iff 10 c).1 hd with h1 | h1 | h1
          · omega
          · omega
          · omega
      have hus2 : us = true → underscoreLoop false rest 48 = true := by
        intro hu
        have hok := hus hu
        rw [underscoreOK_unprefixed c rest (by omega) (by omega) hc,
          underscoreLoop_cons_digit false c rest 94 (Or.inl ⟨by omega, hcd.2⟩)] at hok
        exact hok
      have hsep := sepDigits_of_bytes 10 false us rest
        (digit_recognised_le_ten 10 (by decide) false) hallr hus2
      rw [isIntLit.eq_def]
      simp [hc, hcd, hsep]

/-- A range error of the digit loop carries the largest value. -/
theorem parseUintLoop_range (base cutoff maxVal : Nat) (base0 : Bool) :
    ∀ (cs : List Nat) (n : Nat) (us : Bool) (v : Nat),
      parseUintLoop base base0 cutoff maxVal cs n us = .error (v, .ErrRange) → v = maxVal := by
  intro cs
  induction cs with
  | nil => intro n us v h; simp [parseUintLoop] at h
  | cons c cs ih =>
    intro n us v h
    rw [parseUintLoop] at h
    by_cases h95 : c = 95 ∧ base0 = true
    · rw [if_pos h95] at h
      exact ih _ _ _ h
    · rw [if_neg h95] at h
      by_cases hdec : 48 ≤ c ∧ c ≤ 57
      · simp only [hdec, and_self, if_true] at h
        split_ifs at h with h1 h2 h3
        · simp at h
        · simp only [Except.error.injEq, Prod.mk.injEq, and_true] at h
          exact h.symm
        · simp only [Except.error.injEq, Prod.mk.injEq, and_true] at h
          exact h.symm
        · exact ih _ _ _ h
      · simp only [hdec, if_false] at h
        by_cases hlet : 97 ≤ lower c ∧ lower c ≤ 122
        · simp only [hlet, and_self, if_true] at h
          split_ifs at h with h1 h2 h3
          · simp at h
          · simp only [Except.error.injEq, Prod.mk.injEq, and_true] at h
            exact h.symm
          · simp only [Except.error.injEq, Prod.mk.injEq, and_true] at h
            exact h.symm
          · exact ih _ _ _ h
        · simp [hlet] at h

theorem parseUint_range (s : List Nat) (un : Nat)
    (h : ParseUint s 0 64 = (un, some .ErrRange)) : un = 2 ^ 64 - 1 := by
  by_cases hs : s = []
  · subst hs
    simp [ParseUint] at h
  · rw [parseUint_zero s hs] at h
    obtain ⟨v0, hr, hv⟩ := (parseUint_finish _ _ un _ h).2 rfl
    rw [hv]
    exact parseUintLoop_range _ _ _ _ _ _ _ _ hr

/-- Whatever `ParseInt` accepts with base 0 and 64 bits is an optionally signed integer
literal of the Go grammar. -/
theorem isSignedIntLit_of_parseInt (s : List Nat) (i : Int)
    (h : ParseInt s 0 64 = (i, none)) : isSignedIntLit s = true := by
  by_cases hs : s = []
  · subst hs
    simp [ParseInt] at h
  · simp only [ParseInt, hs, if_false] at h
    rcases hu : ParseUint (if s.head? = some 43 ∨ s.head? = some 45 then s.tail else s) 0 64
      with ⟨un, e⟩
    rw [hu] at h
    cases e with
    | none =>
      have hlit := isIntLit_of_parseUint _ un hu
      simp only [isSignedIntLit]
      split
      · next hsign => rw [if_pos hsign] at hlit; exact hlit
      · next hsign => rw [if_neg hsign] at hlit; exact hlit
    | some e =>
      cases e with
      | ErrSyntax => simp at h
      | ErrBase => simp at h
      | ErrBitSize => simp at h
      | ErrRange =>
        have hun := parseUint_range _ un hu
        subst hun
        exfalso
        by_cases hneg : s.head? = some 45
        · simp [hneg] at h
        · simp [hneg] at h

/-- C9: `NewExpression` on the decimal representation of any 64-bit signed integer `n`
returns `ConstExpression(n)`; and on every non-empty string that is not a valid
base-prefixed integer literal (an optionally signed `int_lit` of the Go grammar) it returns
the `StringExpression` carrying exactly the input. -/
theorem newExpression_const_or_string :
    (∀ n : Int, -2 ^ 63 ≤ n → n < 2 ^ 63 →
      NewExpression (toString n) = some (.ConstExpression n)) ∧
    (∀ s : String, s ≠ "" → ¬ IsIntegerLiteral s →
      NewExpression s = some (.StringExpression s)) := by
  constructor
  · intro n hlo hhi
    rw [newExpression_of_ne_empty _ (toString_int_ne_empty n), parseInt_toString n hlo hhi]
  · intro s hs hlit
    rw [newExpression_of_ne_empty s hs]
    rcases hp : ParseInt (goBytes s) 0 64 with ⟨i, e⟩
    cases e with
    | none => exact absurd (isSignedIntLit_of_parseInt _ i hp) hlit
    | some e => rfl

/-- Witness for C9: the integer `-42` and the formula `"prev.size"`. -/
theorem newExpression_const_or_string_witness :
    NewExpression (toString (-42 : Int)) = some (.ConstExpression (-42)) ∧
    NewExpression "prev.size" = some (.StringExpression "prev.size") :=
  ⟨newExpression_const_or_string.1 (-42) (by norm_num) (by norm_num),
   newExpression_const_or_string.2 "prev.size" (by decide) (by decide)⟩

/-! ## The inheritance resolver -/

/-- Induction over an element and its children. -/
theorem Elem.induction_on {P : Elem → Prop} (d : Elem)
    (hstruct : ∀ i e l p cs, (∀ c ∈ cs, P c) → P (.struct i e l p cs))
    (hstring : ∀ i t p, P (.string i t p))
    (hnumber : ∀ i t l p, P (.number i t l p)) : P d :=
  Elem.rec (motive_1 := P) (motive_2 := fun cs => ∀ c ∈ cs, P c)
    (fun i e l p cs ih => hstruct i e l p cs ih)
    hstring hnumber
    (fun c hc => absurd hc (List.not_mem_nil c))
    (fun head tail hhead htail c hc => by
      rcases List.mem_cons.1 hc with rfl | hmem
      · exact hhead
      · exact htail c hmem)
    d

theorem fill_idem {α : Type} [DecidableEq α] (zero d s : α) :
    fill zero (fill zero d s) s = fill zero d s := by
  unfold fill
  by_cases h : d = zero
  · simp [h]
  · simp [h]

theorem fill_fillsGap {α : Type} [DecidableEq α] (zero d s : α) :
    FillsGap zero d s (fill zero d s) := by
  unfold FillsGap fill
  constructor
  · intro h; simp [h]
  · intro h; simp [h]

theorem fillIdName_idem (d s : IdName) : fillIdName (fillIdName d s) s = fillIdName d s := by
  simp [fillIdName, fill_idem]

theorem findByName_name (srcs : List Elem) (n : String) (s : Elem)
    (h : findByName srcs n = some s) : s.name = n := by
  have := List.find?_some h
  simpa using this

theorem extendChildren_nil (srcs : List Elem) : extendChildren [] srcs = .ok [] := by
  simp [extendChildren]

theorem extendChildren_cons (c : Elem) (cs srcs : List Elem) :
    extendChildren (c :: cs) srcs =
      match (match findByName srcs c.name with
          | none => Except.ok c
          | some s => extendElem c s) with
      | .error err => .error err
      | .ok c2 =>
        match extendChildren cs srcs with
        | .error err => .error err
        | .ok cs2 => .ok (c2 :: cs2) := by
  rw [extendChildren]

/-- The children of a successful merge are the children of `dst`, one by one, each merged
with its namesake in `src` or left alone. -/
theorem extendChildren_ok_iff (srcs : List Elem) :
    ∀ (cs rs : List Elem),
      extendChildren cs srcs = .ok rs ↔ List.Forall₂ (ChildMerged srcs) cs rs := by
  intro cs
  induction cs with
  | nil =>
    intro rs
    rw [extendChildren_nil]
    constructor
    · intro h
      simp only [Except.ok.injEq] at h
      rw [← h]
      exact List.Forall₂.nil
    · intro h
      cases h
      rfl
  | cons c cs ih =>
    intro rs
    rw [extendChildren_cons]
    constructor
    · intro h
      cases hf : findByName srcs c.name with
      | none =>
        rw [hf] at h
        cases hcs : extendChildren cs srcs with
        | error err => rw [hcs] at h; simp at h
        | ok cs2 =>
          rw [hcs] at h
          simp only [Except.ok.injEq] at h
          rw [← h]
          refine List.Forall₂.cons ?_ ((ih cs2).1 hcs)
          simp only [ChildMerged, hf]
      | some s0 =>
        rw [hf] at h
        dsimp only at h
        cases hc : extendElem c s0 with
        | error err => rw [hc] at h; simp at h
        | ok c2 =>
          rw [hc] at h
          cases hcs : extendChildren cs srcs with
          | error err => rw [hcs] at h; simp at h
          | ok cs2 =>
            rw [hcs] at h
            simp only [Except.ok.injEq] at h
            rw [← h]
            refine List.Forall₂.cons ?_ ((ih cs2).1 hcs)
            simp only [ChildMerged, hf]
            exact hc
    · intro h
      cases h with
      | cons hhead htail =>
        rename_i rc rcs
        rw [(ih rcs).2 htail]
        cases hf : findByName srcs c.name with
        | none =>
          simp only [ChildMerged, hf] at hhead
          rw [hhead]
        | some s0 =>
          simp only [ChildMerged, hf] at hhead
          simp only [hhead]

/-- A successful merge keeps the concrete type, the `parent` back-reference and the name
the element is matched by, and fills every attribute. -/
theorem extendElem_attributes (d s r : Elem) (h : extendElem d s = .ok r) :
    r.kind = d.kind ∧ s.kind = d.kind ∧ r.parent = d.parent ∧
    r.idName = fillIdName d.idName s.idName ∧
    r.endian = fill .UnknownEndian d.endian s.endian ∧
    r.typ = fill "" d.typ s.typ ∧
    r.length = fill "" d.length s.length := by
  cases d with
  | struct i e l p cs =>
    cases s with
    | struct i' e' l' p' cs' =>
      simp only [extendElem] at h
      cases hcs : extendChildren cs cs' with
      | error err => rw [hcs] at h; simp at h
      | ok cs2 =>
        rw [hcs] at h
        simp only [Except.ok.injEq] at h
        rw [← h]
        exact ⟨rfl, rfl, rfl, rfl, rfl, rfl, rfl⟩
    | string i' t' p' => simp [extendElem] at h
    | number i' t' l' p' => simp [extendElem] at h
  | string i t p =>
    cases s with
    | struct i' e' l' p' cs' => simp [extendElem] at h
    | string i' t' p' =>
      simp only [extendElem, Except.ok.injEq] at h
      rw [← h]
      exact ⟨rfl, rfl, rfl, rfl, rfl, rfl, rfl⟩
    | number i' t' l' p' => simp [extendElem] at h
  | number i t l p =>
    cases s with
    | struct i' e' l' p' cs' => simp [extendElem] at h
    | string i' t' p' => simp [extendElem] at h
    | number i' t' l' p' =>
      simp only [extendElem, Except.ok.injEq] at h
      rw [← h]
      exact ⟨rfl, rfl, rfl, rfl, rfl, rfl, rfl⟩

theorem extendElem_name (d s r : Elem) (h : extendElem d s = .ok r)
    (hn : s.name = d.name) : r.name = d.name := by
  have hid := (extendElem_attributes d s r h).2.2.2.1
  have hs : s.idName.name = d.idName.name := hn
  show r.idName.name = d.idName.name
  rw [hid]
  simp only [fillIdName, fill, hs]
  split <;> rfl

theorem childMerged_idem (srcs : List Elem) (c rc : Elem)
    (hP : ∀ s r, extendElem c s = .ok r → extendElem r s = .ok r)
    (h : ChildMerged srcs c rc) : ChildMerged srcs rc rc := by
  unfold ChildMerged at h ⊢
  cases hf : findByName srcs c.name with
  | none =>
    rw [hf] at h
    dsimp only at h
    rw [h, hf]
  | some s0 =>
    rw [hf] at h
    dsimp only at h
    have hname : rc.name = c.name :=
      extendElem_name c s0 rc h (findByName_name srcs c.name s0 hf)
    rw [hname, hf]
    exact hP s0 rc h

theorem forall₂_childMerged_idem (srcs : List Elem) :
    ∀ (cs rs : List Elem), List.Forall₂ (ChildMerged srcs) cs rs →
      (∀ c ∈ cs, ∀ s r, extendElem c s = .ok r → extendElem r s = .ok r) →
      List.Forall₂ (ChildMerged srcs) rs rs := by
  intro cs rs h
  induction h with
  | nil => intro _; exact List.Forall₂.nil
  | cons hhead _ ih =>
    intro hP
    exact List.Forall₂.cons
      (childMerged_idem srcs _ _ (hP _ (List.mem_cons_self _ _)) hhead)
      (ih (fun c hc => hP c (List.mem_cons_of_mem _ hc)))

/-- Merging the result of a successful merge with the same `src` again changes nothing. -/
theorem extendElem_idem (d : Elem) :
    ∀ s r, extendElem d s = .ok r → extendElem r s = .ok r := by
  induction d using Elem.induction_on with
  | hstruct i e l p cs ih =>
    intro s r h
    cases s with
    | struct i' e' l' p' cs' =>
      simp only [extendElem] at h
      cases hcs : extendChildren cs cs' with
      | error err => rw [hcs] at h; simp at h
      | ok cs2 =>
        rw [hcs] at h
        simp only [Except.ok.injEq] at h
        have h2 : extendChildren cs2 cs' = .ok cs2 :=
          (extendChildren_ok_iff cs' cs2 cs2).2
            (forall₂_childMerged_idem cs' cs cs2 ((extendChildren_ok_iff cs' cs cs2).1 hcs) ih)
        rw [← h]
        simp only [extendElem, h2, fillIdName_idem, fill_idem]
    | string i' t' p' => simp [extendElem] at h
    | number i' t' l' p' => simp [extendElem] at h
  | hstring i t p =>
    intro s r h
    cases s with
    | struct i' e' l' p' cs' => simp [extendElem] at h
    | string i' t' p' =>
      simp only [extendElem, Except.ok.injEq] at h
      rw [← h]
      simp only [extendElem, fillIdName_idem, fill_idem]
    | number i' t' l' p' => simp [extendElem] at h
  | hnumber i t l p =>
    intro s r h
    cases s with
    | struct i' e' l' p' cs' => simp [extendElem] at h
    | string i' t' p' => simp [extendElem] at h
    | number i' t' l' p' =>
      simp only [extendElem, Except.ok.injEq] at h
      rw [← h]
      simp only [extendElem, fillIdName_idem, fill_idem]

theorem mergeableChildren_cons (c : Elem) (cs srcs : List Elem) :
    mergeableChildren (c :: cs) srcs =
      ((match findByName srcs c.name with
        | none => true
        | some s => mergeable c s) && mergeableChildren cs srcs) := by
  rw [mergeableChildren]

theorem extendChildren_ok_iff_mergeable (srcs : List Elem) :
    ∀ cs : List Elem,
      (∀ c ∈ cs, ∀ s, (∃ r, extendElem c s = .ok r) ↔ mergeable c s = true) →
      ((∃ rs, extendChildren cs srcs = .ok rs) ↔ mergeableChildren cs srcs = true) := by
  intro cs
  induction cs with
  | nil =>
    intro _
    simp [extendChildren, mergeableChildren]
  | cons c cs ih =>
    intro hP
    have ihcs := ih (fun x hx => hP x (List.mem_cons_of_mem _ hx))
    have hc := hP c (List.mem_cons_self _ _)
    rw [extendChildren_cons, mergeableChildren_cons, Bool.and_eq_true, ← ihcs]
    cases hf : findByName srcs c.name with
    | none =>
      dsimp only
      constructor
      · rintro ⟨rs, h⟩
        cases hcs : extendChildren cs srcs with
        | error err => rw [hcs] at h; simp at h
        | ok cs2 => exact ⟨rfl, cs2, rfl⟩
      · rintro ⟨_, cs2, hcs⟩
        rw [hcs]
        exact ⟨_, rfl⟩
    | some s0 =>
      dsimp only
      rw [← hc s0]
      constructor
      · rintro ⟨rs, h⟩
        cases hce : extendElem c s0 with
        | error err => rw [hce] at h; simp at h
        | ok c2 =>
          rw [hce] at h
          cases hcs : extendChildren cs srcs with
          | error err => rw [hcs] at h; simp at h
          | ok cs2 => exact ⟨⟨c2, rfl⟩, cs2, rfl⟩
      · rintro ⟨⟨c2, hce⟩, cs2, hcs⟩
        rw [hce, hcs]
        exact ⟨_, rfl⟩

/-- The merge of two elements succeeds exactly when no child of `dst`, at any depth, meets
a same-named child of `src` of a different concrete type. -/
theorem extendElem_ok_iff_mergeable (d : Elem) :
    ∀ s, (∃ r, extendElem d s = .ok r) ↔ mergeable d s = true := by
  induction d using Elem.induction_on with
  | hstruct i e l p cs ih =>
    intro s
    cases s with
    | struct i' e' l' p' cs' =>
      simp only [extendElem, mergeable]
      rw [← extendChildren_ok_iff_mergeable cs' cs ih]
      constructor
      · rintro ⟨r, h⟩
        cases hcs : extendChildren cs cs' with
        | error err => rw [hcs] at h; simp at h
        | ok cs2 => exact ⟨cs2, rfl⟩
      · rintro ⟨cs2, hcs⟩
        rw [hcs]
        exact ⟨_, rfl⟩
    | string i' t' p' => simp [extendElem, mergeable]
    | number i' t' l' p' => simp [extendElem, mergeable]
  | hstring i t p =>
    intro s
    cases s <;> simp [extendElem, mergeable]
  | hnumber i t l p =>
    intro s
    cases s <;> simp [extendElem, mergeable]

theorem extend_pointer_ok_iff (d s r : Elem) :
    extend (.pointer d) (.pointer s) = (.pointer r, none) ↔ extendElem d s = .ok r := by
  simp only [extend]
  cases h : extendElem d s with
  | error err => simp
  | ok r0 => simp

theorem extend_pointer_none_iff (d s : Elem) :
    (extend (.pointer d) (.pointer s)).2 = none ↔ ∃ r, extendElem d s = .ok r := by
  simp only [extend]
  cases h : extendElem d s with
  | error err => simp
  | ok r0 => simp

/-- On operands that are not both pointers to elements of one concrete type, `extend`
reports the mismatch and `dst` is as it was. -/
theorem extend_mismatch (dst src : Operand)
    (h : ¬ ∃ d s, dst = .pointer d ∧ src = .pointer s ∧ d.kind = s.kind) :
    extend dst src = (dst, some (.TypeMismatch dst.goType src.goType)) := by
  cases dst with
  | int i => cases src <;> rfl
  | value e => cases src <;> rfl
  | slice k es => cases src <;> rfl
  | pointer d =>
    cases src with
    | int i => rfl
    | value e => rfl
    | slice k es => rfl
    | pointer s =>
      cases d with
      | struct i e l p cs =>
        cases s with
        | struct i' e' l' p' cs' => exact absurd ⟨_, _, rfl, rfl, rfl⟩ h
        | string i' t' p' => simp [extend, extendElem, Operand.goType, Elem.kind]
        | number i' t' l' p' => simp [extend, extendElem, Operand.goType, Elem.kind]
      | string i t p =>
        cases s with
        | struct i' e' l' p' cs' => simp [extend, extendElem, Operand.goType, Elem.kind]
        | string i' t' p' => exact absurd ⟨_, _, rfl, rfl, rfl⟩ h
        | number i' t' l' p' => simp [extend, extendElem, Operand.goType, Elem.kind]
      | number i t l p =>
        cases s with
        | struct i' e' l' p' cs' => simp [extend, extendElem, Operand.goType, Elem.kind]
        | string i' t' p' => simp [extend, extendElem, Operand.goType, Elem.kind]
        | number i' t' l' p' => exact absurd ⟨_, _, rfl, rfl, rfl⟩ h

/-- C5, as stated, fails on the model of `extend`: `clashDst` and `clashSrc` are both
Structures, yet `extend` does not succeed, because their children named `x` are a Number
and a String. -/
theorem extend_same_type_fails_counterexample :
    clashDst.kind = clashSrc.kind ∧
    extend (.pointer clashDst) (.pointer clashSrc) =
      (.pointer clashDst, some (.TypeMismatch (.pointer .Number) (.pointer .String))) :=
  ⟨rfl, rfl⟩

/-- C5 (amended): for every `dst` and `src` elements, `extend(dst, src)` succeeds exactly
when no child of `dst`, at any depth, has a same-named child in `src` of a different
concrete type (and `dst`, `src` have one concrete type); and whenever it succeeds the
result keeps the concrete type and the `parent` back-reference of `dst`, every attribute
(`id`, `name`, `description`, `Endian`, `Type`, `Length`) is kept where `dst` had it set and
taken from `src` where `dst` had it unset, and the children are those of `dst`, in order,
each merged in the same way with the first same-named child of `src`, or unchanged when
`src` has none. -/
theorem extend_fills_gaps (d s : Elem) :
    ((extend (.pointer d) (.pointer s)).2 = none ↔ mergeable d s = true) ∧
    (∀ r, extend (.pointer d) (.pointer s) = (.pointer r, none) →
      r.kind = d.kind ∧ r.parent = d.parent ∧
      FillsGap 0 d.idName.id s.idName.id r.idName.id ∧
      FillsGap "" d.idName.name s.idName.name r.idName.name ∧
      FillsGap "" d.idName.description s.idName.description r.idName.description ∧
      FillsGap .UnknownEndian d.endian s.endian r.endian ∧
      FillsGap "" d.typ s.typ r.typ ∧
      FillsGap "" d.length s.length r.length ∧
      List.Forall₂ (ChildMerged s.elements) d.elements r.elements) := by
  constructor
  · rw [extend_pointer_none_iff, extendElem_ok_iff_mergeable]
  · intro r h
    rw [extend_pointer_ok_iff] at h
    obtain ⟨hk, _, hp, hid, he, ht, hl⟩ := extendElem_attributes d s r h
    refine ⟨hk, hp, ?_, ?_, ?_, ?_, ?_, ?_, ?_⟩
    · rw [hid]; exact fill_fillsGap _ _ _
    · rw [hid]; exact fill_fillsGap _ _ _
    · rw [hid]; exact fill_fillsGap _ _ _
    · rw [he]; exact fill_fillsGap _ _ _
    · rw [ht]; exact fill_fillsGap _ _ _
    · rw [hl]; exact fill_fillsGap _ _ _
    · cases d with
      | struct i e l p cs =>
        cases s with
        | struct i' e' l' p' cs' =>
          simp only [extendElem] at h
          cases hcs : extendChildren cs cs' with
          | error err => rw [hcs] at h; simp at h
          | ok cs2 =>
            rw [hcs] at h
            simp only [Except.ok.injEq] at h
            rw [← h]
            exact (extendChildren_ok_iff cs' cs cs2).1 hcs
        | string i' t' p' => simp [extendElem] at h
        | number i' t' l' p' => simp [extendElem] at h
      | string i t p =>
        cases s with
        | struct i' e' l' p' cs' => simp [extendElem] at h
        | string i' t' p' =>
          simp only [extendElem, Except.ok.injEq] at h
          rw [← h]
          exact List.Forall₂.nil
        | number i' t' l' p' => simp [extendElem] at h
      | number i t l p =>
        cases s with
        | struct i' e' l' p' cs' => simp [extendElem] at h
        | string i' t' p' => simp [extendElem] at h
        | number i' t' l' p' =>
          simp only [extendElem, Except.ok.injEq] at h
          rw [← h]
          exact List.Forall₂.nil

/-- Witness for the amended C5: `TestExtends`.  The merge of its `dst` with its `src`
succeeds with its `want`, which keeps id 11 and the name, gains the description and the
endianness, and has the four children of `dst`. -/
theorem extend_fills_gaps_witness :
    mergeable testDst testSrc = true ∧
    extend (.pointer testDst) (.pointer testSrc) = (.pointer testWant, none) ∧
    (testWant.kind = testDst.kind ∧ testWant.parent = testDst.parent ∧
      FillsGap 0 testDst.idName.id testSrc.idName.id testWant.idName.id ∧
      FillsGap "" testDst.idName.name testSrc.idName.name testWant.idName.name ∧
      FillsGap "" testDst.idName.description testSrc.idName.description
        testWant.idName.description ∧
      FillsGap .UnknownEndian testDst.endian testSrc.endian testWant.endian ∧
      FillsGap "" testDst.typ testSrc.typ testWant.typ ∧
      FillsGap "" testDst.length testSrc.length testWant.length ∧
      List.Forall₂ (ChildMerged testSrc.elements) testDst.elements testWant.elements) :=
  ⟨rfl, rfl, (extend_fills_gaps testDst testSrc).2 testWant rfl⟩

/-- C6: for every pair of operands that are not both pointers to the same concrete struct
type (a non-pointer on either side, pointers to different element types, a slice versus a
pointer, a struct value versus a pointer), `extend(dst, src)` returns a type-mismatch error
naming both types and leaves `dst` unchanged. -/
theorem extend_rejects_type_mismatch (dst src : Operand)
    (h : ¬ ∃ d s, dst = .pointer d ∧ src = .pointer s ∧ d.kind = s.kind) :
    (extend dst src).1 = dst ∧
    (extend dst src).2 = some (.TypeMismatch dst.goType src.goType) := by
  rw [extend_mismatch dst src h]
  exact ⟨rfl, rfl⟩

/-- Witness for C6: the first pair of `TestExtendDifferentTypes`, `src = 1` and
`dst = &Structure{}`. -/
theorem extend_rejects_type_mismatch_witness :
    (extend (.pointer emptyStructure) (.int 1)).1 = .pointer emptyStructure ∧
    (extend (.pointer emptyStructure) (.int 1)).2 =
      some (.TypeMismatch (.pointer .Structure) .int) :=
  extend_rejects_type_mismatch (.pointer emptyStructure) (.int 1)
    (by rintro ⟨d, s, _, h, _⟩; cases h)

/-- C7, as stated, fails on the model of `extend`: `clashDst` and `clashSrc` are both
Structures, yet the first run does not succeed and neither does a second run on what the
first run left.  The second run fails on every state the first run could have left: on
every Structure with the children of `clashDst`, whatever its own attributes are. -/
theorem extend_second_run_fails_counterexample :
    clashDst.kind = clashSrc.kind ∧
    (extend (.pointer clashDst) (.pointer clashSrc)).2 =
      some (.TypeMismatch (.pointer .Number) (.pointer .String)) ∧
    (extend (extend (.pointer clashDst) (.pointer clashSrc)).1 (.pointer clashSrc)).2 =
      some (.TypeMismatch (.pointer .Number) (.pointer .String)) ∧
    (∀ (i : IdName) (e : Endian) (l : String) (p : Option Nat),
      (extend (.pointer (.struct i e l p clashDst.elements)) (.pointer clashSrc)).2 =
        some (.TypeMismatch (.pointer .Number) (.pointer .String))) :=
  ⟨rfl, rfl, rfl, fun _ _ _ _ => rfl⟩

/-- C7 (amended): `extend` is idempotent where it succeeds.  For every `dst` and `src`
elements of one concrete type in which no child of `dst`, at any depth, meets a same-named
child of `src` of a different concrete type, `extend(dst, src)` succeeds and leaves some
`r`, and running it a second time on `r` succeeds and leaves `r`. -/
theorem extend_idempotent (d s : Elem) (h : mergeable d s = true) :
    ∃ r, extend (.pointer d) (.pointer s) = (.pointer r, none) ∧
      extend (.pointer r) (.pointer s) = (.pointer r, none) := by
  obtain ⟨r, hr⟩ := (extendElem_ok_iff_mergeable d s).2 h
  exact ⟨r, (extend_pointer_ok_iff d s r).2 hr,
    (extend_pointer_ok_iff r s r).2 (extendElem_idem d s r hr)⟩

/-- Witness for C7: `TestExtends` leaves `want`, and running it a second time on `want`
leaves `want`. -/
theorem extend_idempotent_witness :
    mergeable testDst testSrc = true ∧
    extend (.pointer testDst) (.pointer testSrc) = (.pointer testWant, none) ∧
    extend (.pointer testWant) (.pointer testSrc) = (.pointer testWant, none) := by
  obtain ⟨r, h1, h2⟩ := extend_idempotent testDst testSrc rfl
  have h0 : extend (.pointer testDst) (.pointer testSrc) = (.pointer testWant, none) := rfl
  rw [h0] at h1
  have hr : testWant = r := by
    have h3 := (Prod.mk.inj h1).1
    injection h3
  rw [← hr] at h2
  exact ⟨rfl, h0, h2⟩

/-! ## Sample evaluations -/

/-- The literal grammar on sample strings. -/
theorem isIntegerLiteral_samples :
    IsIntegerLiteral "0x1F" ∧ IsIntegerLiteral "-0b1_0" ∧ IsIntegerLiteral "0" ∧
    IsIntegerLiteral "0_7" ∧ IsIntegerLiteral "9223372036854775808" ∧
    ¬ IsIntegerLiteral "0_" ∧ ¬ IsIntegerLiteral "0x" ∧ ¬ IsIntegerLiteral "1__0" ∧
    ¬ IsIntegerLiteral "_1" ∧ ¬ IsIntegerLiteral "09" ∧ ¬ IsIntegerLiteral "prev.size" ∧
    ¬ IsIntegerLiteral "" ∧ ¬ IsIntegerLiteral "+" := by
  decide

/-- The model of `NewExpression` on sample strings, as Go evaluates them. -/
theorem newExpression_samples :
    NewExpression "" = none ∧
    NewExpression "4" = some (.ConstExpression 4) ∧
    NewExpression "-42" = some (.ConstExpression (-42)) ∧
    NewExpression "+5" = some (.ConstExpression 5) ∧
    NewExpression "0x1F" = some (.ConstExpression 31) ∧
    NewExpression "0b101" = some (.ConstExpression 5) ∧
    NewExpression "017" = some (.ConstExpression 15) ∧
    NewExpression "1_000" = some (.ConstExpression 1000) ∧
    NewExpression "1__000" = some (.StringExpression "1__000") ∧
    NewExpression "0x" = some (.StringExpression "0x") ∧
    NewExpression "é" = some (.StringExpression "é") ∧
    NewExpression "-9223372036854775808" = some (.ConstExpression (-9223372036854775808)) ∧
    NewExpression "9223372036854775808" = some (.StringExpression "9223372036854775808") := by
  decide

/-! ## `Script`, `validationError`, `yesno` -/

/-- C11: for every Script element, whatever its fields, `Length()` is the constant
expression 0 and `LengthUnit()` is `ByteLengthUnit`. -/
theorem script_length_zero (s : Script) :
    s.Length = some (.ConstExpression 0) ∧ s.LengthUnit = .ByteLengthUnit :=
  ⟨rfl, rfl⟩

/-- C19: for every `validationError`, `IsEof()` is true exactly when the wrapped error is
`io.EOF`, whatever element the error is attached to. -/
theorem validationError_isEof_iff (e e' : ElementId) (err : GoError) :
    ((validationError.mk e err).IsEof = true ↔ err = .eof) ∧
    (validationError.mk e err).IsEof = (validationError.mk e' err).IsEof := by
  simp [validationError.IsEof]

/-- The function `yesno` never touches the aggregator. -/
theorem yesno_errs (s : String) (errs : Errors) : (yesno s errs).2 = errs := by
  unfold yesno
  split <;> rfl

/-- C15 (the code at the failing input): `yesno("maybe", errs)` returns `False` and leaves
the aggregator as it was, so the invalid value is not reported; and no input makes `yesno`
append anything. -/
theorem yesno_maybe_silent (errs : Errors) :
    yesno "maybe" errs = (.False, errs) ∧ ∀ s : String, (yesno s errs).2 = errs :=
  ⟨rfl, fun s => yesno_errs s errs⟩

/-! ## Lookup by name -/

/-- The loop of `Find` from index `i`: either no element has the name and the result is
`(-1, nil)`, or the result is the first element with the name and its index. -/
theorem findFrom_cases {α : Type} (Name : α → String) (name : String) :
    ∀ (l : List α) (i : Nat),
      ((∀ x ∈ l, Name x ≠ name) ∧ Elements.findFrom Name name l i = (-1, none)) ∨
      (∃ (k : Nat) (el : α),
        Elements.findFrom Name name l i = (((i + k : Nat) : Int), some el) ∧
        l.get? k = some el ∧ Name el = name ∧
        ∀ j, j < k → ∀ x, l.get? j = some x → Name x ≠ name) := by
  intro l
  induction l with
  | nil =>
    intro i
    left
    exact ⟨fun x hx => absurd hx (List.not_mem_nil x), rfl⟩
  | cons a l ih =>
    intro i
    by_cases ha : Name a = name
    · right
      refine ⟨0, a, ?_, rfl, ha, fun j hj => absurd hj (Nat.not_lt_zero j)⟩
      simp [Elements.findFrom, ha]
    · rcases ih (i + 1) with ⟨hall, hres⟩ | ⟨k, el, hres, hget, hname, hbefore⟩
      · left
        refine ⟨fun x hx => ?_, ?_⟩
        · rcases List.mem_cons.1 hx with rfl | hmem
          · exact ha
          · exact hall x hmem
        · simp [Elements.findFrom, ha, hres]
      · right
        refine ⟨k + 1, el, ?_, hget, hname, ?_⟩
        · simp only [Elements.findFrom, ha, if_false, hres]
          congr 2
          omega
        · intro j hj x hx
          cases j with
          | zero =>
            simp only [List.get?_cons_zero, Option.some.injEq] at hx
            rw [← hx]
            exact ha
          | succ j => exact hbefore j (by omega) x hx

/-- C17: `Elements.Find` is lookup by name.  It returns `(-1, nil)` exactly when no element
of the list has the name; otherwise it returns `(i, e)` where `e` is the `i`-th element,
`e.Name()` is the name, and no element at a smaller index has the name. -/
theorem find_is_lookup_by_name {α : Type} (Name : α → String) (e : List α) (name : String) :
    (Elements.Find Name e name = (-1, none) ↔ ∀ x ∈ e, Name x ≠ name) ∧
    ((∃ x ∈ e, Name x = name) →
      ∃ (i : Nat) (el : α), Elements.Find Name e name = ((i : Int), some el) ∧
        e.get? i = some el ∧ Name el = name ∧
        ∀ j, j < i → ∀ x, e.get? j = some x → Name x ≠ name) := by
  rcases findFrom_cases Name name e 0 with ⟨hall, hres⟩ | ⟨k, el, hres, hget, hname, hbefore⟩
  · refine ⟨⟨fun _ => hall, fun _ => hres⟩, ?_⟩
    rintro ⟨x, hx, hxn⟩
    exact absurd hxn (hall x hx)
  · have hmem : el ∈ e := List.get?_mem hget
    refine ⟨⟨fun h => ?_, fun h => absurd hname (h el hmem)⟩, fun _ => ?_⟩
    · unfold Elements.Find at h
      rw [hres] at h
      simp at h
    · refine ⟨k, el, ?_, hget, hname, hbefore⟩
      unfold Elements.Find
      rw [hres]
      simp

/-- Witness for C17: among the children of structure 1 of the lookup store, numbers 2 (`b`)
and 3 (`c`), the name `c` is found at index 1. -/
theorem find_is_lookup_by_name_witness :
    ∃ (i : Nat) (el : ElementRef),
      Elements.Find lookupHeap.Name [.ofNumber 2, .ofNumber 3] "c" = ((i : Int), some el) ∧
      [ElementRef.ofNumber 2, .ofNumber 3].get? i = some el ∧ lookupHeap.Name el = "c" ∧
      ∀ j, j < i → ∀ x, [ElementRef.ofNumber 2, .ofNumber 3].get? j = some x →
        lookupHeap.Name x ≠ "c" :=
  (find_is_lookup_by_name lookupHeap.Name [.ofNumber 2, .ofNumber 3] "c").2
    ⟨.ofNumber 3, by simp, rfl⟩

theorem find_snd_some {α : Type} (Name : α → String) (l : List α) (name : String) (e : α)
    (h : (Elements.Find Name l name).2 = some e) :
    ∃ i : Nat, l.get? i = some e ∧ Name e = name ∧
      ∀ j, j < i → ∀ x, l.get? j = some x → Name x ≠ name := by
  unfold Elements.Find at h
  rcases findFrom_cases Name name l 0 with ⟨_, hres⟩ | ⟨k, el, hres, hget, hname, hbefore⟩
  · rw [hres] at h
    simp at h
  · rw [hres] at h
    simp only [Option.some.injEq] at h
    subst h
    exact ⟨k, hget, hname, hbefore⟩

theorem find_snd_none {α : Type} (Name : α → String) (l : List α) (name : String)
    (h : (Elements.Find Name l name).2 = none) : ∀ x ∈ l, Name x ≠ name := by
  unfold Elements.Find at h
  rcases findFrom_cases Name name l 0 with ⟨hall, _⟩ | ⟨k, el, hres, _, _, _⟩
  · exact hall
  · rw [hres] at h
    simp at h

theorem elementByName_succ (h : Heap) (fuel a : Nat) (name : String) :
    Structure.ElementByName h (fuel + 1) a name =
      match (Elements.Find h.Name (h.structures a).elements name).2 with
      | some e => .ret (some e)
      | none =>
        match (h.structures a).derives with
        | some d => Structure.ElementByName h fuel d name
        | none => .ret none := rfl

theorem onChain_zero (h : Heap) (a b : Nat) (hc : OnChain h a b 0) : b = a := by
  cases hc
  rfl

theorem onChain_succ (h : Heap) (a b n : Nat) (hc : OnChain h a b (n + 1)) :
    ∃ d, (h.structures a).derives = some d ∧ OnChain h d b n := by
  cases hc with
  | step _ d _ _ hd hrest => exact ⟨d, hd, hrest⟩

/-- On an acyclic derives chain `ElementByName` returns, for every large enough budget, the
first same-named child of the nearest structure on the chain, and nil when there is
none. -/
theorem elementByName_of_acc (h : Heap) (name : String) (a : Nat)
    (hacc : Acc (DerivesLink h) a) :
    ∃ (r : Option ElementRef) (fuel : Nat),
      (∀ fuel', fuel ≤ fuel' → Structure.ElementByName h fuel' a name = .ret r) ∧
      (r = none ↔ ∀ b n, OnChain h a b n → NoChildNamed h b name) ∧
      (∀ e, r = some e → ∃ b n, OnChain h a b n ∧ FirstChildNamed h b name e ∧
        ∀ c m, m < n → OnChain h a c m → NoChildNamed h c name) := by
  induction hacc with
  | intro a _ ih =>
    cases hfind : (Elements.Find h.Name (h.structures a).elements name).2 with
    | some e =>
      have hfirst : FirstChildNamed h a name e := find_snd_some h.Name _ name e hfind
      refine ⟨some e, 1, ?_, ?_, ?_⟩
      · intro fuel' hle
        obtain ⟨k, rfl⟩ := Nat.exists_eq_add_of_le hle
        rw [show 1 + k = k + 1 by omega, elementByName_succ, hfind]
      · constructor
        · intro hnone
          exact absurd hnone (Option.some_ne_none e)
        · intro hall
          exfalso
          obtain ⟨i, hget, hname, _⟩ := hfirst
          exact hall a 0 (OnChain.self a) e (List.get?_mem hget) hname
      · intro e' he'
        simp only [Option.some.injEq] at he'
        subst he'
        exact ⟨a, 0, OnChain.self a, hfirst, fun c m hm => absurd hm (Nat.not_lt_zero m)⟩
    | none =>
      have hno : NoChildNamed h a name := find_snd_none h.Name _ name hfind
      cases hd : (h.structures a).derives with
      | some d =>
        obtain ⟨r, fuel, hret, hnone, hsome⟩ := ih d hd
        refine ⟨r, fuel + 1, ?_, ?_, ?_⟩
        · intro fuel' hle
          obtain ⟨k, rfl⟩ := Nat.exists_eq_add_of_le hle
          rw [show fuel + 1 + k = (fuel + k) + 1 by omega, elementByName_succ, hfind]
          simp only [hd]
          exact hret (fuel + k) (by omega)
        · rw [hnone]
          constructor
          · intro hall b n hc
            cases n with
            | zero => rw [onChain_zero h a b hc]; exact hno
            | succ n =>
              obtain ⟨d', hd', hrest⟩ := onChain_succ h a b n hc
              rw [hd] at hd'
              simp only [Option.some.injEq] at hd'
              subst hd'
              exact hall b n hrest
          · intro hall b n hc
            exact hall b (n + 1) (OnChain.step a d b n hd hc)
        · intro e he
          obtain ⟨b, n, hc, hfirst, hbefore⟩ := hsome e he
          refine ⟨b, n + 1, OnChain.step a d b n hd hc, hfirst, ?_⟩
          intro c m hm hcm
          cases m with
          | zero => rw [onChain_zero h a c hcm]; exact hno
          | succ m =>
            obtain ⟨d', hd', hrest⟩ := onChain_succ h a c m hcm
            rw [hd] at hd'
            simp only [Option.some.injEq] at hd'
            subst hd'
            exact hbefore c m (by omega) hrest
      | none =>
        refine ⟨none, 1, ?_, ?_, ?_⟩
        · intro fuel' hle
          obtain ⟨k, rfl⟩ := Nat.exists_eq_add_of_le hle
          rw [show 1 + k = k + 1 by omega, elementByName_succ, hfind]
          simp only [hd]
        · constructor
          · intro _ b n hc
            cases n with
            | zero => rw [onChain_zero h a b hc]; exact hno
            | succ n =>
              obtain ⟨d', hd', _⟩ := onChain_succ h a b n hc
              rw [hd] at hd'
              exact absurd hd' (by simp)
          · intro _
            rfl
        · intro e he
          exact absurd he (by simp)

/-- The lookup never reads a `parent` back-reference. -/
theorem elementByName_withParents (h : Heap) (parents : Nat → Option Nat) (name : String) :
    ∀ (fuel a : Nat),
      Structure.ElementByName (h.withParents parents) fuel a name =
        Structure.ElementByName h fuel a name := by
  intro fuel
  induction fuel with
  | zero => intro a; rfl
  | succ fuel ih =>
    intro a
    rw [elementByName_succ, elementByName_succ]
    have hname : (h.withParents parents).Name = h.Name := by
      funext e
      cases e <;> rfl
    have hel : ((h.withParents parents).structures a).elements = (h.structures a).elements :=
      rfl
    have hder : ((h.withParents parents).structures a).derives = (h.structures a).derives :=
      rfl
    rw [hname, hel, hder]
    cases (Elements.Find h.Name (h.structures a).elements name).2 with
    | some e => rfl
    | none =>
      cases (h.structures a).derives with
      | some d => exact ih d
      | none => rfl

/-- C18: for every Structure with an acyclic derives chain, `ElementByName` returns (for
every large enough budget) the first same-named child of the nearest structure along the
chain, the structure itself first; it returns nil exactly when no structure on the chain
has a child of that name; and on any store its result is the same whatever the `parent`
back-references of the structures are. -/
theorem elementByName_nearest (h : Heap) (name : String) (a : Nat)
    (hacc : Acc (DerivesLink h) a) :
    (∃ (r : Option ElementRef) (fuel : Nat),
      (∀ fuel', fuel ≤ fuel' → Structure.ElementByName h fuel' a name = .ret r) ∧
      (r = none ↔ ∀ b n, OnChain h a b n → NoChildNamed h b name) ∧
      (∀ e, r = some e → ∃ b n, OnChain h a b n ∧ FirstChildNamed h b name e ∧
        ∀ c m, m < n → OnChain h a c m → NoChildNamed h c name)) ∧
    (∀ (parents : Nat → Option Nat) (fuel : Nat),
      Structure.ElementByName (h.withParents parents) fuel a name =
        Structure.ElementByName h fuel a name) :=
  ⟨elementByName_of_acc h name a hacc,
   fun parents fuel => elementByName_withParents h parents name fuel a⟩

theorem lookupHeap_acc : Acc (DerivesLink lookupHeap) 0 := by
  have h2 : Acc (DerivesLink lookupHeap) 2 := by
    refine Acc.intro 2 (fun d hd => ?_)
    have : (lookupHeap.structures 2).derives = some d := hd
    simp [lookupHeap] at this
  have h1 : Acc (DerivesLink lookupHeap) 1 := by
    refine Acc.intro 1 (fun d hd => ?_)
    have hd' : (lookupHeap.structures 1).derives = some d := hd
    have : d = 2 := by
      simp [lookupHeap] at hd'
      exact hd'.symm
    rw [this]
    exact h2
  refine Acc.intro 0 (fun d hd => ?_)
  have hd' : (lookupHeap.structures 0).derives = some d := hd
  have : d = 1 := by
    simp [lookupHeap] at hd'
    exact hd'.symm
  rw [this]
  exact h1

/-- Witness for C18: structure 0 of the lookup store, whose chain is 0, 1, 2.  The name `b`
is found among its own children (number 1, shadowing number 2 of structure 1), the name `c`
in structure 1 (number 3, before number 4 of structure 2). -/
theorem elementByName_nearest_witness :
    Structure.ElementByName lookupHeap 3 0 "b" = .ret (some (.ofNumber 1)) ∧
    Structure.ElementByName lookupHeap 3 0 "c" = .ret (some (.ofNumber 3)) ∧
    Structure.ElementByName lookupHeap 3 0 "e" = .ret none ∧
    ((∃ (r : Option ElementRef) (fuel : Nat),
      (∀ fuel', fuel ≤ fuel' → Structure.ElementByName lookupHeap fuel' 0 "c" = .ret r) ∧
      (r = none ↔ ∀ b n, OnChain lookupHeap 0 b n → NoChildNamed lookupHeap b "c") ∧
      (∀ e, r = some e → ∃ b n, OnChain lookupHeap 0 b n ∧
        FirstChildNamed lookupHeap b "c" e ∧
        ∀ c m, m < n → OnChain lookupHeap 0 c m → NoChildNamed lookupHeap c "c")) ∧
    (∀ (parents : Nat → Option Nat) (fuel : Nat),
      Structure.ElementByName (lookupHeap.withParents parents) fuel 0 "c" =
        Structure.ElementByName lookupHeap fuel 0 "c")) :=
  ⟨by decide, by decide, by decide, elementByName_nearest lookupHeap "c" 0 lookupHeap_acc⟩

/-! ## The attribute parsers and `colour` -/

theorem endian_errs (s : String) (errs : Errors) :
    (endian s errs).2 = { errs := errs.errs ++ endianDiag s } := by
  unfold endian endianDiag diagUnless Errors.Append
  split_ifs <;> simp_all

theorem display_errs (s : String) (errs : Errors) :
    (display s errs).2 = { errs := errs.errs ++ displayDiag s } := by
  unfold display displayDiag diagUnless Errors.Append
  split_ifs <;> simp_all

theorem lengthunit_errs (s : String) (errs : Errors) :
    (lengthunit s errs).2 = { errs := errs.errs ++ lengthunitDiag s } := by
  unfold lengthunit lengthunitDiag diagUnless Errors.Append
  split_ifs <;> simp_all

theorem order_errs (s : String) (errs : Errors) :
    (order s errs).2 = { errs := errs.errs ++ orderDiag s } := by
  unfold order orderDiag diagUnless Errors.Append
  split_ifs <;> simp_all

theorem upperHexDigit_byte (c : Char) (h : isUpperHexDigit c = true) :
    charBytes c = [c.toNat] ∧ ∃ v, fromHexChar c.toNat = some v ∧ v < 16 := by
  have hc : (48 ≤ c.toNat ∧ c.toNat ≤ 57) ∨ (65 ≤ c.toNat ∧ c.toNat ≤ 70) := by
    simpa [isUpperHexDigit] using h
  constructor
  · have hlt : c.toNat < 128 := by omega
    simp [charBytes, hlt]
  · rcases hc with h1 | h1
    · exact ⟨c.toNat - 48, by simp [fromHexChar, h1], by omega⟩
    · refine ⟨c.toNat - 65 + 10, ?_, by omega⟩
      have h2 : ¬ (48 ≤ c.toNat ∧ c.toNat ≤ 57) := by omega
      have h3 : ¬ (97 ≤ c.toNat ∧ c.toNat ≤ 102) := by omega
      simp [fromHexChar, h1, h2, h3]

/-- A text that `colourRegex` matches hex-decodes without error to exactly three bytes. -/
theorem hexDecodeString_of_match (s : String) (h : colourRegexMatch s = true) :
    ∃ b0 b1 b2, hexDecodeString s = ([b0, b1, b2], none) ∧ b0 < 256 ∧ b1 < 256 ∧ b2 < 256 := by
  simp only [colourRegexMatch, decide_eq_true_eq] at h
  obtain ⟨hlen, hall⟩ := h
  match hdata : s.data, hlen, hall with
  | [c1, c2, c3, c4, c5, c6], _, hall =>
    simp only [List.all_cons, List.all_nil, Bool.and_true, Bool.and_eq_true] at hall
    obtain ⟨h1, h2, h3, h4, h5, h6⟩ := hall
    obtain ⟨hb1, v1, hv1, hl1⟩ := upperHexDigit_byte c1 h1
    obtain ⟨hb2, v2, hv2, hl2⟩ := upperHexDigit_byte c2 h2
    obtain ⟨hb3, v3, hv3, hl3⟩ := upperHexDigit_byte c3 h3
    obtain ⟨hb4, v4, hv4, hl4⟩ := upperHexDigit_byte c4 h4
    obtain ⟨hb5, v5, hv5, hl5⟩ := upperHexDigit_byte c5 h5
    obtain ⟨hb6, v6, hv6, hl6⟩ := upperHexDigit_byte c6 h6
    refine ⟨v1 * 16 + v2, v3 * 16 + v4, v5 * 16 + v6, ?_, by omega, by omega, by omega⟩
    simp [hexDecodeString, goBytes, hdata, hb1, hb2, hb3, hb4, hb5, hb6, hexDecodeLoop,
      hv1, hv2, hv3, hv4, hv5, hv6]

/-- The function `colour` always returns (the indices 0, 1, 2 are in range whenever they
are reached), what it returns does not depend on the aggregator, and it appends exactly the
diagnostic of its attribute. -/
theorem colour_ret (s : String) :
    ∃ c, ∀ errs : Errors, colour s errs = .ret (c, { errs := errs.errs ++ colourDiag s }) := by
  unfold colour colourDiag diagUnless
  by_cases hs : s = ""
  · exact ⟨none, fun errs => by simp [hs]⟩
  · by_cases hm : colourRegexMatch s = true
    · obtain ⟨b0, b1, b2, hdec, _, _, _⟩ := hexDecodeString_of_match s hm
      refine ⟨some ((b0 <<< 16 ||| b1 <<< 8 ||| b2) % 2 ^ 32), fun errs => ?_⟩
      simp [hs, hm, hdec]
    · refine ⟨none, fun errs => ?_⟩
      simp [hs, hm, Errors.Append]

/-! ## `transform` -/

theorem yesno_fst (s : String) (errs errs' : Errors) : (yesno s errs).1 = (yesno s errs').1 := by
  unfold yesno
  split <;> rfl

/-- The function `colour` in closed form: it returns `colourValue` and appends
`colourDiag`. -/
theorem colour_eq (s : String) (errs : Errors) :
    colour s errs = .ret (colourValue s, { errs := errs.errs ++ colourDiag s }) := by
  obtain ⟨c, hc⟩ := colour_ret s
  have hv : colourValue s = c := by
    unfold colourValue
    rw [hc {}]
  rw [hc errs, hv]

theorem yesno_eq (s : String) (errs : Errors) : yesno s errs = (yesnoValue s, errs) := by
  unfold yesnoValue yesno
  split <;> rfl

theorem endian_eq (s : String) (errs : Errors) :
    endian s errs = (endianValue s, { errs := errs.errs ++ endianDiag s }) := by
  unfold endianValue endian endianDiag diagUnless Errors.Append
  split_ifs <;> simp_all

theorem display_eq (s : String) (errs : Errors) :
    display s errs = (displayValue s, { errs := errs.errs ++ displayDiag s }) := by
  unfold displayValue display displayDiag diagUnless Errors.Append
  split_ifs <;> simp_all

theorem lengthunit_eq (s : String) (errs : Errors) :
    lengthunit s errs = (lengthunitValue s, { errs := errs.errs ++ lengthunitDiag s }) := by
  unfold lengthunitValue lengthunit lengthunitDiag diagUnless Errors.Append
  split_ifs <;> simp_all

theorem order_eq (s : String) (errs : Errors) :
    order s errs = (orderValue s, { errs := errs.errs ++ orderDiag s }) := by
  unfold orderValue order orderDiag diagUnless Errors.Append
  split_ifs <;> simp_all

/-- The method `XmlNumber.transform` in closed form. -/
theorem number_transform_eq (toIdName : ToIdName) (xml : XmlNumber) (errs : Errors) :
    XmlNumber.transform toIdName xml errs =
      .ret ({ base := (toIdName xml.idName "Number" errs).1
              type := xml.Typ
              length := Reference xml.Length
              lengthUnit := lengthunitValue xml.LengthUnit
              repeats := { repeatMin := Reference xml.RepeatMin
                           repeatMax := Reference xml.RepeatMax }
              endian := endianValue xml.Endian
              signed := yesnoValue xml.Signed
              display := displayValue xml.Display
              colourful := { fillColour := colourValue xml.FillColour
                             strokeColour := colourValue xml.StrokeColour }
              mustMatch := yesnoValue xml.MustMatch
              values := xml.Values.map (fun x => ({ name := x.Name } : FixedValue))
              masks := xml.Masks.map XmlMask.transform },
            { errs := (toIdName xml.idName "Number" errs).2.errs ++
                (lengthunitDiag xml.LengthUnit ++ (endianDiag xml.Endian ++
                  (displayDiag xml.Display ++ (colourDiag xml.FillColour ++
                    colourDiag xml.StrokeColour)))) }) := by
  simp [XmlNumber.transform, lengthunit_eq, endian_eq, yesno_eq, display_eq, colour_eq,
    Run.bind]

/-- The literal of `XmlString.transform` in closed form. -/
theorem string_literal_eq (toIdName : ToIdName) (xml : XmlString) (errs : Errors) :
    XmlString.literal toIdName xml errs =
      .ret ({ base := (toIdName xml.idName "String" errs).1
              typ := xml.Typ
              length := Reference xml.Length
              lengthUnit := lengthunitValue xml.LengthUnit
              encoding := xml.Encoding
              mustMatch := yesnoValue xml.MustMatch
              repeats := { repeatMin := Reference xml.RepeatMin
                           repeatMax := Reference xml.RepeatMax }
              colourful := { fillColour := colourValue xml.FillColour
                             strokeColour := colourValue xml.StrokeColour } },
            { errs := (toIdName xml.idName "String" errs).2.errs ++
                (lengthunitDiag xml.LengthUnit ++ (colourDiag xml.FillColour ++
                  colourDiag xml.StrokeColour)) }) := by
  simp [XmlString.literal, lengthunit_eq, yesno_eq, colour_eq, Run.bind]

/-- The literal of `XmlStructure.transform` in closed form. -/
theorem structure_literal_eq (toIdName : ToIdName) (xml : XmlStructureAttr) (errs : Errors) :
    XmlStructure.literal toIdName xml errs =
      .ret ({ base := (toIdName xml.idName "Structure" errs).1
              length := Reference xml.Length
              lengthOffset := Reference xml.LengthOffset
              lengthUnit := lengthunitValue xml.LengthUnit
              repeats := { repeatMin := Reference xml.RepeatMin
                           repeatMax := Reference xml.RepeatMax }
              endian := endianValue xml.Endian
              signed := yesnoValue xml.Signed
              encoding := xml.Encoding
              order := orderValue xml.Order
              display := displayValue xml.Display
              colourful := { fillColour := colourValue xml.FillColour
                             strokeColour := colourValue xml.StrokeColour } },
            { errs := (toIdName xml.idName "Structure" errs).2.errs ++
                (lengthunitDiag xml.LengthUnit ++ (endianDiag xml.Endian ++
                  (orderDiag xml.Order ++ (displayDiag xml.Display ++
                    (colourDiag xml.FillColour ++ colourDiag xml.StrokeColour))))) }) := by
  simp [XmlStructure.literal, lengthunit_eq, endian_eq, yesno_eq, order_eq, display_eq,
    colour_eq, Run.bind]

/-- The method `XmlStructRef.transform` in closed form. -/
theorem structRef_transform_eq (toIdName : ToIdName) (xml : XmlStructRef) (errs : Errors) :
    XmlStructRef.transform toIdName xml errs =
      .ret ({ base := (toIdName xml.idName "StructRef" errs).1
              repeats := { repeatMin := Reference xml.RepeatMin
                           repeatMax := Reference xml.RepeatMax }
              colourful := { fillColour := colourValue xml.FillColour
                             strokeColour := colourValue xml.StrokeColour } },
            { errs := (toIdName xml.idName "StructRef" errs).2.errs ++
                (colourDiag xml.FillColour ++ colourDiag xml.StrokeColour) }) := by
  simp [XmlStructRef.transform, colour_eq, Run.bind]

/-- The loop over the values of a binary node in closed form: it appends the values and
the decoding errors. -/
theorem binary_valuesLoop_eq :
    ∀ (vs : List XmlFixedValue) (values : List FixedBinaryValue) (errs : Errors),
      XmlBinary.valuesLoop vs values errs =
        (values ++ XmlBinary.valuesOf vs, { errs := errs.errs ++ XmlBinary.valueDiags vs }) := by
  intro vs
  induction vs with
  | nil =>
    intro values errs
    simp [XmlBinary.valuesLoop, XmlBinary.valuesOf, XmlBinary.valueDiags]
  | cons x rest ih =>
    intro values errs
    have hv : XmlBinary.valuesOf (x :: rest) = (XmlBinary.valuesLoop (x :: rest) [] {}).1 :=
      rfl
    have hd : XmlBinary.valueDiags (x :: rest) =
        (XmlBinary.valuesLoop (x :: rest) [] {}).2.errs := rfl
    rw [hv, hd]
    simp only [XmlBinary.valuesLoop, ih]
    cases (hexDecodeString (TrimPrefix (TrimPrefix x.Value "0x") "0X")).2 with
    | none => simp
    | some e => simp [Errors.Append]

/-- The method `XmlBinary.transform` in closed form. -/
theorem binary_transform_eq (toIdName : ToIdName) (xml : XmlBinary) (errs : Errors) :
    XmlBinary.transform toIdName xml errs =
      .ret ({ base := (toIdName xml.idName "Binary" errs).1
              length := Reference xml.Length
              lengthUnit := lengthunitValue xml.LengthUnit
              repeats := { repeatMin := Reference xml.RepeatMin
                           repeatMax := Reference xml.RepeatMax }
              colourful := { fillColour := colourValue xml.FillColour
                             strokeColour := colourValue xml.StrokeColour }
              mustMatch := yesnoValue xml.MustMatch
              values := XmlBinary.valuesOf xml.Values },
            { errs := (toIdName xml.idName "Binary" errs).2.errs ++
                (lengthunitDiag xml.LengthUnit ++ (colourDiag xml.FillColour ++
                  (colourDiag xml.StrokeColour ++ XmlBinary.valueDiags xml.Values))) }) := by
  simp [XmlBinary.transform, lengthunit_eq, yesno_eq, colour_eq, Run.bind,
    binary_valuesLoop_eq]

/-- The length check of `XmlString.transform` only appends, and what it appends does not
depend on the aggregator. -/
theorem lengthCheck_eq (s : StringElement) (errs : Errors) :
    XmlString.lengthCheck s errs = { errs := errs.errs ++ XmlString.lengthDiag s } := by
  unfold XmlString.lengthDiag XmlString.lengthCheck
  split_ifs <;> simp [Errors.Append]

/-- Induction over an XML node and its child nodes. -/
theorem xmlElement_induction {P : XmlElement → Prop} (x : XmlElement)
    (hstruct : ∀ xml els, (∀ c ∈ els, P c) → P (.ofStructure xml els))
    (hstring : ∀ xml, P (.ofString xml)) (hbinary : ∀ xml, P (.ofBinary xml))
    (hnumber : ∀ xml, P (.ofNumber xml)) (hcustom : ∀ xml, P (.ofCustom xml))
    (hstructRef : ∀ xml, P (.ofStructRef xml)) (hgrammarRef : ∀ xml, P (.ofGrammarRef xml))
    (hoffset : ∀ xml, P (.ofOffset xml)) (hscript : ∀ xml, P (.ofScriptElement xml)) : P x :=
  XmlElement.rec (motive_1 := P) (motive_2 := fun els => ∀ c ∈ els, P c)
    (fun xml els ih => hstruct xml els ih)
    hstring hbinary hnumber hcustom hstructRef hgrammarRef hoffset hscript
    (fun c hc => absurd hc (List.not_mem_nil c))
    (fun head tail hhead htail c hc => by
      rcases List.mem_cons.1 hc with rfl | hmem
      · exact hhead
      · exact htail c hmem)
    x

theorem transform_ofStructure (toIdName : ToIdName) (xml : XmlStructureAttr)
    (els : List XmlElement) (errs : Errors) :
    XmlElement.transform toIdName (.ofStructure xml els) errs =
      (XmlStructure.literal toIdName xml errs).bind fun (s, e1) =>
      (XmlElement.transformAll toIdName els e1).bind fun (cs, e2) =>
      .ret (.ofStructure s cs, e2) := by
  rw [XmlElement.transform]

theorem transformAll_nil (toIdName : ToIdName) (errs : Errors) :
    XmlElement.transformAll toIdName [] errs = .ret ([], errs) := by
  rw [XmlElement.transformAll]

theorem transformAll_cons (toIdName : ToIdName) (c : XmlElement) (rest : List XmlElement)
    (errs : Errors) :
    XmlElement.transformAll toIdName (c :: rest) errs =
      (XmlElement.transform toIdName c errs).bind fun (el, e1) =>
      (XmlElement.transformAll toIdName rest e1).bind fun (els, e2) =>
      .ret (el :: els, e2) := by
  rw [XmlElement.transformAll]

/-- The loop over the children, given that each child's transform returns an element that
does not depend on the aggregator and only appends: the loop returns the elements in
order and appends the children's diagnostics in order. -/
theorem transformAll_appends (toIdName : ToIdName) :
    ∀ cs : List XmlElement,
      (∀ c ∈ cs, ∃ el d, ∀ errs : Errors,
        XmlElement.transform toIdName c errs = .ret (el, { errs := errs.errs ++ d })) →
      ∃ (els : List Element) (ds : List (List GoError)),
        (∀ errs : Errors, XmlElement.transformAll toIdName cs errs =
          .ret (els, { errs := errs.errs ++ ds.flatten })) ∧
        List.Forall₂ (fun c el => ∀ errs : Errors, ∃ e1,
          XmlElement.transform toIdName c errs = .ret (el, e1)) cs els ∧
        List.Forall₂ (fun c d => ∀ errs : Errors, ∃ el,
          XmlElement.transform toIdName c errs = .ret (el, { errs := errs.errs ++ d })) cs ds := by
  intro cs
  induction cs with
  | nil =>
    intro _
    refine ⟨[], [], fun errs => ?_, List.Forall₂.nil, List.Forall₂.nil⟩
    rw [transformAll_nil]
    simp
  | cons c rest ih =>
    intro hall
    obtain ⟨el, d, hc⟩ := hall c (List.mem_cons_self _ _)
    obtain ⟨els, ds, hrest, hels, hds⟩ := ih (fun x hx => hall x (List.mem_cons_of_mem _ hx))
    refine ⟨el :: els, d :: ds, fun errs => ?_, ?_, ?_⟩
    · rw [transformAll_cons, hc errs]
      simp only [Run.bind]
      rw [hrest]
      simp [List.append_assoc]
    · exact List.Forall₂.cons (fun errs => ⟨_, hc errs⟩) hels
    · exact List.Forall₂.cons (fun errs => ⟨el, hc errs⟩) hds

/-- With a `toIdName` that only appends, the transform of every node returns, the element
does not depend on the aggregator, and the aggregator only grows. -/
theorem transform_appends (toIdName : ToIdName) (hId : AppendOnly toIdName) (x : XmlElement) :
    ∃ el d, ∀ errs : Errors,
      XmlElement.transform toIdName x errs = .ret (el, { errs := errs.errs ++ d }) := by
  induction x using xmlElement_induction with
  | hstruct xml els ih =>
    obtain ⟨cs, ds, hcs, _, _⟩ := transformAll_appends toIdName els ih
    apply Exists.intro
    apply Exists.intro
    intro errs
    rw [transform_ofStructure, structure_literal_eq, hId xml.idName "Structure" errs]
    simp only [Run.bind, hcs, List.append_assoc]
    rfl
  | hstring xml =>
    apply Exists.intro
    apply Exists.intro
    intro errs
    rw [XmlElement.transform, XmlString.transform, string_literal_eq,
      hId xml.idName "String" errs]
    simp only [Run.bind, lengthCheck_eq, List.append_assoc]
    rfl
  | hbinary xml =>
    apply Exists.intro
    apply Exists.intro
    intro errs
    rw [XmlElement.transform, binary_transform_eq, hId xml.idName "Binary" errs]
    simp only [Run.bind, List.append_assoc]
    rfl
  | hnumber xml =>
    apply Exists.intro
    apply Exists.intro
    intro errs
    rw [XmlElement.transform, number_transform_eq, hId xml.idName "Number" errs]
    simp only [Run.bind, List.append_assoc]
    rfl
  | hcustom xml =>
    apply Exists.intro
    apply Exists.intro
    intro errs
    rw [XmlElement.transform, XmlCustom.transform, hId xml.idName "Custom" errs]
    simp only [Run.bind]
    rfl
  | hstructRef xml =>
    apply Exists.intro
    apply Exists.intro
    intro errs
    rw [XmlElement.transform, structRef_transform_eq, hId xml.idName "StructRef" errs]
    simp only [Run.bind, List.append_assoc]
    rfl
  | hgrammarRef xml =>
    apply Exists.intro
    apply Exists.intro
    intro errs
    rw [XmlElement.transform, XmlGrammarRef.transform, hId xml.idName "GrammarRef" errs]
    simp only [Run.bind]
    rfl
  | hoffset xml =>
    apply Exists.intro
    apply Exists.intro
    intro errs
    rw [XmlElement.transform, XmlOffset.transform, hId xml.idName "Offset" errs]
    simp only [Run.bind]
    rfl
  | hscript xml =>
    apply Exists.intro
    apply Exists.intro
    intro errs
    rw [XmlElement.transform, XmlScriptElement.transform,
      hId xml.idName "ScriptElement" errs]
    simp only [Run.bind]
    rfl

/-- The length of a transformed element is nil exactly when the attribute text is empty. -/
theorem reference_eq_none_iff (s : String) : Reference s = none ↔ s = "" := by
  unfold Reference
  constructor
  · intro hnil
    by_contra h
    rw [newExpression_of_ne_empty s h] at hnil
    rcases hp : ParseInt (goBytes s) 0 64 with ⟨i, e⟩
    rw [hp] at hnil
    cases e <;> exact Option.some_ne_none _ hnil
  · intro h
    subst h
    rfl

/-- `XmlString.transform` in closed form: the element of the literal with the fixed values
of the node, and the aggregator with the diagnostics of the length unit, the two colours
and the length check, in this order, after what `toIdName` left. -/
theorem string_transform_eq (toIdName : ToIdName) (xml : XmlString) (errs : Errors) :
    ∃ s : StringElement,
      XmlString.transform toIdName xml errs =
        .ret (s, { errs := (toIdName xml.idName "String" errs).2.errs ++
                    (lengthunitDiag xml.LengthUnit ++ (colourDiag xml.FillColour ++
                      (colourDiag xml.StrokeColour ++ XmlString.lengthDiag s))) }) ∧
      s.base = (toIdName xml.idName "String" errs).1 ∧
      s.typ = xml.Typ ∧ s.length = Reference xml.Length ∧
      XmlString.lengthDiag s = (XmlString.lengthCheck s {}).errs := by
  apply Exists.intro
  refine ⟨?_, ?_, ?_, ?_, rfl⟩
  · rw [XmlString.transform, string_literal_eq]
    simp only [Run.bind, lengthCheck_eq, List.append_assoc]
    rfl
  · rfl
  · rfl
  · rfl

/-- C12: for every XML string node, whatever the aggregator holds, `XmlString.transform`
returns the String element `s` (and the node transform returns it as an element).  The
aggregator afterwards is what the attributes before the check left, followed by the
outcome `XmlString.lengthDiag s` of the length check.  That outcome is the single
validation error carrying the String element `s`, with the message
`<type> strings requires a length`, if the node declares no length and its type is
`fixed-length` or `pascal`, and it is empty in every other case, so for a
`zero-terminated` or `delimiter-terminated` string and for any string with a length. -/
theorem string_transform_length_required (toIdName : ToIdName) (xml : XmlString)
    (errs : Errors) :
    ∃ s : StringElement,
      XmlString.transform toIdName xml errs =
        .ret (s, { errs := (toIdName xml.idName "String" errs).2.errs ++
                    (lengthunitDiag xml.LengthUnit ++ (colourDiag xml.FillColour ++
                      (colourDiag xml.StrokeColour ++ XmlString.lengthDiag s))) }) ∧
      XmlElement.transform toIdName (.ofString xml) errs =
        .ret (.ofString s, { errs := (toIdName xml.idName "String" errs).2.errs ++
                    (lengthunitDiag xml.LengthUnit ++ (colourDiag xml.FillColour ++
                      (colourDiag xml.StrokeColour ++ XmlString.lengthDiag s))) }) ∧
      s.base = (toIdName xml.idName "String" errs).1 ∧
      XmlString.lengthDiag s =
        (if xml.Length = "" ∧ (xml.Typ = "fixed-length" ∨ xml.Typ = "pascal") then
          [.validationError ⟨.String, s.base⟩
            (.message (xml.Typ ++ " strings requires a length"))]
         else []) ∧
      (XmlString.lengthDiag s ≠ [] ↔
        xml.Length = "" ∧ (xml.Typ = "fixed-length" ∨ xml.Typ = "pascal")) ∧
      (xml.Typ = "zero-terminated" ∨ xml.Typ = "delimiter-terminated" ∨ xml.Length ≠ "" →
        XmlString.lengthDiag s = []) := by
  obtain ⟨s, hs, hbase, htyp, hlen, hdiag⟩ := string_transform_eq toIdName xml errs
  have hform : XmlString.lengthDiag s =
      (if xml.Length = "" ∧ (xml.Typ = "fixed-length" ∨ xml.Typ = "pascal") then
        [.validationError ⟨.String, s.base⟩
          (.message (xml.Typ ++ " strings requires a length"))]
       else []) := by
    rw [hdiag]
    unfold XmlString.lengthCheck
    rw [hlen, htyp]
    by_cases hl : xml.Length = ""
    · by_cases h1 : xml.Typ = "fixed-length"
      · have hr0 : Reference "" = none := rfl
        simp [hl, hr0, h1, Errors.Append]
      · by_cases h2 : xml.Typ = "pascal"
        · have hr0 : Reference "" = none := rfl
          simp [hl, hr0, h2, Errors.Append]
        · have hr0 : Reference "" = none := rfl
          simp [hl, hr0, h1, h2]
    · have hr : Reference xml.Length ≠ none := fun h => hl ((reference_eq_none_iff _).1 h)
      simp [hl, hr]
  refine ⟨s, hs, ?_, hbase, hform, ?_, ?_⟩
  · rw [XmlElement.transform, hs]
    rfl
  · rw [hform]
    split_ifs with h
    · simp [h]
    · simp [h]
  · intro h
    rw [hform, if_neg]
    rintro ⟨hl, ht⟩
    rcases h with h | h | h
    · rw [h] at ht
      revert ht
      decide
    · rw [h] at ht
      revert ht
      decide
    · exact h hl

/-- Witness for C12: a `zero-terminated` string without a length gets no length error. -/
theorem string_transform_length_required_witness :
    ∃ s : StringElement,
      XmlString.transform plainToIdName { Typ := "zero-terminated" } {} =
        .ret (s, { errs := XmlString.lengthDiag s }) ∧
      XmlString.lengthDiag s = [] := by
  obtain ⟨s, hs, _, _, _, _, hz⟩ :=
    string_transform_length_required plainToIdName { Typ := "zero-terminated" } {}
  exact ⟨s, hs, hz (Or.inl rfl)⟩

/-- The plain `toIdName` leaves the aggregator as it is. -/
theorem appendOnly_plain : AppendOnly plainToIdName := by
  intro x t errs
  simp [plainToIdName]

/-- With a `toIdName` that only appends, the transform of a node returns an element that
does not depend on the aggregator, and appends exactly the diagnostics of the node. -/
theorem transform_diags (toIdName : ToIdName) (hId : AppendOnly toIdName) (x : XmlElement) :
    ∃ el, ∀ errs : Errors,
      XmlElement.transform toIdName x errs =
        .ret (el, { errs := errs.errs ++ XmlElement.diags toIdName x }) := by
  obtain ⟨el, d, h⟩ := transform_appends toIdName hId x
  have hd : XmlElement.diags toIdName x = d := by
    unfold XmlElement.diags
    rw [h {}]
    simp
  exact ⟨el, fun errs => by rw [hd]; exact h errs⟩

/-- The loop over the children of a structure node: it returns one element per child, in
declaration order, and appends the diagnostics of the children in declaration order. -/
theorem transformAll_diags (toIdName : ToIdName) (hId : AppendOnly toIdName) :
    ∀ cs : List XmlElement, ∃ els : List Element,
      (∀ errs : Errors, XmlElement.transformAll toIdName cs errs =
        .ret (els, { errs := errs.errs ++ (cs.map (XmlElement.diags toIdName)).flatten })) ∧
      List.Forall₂ (fun c el => ∀ e : Errors, XmlElement.transform toIdName c e =
        .ret (el, { errs := e.errs ++ XmlElement.diags toIdName c })) cs els := by
  intro cs
  induction cs with
  | nil =>
    refine ⟨[], fun errs => ?_, List.Forall₂.nil⟩
    rw [transformAll_nil]
    simp
  | cons c rest ih =>
    obtain ⟨el, hc⟩ := transform_diags toIdName hId c
    obtain ⟨els, hrest, hels⟩ := ih
    refine ⟨el :: els, fun errs => ?_, List.Forall₂.cons hc hels⟩
    rw [transformAll_cons, hc errs]
    simp only [Run.bind]
    rw [hrest]
    simp [List.append_assoc]

/-- The transform of a structure node in closed form, under a `toIdName` that only
appends. -/
theorem structure_transform_eq (toIdName : ToIdName) (hId : AppendOnly toIdName)
    (xml : XmlStructureAttr) (els : List XmlElement) :
    ∃ (s : Structure) (cs : List Element),
      (∀ errs : Errors, XmlElement.transform toIdName (.ofStructure xml els) errs =
        .ret (.ofStructure s cs,
          { errs := errs.errs ++ ((toIdName xml.idName "Structure" {}).2.errs ++
              (lengthunitDiag xml.LengthUnit ++ (endianDiag xml.Endian ++
                (orderDiag xml.Order ++ (displayDiag xml.Display ++
                  (colourDiag xml.FillColour ++ (colourDiag xml.StrokeColour ++
                    (els.map (XmlElement.diags toIdName)).flatten))))))) })) ∧
      List.Forall₂ (fun c el => ∀ e : Errors, XmlElement.transform toIdName c e =
        .ret (el, { errs := e.errs ++ XmlElement.diags toIdName c })) els cs ∧
      s.length = Reference xml.Length := by
  obtain ⟨cs, hcs, hall⟩ := transformAll_diags toIdName hId els
  apply Exists.intro
  refine ⟨cs, fun errs => ?_, hall, ?_⟩
  · rw [transform_ofStructure, structure_literal_eq, hId xml.idName "Structure" errs]
    simp only [Run.bind, hcs, List.append_assoc]
    rfl
  · rfl

/-- C14: diagnostics are collected.  For every XML structure node, under a `toIdName`
that only appends to the aggregator, `XmlStructure.transform` returns the Structure with
one element per child, and the aggregator afterwards is what it held before, then what
`toIdName` reports, then the diagnostic of each invalid attribute in evaluation order
(length unit, endian, order, display, fill colour, stroke colour; each of these lists is
empty for a valid attribute and holds one diagnostic for an invalid one), then the
diagnostics of the children in declaration order, where the diagnostics of a child are
exactly what the transform of that child appends to any aggregator. -/
theorem structure_transform_collects (toIdName : ToIdName) (hId : AppendOnly toIdName)
    (xml : XmlStructure) (errs : Errors) :
    ∃ (s : Structure) (cs : List Element),
      XmlStructure.transform toIdName xml errs =
        .ret (.ofStructure s cs,
          { errs := errs.errs ++ ((toIdName xml.attr.idName "Structure" {}).2.errs ++
              (lengthunitDiag xml.attr.LengthUnit ++ (endianDiag xml.attr.Endian ++
                (orderDiag xml.attr.Order ++ (displayDiag xml.attr.Display ++
                  (colourDiag xml.attr.FillColour ++ (colourDiag xml.attr.StrokeColour ++
                    (xml.Elements.map (XmlElement.diags toIdName)).flatten))))))) }) ∧
      List.Forall₂ (fun c el => ∀ e : Errors, XmlElement.transform toIdName c e =
        .ret (el, { errs := e.errs ++ XmlElement.diags toIdName c })) xml.Elements cs := by
  obtain ⟨s, cs, h, hall, _⟩ := structure_transform_eq toIdName hId xml.attr xml.Elements
  exact ⟨s, cs, h errs, hall⟩

/-- Witness for C14: a structure node with an unknown endian, an unknown display and a
lower-case fill colour, whose children are a fixed-length string without a length and a
number with an unknown length unit, transformed on an aggregator that already holds a
diagnostic; all six diagnostics are there afterwards, in order. -/
theorem structure_transform_collects_witness :
    AppendOnly plainToIdName ∧
    ∃ (s : Structure) (cs : List Element),
      XmlStructure.transform plainToIdName sampleStructureNode { errs := [.eof] } =
        .ret (.ofStructure s cs,
          { errs := [.eof,
              .errorf "unknown endian: %q" "middle",
              .errorf "unknown display: %q" "octal",
              .errorf "invalid colour: %q" "ffffff",
              .validationError ⟨.String, { elemType := "String", id := 2, name := "t" }⟩
                (.message "fixed-length strings requires a length"),
              .errorf "unknown length unit: %q" "nibble"] }) ∧
      cs.length = 2 := by
  refine ⟨appendOnly_plain, ?_⟩
  obtain ⟨s, cs, h, hall⟩ :=
    structure_transform_collects plainToIdName appendOnly_plain sampleStructureNode
      { errs := [.eof] }
  refine ⟨s, cs, ?_, ?_⟩
  · rw [h]
    rfl
  · rw [← hall.length_eq]
    rfl

/-- The loop over the top-level structures of a grammar node: every structure is
transformed, in order, into a Structure element, and its diagnostics are appended. -/
theorem structuresLoop_diags (toIdName : ToIdName) (hId : AppendOnly toIdName) :
    ∀ ss : List XmlStructure, ∃ els : List Element,
      (∀ errs : Errors, XmlGrammar.structuresLoop toIdName ss errs =
        .ret (els, { errs := errs.errs ++
          (ss.map (fun s =>
            XmlElement.diags toIdName (.ofStructure s.attr s.Elements))).flatten })) ∧
      List.Forall₂ (fun s el => (∃ st cs, el = Element.ofStructure st cs) ∧
        ∀ e : Errors, XmlStructure.transform toIdName s e =
          .ret (el, { errs := e.errs ++
            XmlElement.diags toIdName (.ofStructure s.attr s.Elements) })) ss els := by
  intro ss
  induction ss with
  | nil =>
    refine ⟨[], fun errs => ?_, List.Forall₂.nil⟩
    rw [XmlGrammar.structuresLoop]
    simp
  | cons x rest ih =>
    obtain ⟨st, cs, hx, _, _⟩ := structure_transform_eq toIdName hId x.attr x.Elements
    obtain ⟨el, hel⟩ := transform_diags toIdName hId (.ofStructure x.attr x.Elements)
    have hshape : el = Element.ofStructure st cs := by
      have h1 := hx {}
      rw [hel {}] at h1
      injection h1 with h1
      exact (Prod.mk.inj h1).1
    obtain ⟨els, hrest, hels⟩ := ih
    refine ⟨el :: els, fun errs => ?_, List.Forall₂.cons ⟨⟨st, cs, hshape⟩, hel⟩ hels⟩
    rw [XmlGrammar.structuresLoop, XmlStructure.transform, hel errs]
    simp only [Run.bind]
    rw [hrest]
    simp [List.append_assoc]

/-- C13: for every XML grammar node, under a `toIdName` that only appends to the
aggregator, `XmlGrammar.transform` returns the Grammar with one Structure element per
top-level structure, each the transform of that structure, in order.  The aggregator
afterwards is what it held before, then what `toIdName` reports, then the validation error
`missing start attribute` carrying the Grammar if the start attribute is empty and nothing
if it is not, then the diagnostics of the top-level structures in order. -/
theorem grammar_transform_start (toIdName : ToIdName) (hId : AppendOnly toIdName)
    (xml : XmlGrammar) (errs : Errors) :
    ∃ (g : Grammar) (els : List Element),
      XmlGrammar.transform toIdName xml errs =
        .ret (.ofGrammar g els,
          { errs := errs.errs ++ ((toIdName xml.idName "Grammar" {}).2.errs ++
              ((if xml.Start = "" then
                  [.validationError ⟨.Grammar, g.base⟩ (.message "missing start attribute")]
                else []) ++
                (xml.Structures.map (fun s =>
                  XmlElement.diags toIdName (.ofStructure s.attr s.Elements))).flatten)) }) ∧
      g.base = (toIdName xml.idName "Grammar" {}).1 ∧
      List.Forall₂ (fun s el => (∃ st cs, el = Element.ofStructure st cs) ∧
        ∀ e : Errors, XmlStructure.transform toIdName s e =
          .ret (el, { errs := e.errs ++
            XmlElement.diags toIdName (.ofStructure s.attr s.Elements) }))
        xml.Structures els := by
  obtain ⟨els, hloop, hall⟩ := structuresLoop_diags toIdName hId xml.Structures
  by_cases hs : xml.Start = ""
  · apply Exists.intro
    refine ⟨els, ?_, ?_, hall⟩
    · rw [XmlGrammar.transform, hId xml.idName "Grammar" errs]
      simp only [yesno_eq, XmlGrammar.startCheck, hs, if_true, Errors.Append, hloop, Run.bind,
        List.append_assoc]
      rfl
    · rfl
  · apply Exists.intro
    refine ⟨els, ?_, ?_, hall⟩
    · rw [XmlGrammar.transform, hId xml.idName "Grammar" errs]
      simp only [yesno_eq, XmlGrammar.startCheck, hs, if_false, hloop, Run.bind,
        List.append_assoc, List.nil_append]
      rfl
    · rfl

/-- Witness for C13: a grammar node without a start attribute and with one top-level
structure; the start error is reported and the structure is still transformed. -/
theorem grammar_transform_start_witness :
    AppendOnly plainToIdName ∧
    ∃ (g : Grammar) (els : List Element),
      XmlGrammar.transform plainToIdName
          { idName := { Id := 7, Name := "g" }, Structures := [sampleStructureNode] } {} =
        .ret (.ofGrammar g els,
          { errs := [
              .validationError ⟨.Grammar, { elemType := "Grammar", id := 7, name := "g" }⟩
                (.message "missing start attribute"),
              .errorf "unknown endian: %q" "middle",
              .errorf "unknown display: %q" "octal",
              .errorf "invalid colour: %q" "ffffff",
              .validationError ⟨.String, { elemType := "String", id := 2, name := "t" }⟩
                (.message "fixed-length strings requires a length"),
              .errorf "unknown length unit: %q" "nibble"] }) ∧
      els.length = 1 := by
  refine ⟨appendOnly_plain, ?_⟩
  obtain ⟨g, els, h, hbase, hall⟩ :=
    grammar_transform_start plainToIdName appendOnly_plain
      { idName := { Id := 7, Name := "g" }, Structures := [sampleStructureNode] } {}
  refine ⟨g, els, ?_, ?_⟩
  · rw [h, hbase]
    rfl
  · rw [← hall.length_eq]
    rfl

/-- The value `yesno` returns is `UnknownBool` exactly for the empty text. -/
theorem yesnoValue_unknown_iff (s : String) : yesnoValue s = .UnknownBool ↔ s = "" := by
  unfold yesnoValue yesno
  by_cases h : s = ""
  · simp [h]
  · simp only [h, if_false, iff_false]
    exact boolOf_ne_unknown _

/-- C16: `yesno` keeps the tri-state distinction.  It returns `UnknownBool` exactly for the
empty text, `True` for `yes` and `False` for `no`.  `XmlNumber.transform` always returns a
Number `n`; once that Number sits in the store with `p` as its parent Structure: if it was
transformed from `signed="no"`, its `Signed()` is false even when the parent has the
`signed` of `yes`; if it was transformed from an absent `signed` attribute, its `Signed()`
is the parent's `Signed()`, so true under a parent with the `signed` of `yes` and false
under a parent with the `signed` of `no`. -/
theorem yesno_keeps_tristate (toIdName : ToIdName) (xml : XmlNumber) (errs : Errors) :
    (∀ (s : String) (e : Errors), (yesno s e).1 = .UnknownBool ↔ s = "") ∧
    (∀ e : Errors, (yesno "yes" e).1 = .True) ∧
    (∀ e : Errors, (yesno "no" e).1 = .False) ∧
    ∃ (n : Number) (e1 : Errors),
      XmlNumber.transform toIdName xml errs = .ret (n, e1) ∧
      ∀ (h : Heap) (a p fuel : Nat) (e : Errors),
        h.numbers a = { n with parent := some p } →
          (xml.Signed = "no" → (h.structures p).signed = (yesno "yes" e).1 →
            Number.Signed h (fuel + 1) a = .ret false) ∧
          (xml.Signed = "" → Number.Signed h (fuel + 1) a = Structure.Signed h fuel p) ∧
          (xml.Signed = "" → (h.structures p).signed = (yesno "yes" e).1 →
            Number.Signed h (fuel + 2) a = .ret true) ∧
          (xml.Signed = "" → (h.structures p).signed = (yesno "no" e).1 →
            Number.Signed h (fuel + 2) a = .ret false) := by
  refine ⟨fun s e => ?_, fun e => rfl, fun e => rfl, ?_⟩
  · rw [yesno_eq]
    exact yesnoValue_unknown_iff s
  · refine ⟨_, _, number_transform_eq toIdName xml errs, ?_⟩
    intro h a p fuel e hn
    have hsigned : (h.numbers a).signed = yesnoValue xml.Signed := by rw [hn]
    have hderives : (h.numbers a).derives = none := by rw [hn]
    have hparent : (h.numbers a).parent = some p := by rw [hn]
    have hinherit : ∀ f : Nat, xml.Signed = "" →
        Number.Signed h (f + 1) a = Structure.Signed h f p := by
      intro f hx
      have hu : (h.numbers a).signed = .UnknownBool := by
        rw [hsigned]
        exact (yesnoValue_unknown_iff _).2 hx
      rw [number_signed_succ]
      simp [hu, hderives, hparent]
    refine ⟨fun hx _ => ?_, hinherit fuel, fun hx hp => ?_, fun hx hp => ?_⟩
    · apply number_signed_set h fuel a false
      rw [hsigned, hx]
      rfl
    · rw [hinherit (fuel + 1) hx]
      exact structure_signed_set h fuel p true hp
    · rw [hinherit (fuel + 1) hx]
      exact structure_signed_set h fuel p false hp

/-- Witness for C16: a number node with `signed="no"` under a parent Structure whose
`signed` came from `yes`. -/
theorem yesno_keeps_tristate_witness :
    ∃ (n : Number) (e1 : Errors),
      XmlNumber.transform plainToIdName { Signed := "no" } {} = .ret (n, e1) ∧
      Number.Signed
        { numbers := fun _ => { n with parent := some 0 }
          structures := fun _ => { signed := (yesno "yes" {}).1 } } 1 0 = .ret false := by
  obtain ⟨_, _, _, n, e1, hn, hh⟩ :=
    yesno_keeps_tristate plainToIdName { Signed := "no" } {}
  exact ⟨n, e1, hn,
    (hh { numbers := fun _ => { n with parent := some 0 }
          structures := fun _ => { signed := (yesno "yes" {}).1 } } 0 0 0 {} rfl).1 rfl rfl⟩

/-- The length made from the decimal text of an int64 is that constant, whatever its
sign. -/
theorem reference_toString (n : Int) (hlo : -2 ^ 63 ≤ n) (hhi : n < 2 ^ 63) :
    Reference (toString n) = some (.ConstExpression n) := by
  unfold Reference
  rw [newExpression_of_ne_empty _ (toString_int_ne_empty n), parseInt_toString n hlo hhi]

/-- The length check of `XmlString.transform` appends nothing for an element with a
length. -/
theorem lengthDiag_of_length (s : StringElement) (h : s.length ≠ none) :
    XmlString.lengthDiag s = [] := by
  unfold XmlString.lengthDiag XmlString.lengthCheck
  simp [h]

/-- C20 (the code at the input `-5`): the Number, the String, the Binary and the Structure
transformed from a node with the length attribute `-5`, an integer literal, have the
constant length `-5`, which is below 0, and the aggregator is empty afterwards: nothing
was reported. -/
theorem negative_length_accepted_counterexample :
    IsIntegerLiteral "-5" ∧
    (∃ n : Number, XmlNumber.transform plainToIdName { Length := "-5" } {} =
        .ret (n, { errs := [] }) ∧
      n.length = some (.ConstExpression (-5))) ∧
    (∃ s : StringElement, XmlString.transform plainToIdName { Length := "-5" } {} =
        .ret (s, { errs := [] }) ∧
      s.length = some (.ConstExpression (-5))) ∧
    (∃ b : Binary, XmlBinary.transform plainToIdName { Length := "-5" } {} =
        .ret (b, { errs := [] }) ∧
      b.length = some (.ConstExpression (-5))) ∧
    (∃ (s : Structure) (cs : List Element),
      XmlStructure.transform plainToIdName { attr := { Length := "-5" } } {} =
        .ret (.ofStructure s cs, { errs := [] }) ∧
      s.length = some (.ConstExpression (-5))) ∧
    ¬ (0 : Int) ≤ -5 :=
  ⟨by decide, ⟨_, rfl, rfl⟩, ⟨_, rfl, rfl⟩, ⟨_, rfl, rfl⟩, ⟨_, _, rfl, rfl⟩, by decide⟩

/-- C20, amended: for every Number, String, Binary or Structure node whose length
attribute is the decimal text of an int64 `n`, negative or not, `transform` returns the
element with the constant length `n`, and the aggregator afterwards is the one that the
same node gets with any other non-empty length attribute `l`: no diagnostic is appended
for the length.  (For the Structure, under a `toIdName` that only appends.) -/
theorem transform_length_unchecked (toIdName : ToIdName) (hId : AppendOnly toIdName)
    (n : Int) (hlo : -2 ^ 63 ≤ n) (hhi : n < 2 ^ 63) (l : String) (hl : l ≠ "")
    (errs : Errors) :
    (∀ xml : XmlNumber, ∃ (el : Number) (e : Errors),
      XmlNumber.transform toIdName { xml with Length := toString n } errs = .ret (el, e) ∧
      el.length = some (.ConstExpression n) ∧
      ∃ el2 : Number,
        XmlNumber.transform toIdName { xml with Length := l } errs = .ret (el2, e)) ∧
    (∀ xml : XmlString, ∃ (el : StringElement) (e : Errors),
      XmlString.transform toIdName { xml with Length := toString n } errs = .ret (el, e) ∧
      el.length = some (.ConstExpression n) ∧
      ∃ el2 : StringElement,
        XmlString.transform toIdName { xml with Length := l } errs = .ret (el2, e)) ∧
    (∀ xml : XmlBinary, ∃ (el : Binary) (e : Errors),
      XmlBinary.transform toIdName { xml with Length := toString n } errs = .ret (el, e) ∧
      el.length = some (.ConstExpression n) ∧
      ∃ el2 : Binary,
        XmlBinary.transform toIdName { xml with Length := l } errs = .ret (el2, e)) ∧
    (∀ xml : XmlStructure, ∃ (el : Structure) (cs : List Element) (e : Errors),
      XmlStructure.transform toIdName
          { xml with attr := { xml.attr with Length := toString n } } errs =
        .ret (.ofStructure el cs, e) ∧
      el.length = some (.ConstExpression n) ∧
      ∃ (el2 : Structure) (cs2 : List Element),
        XmlStructure.transform toIdName
            { xml with attr := { xml.attr with Length := l } } errs =
          .ret (.ofStructure el2 cs2, e)) := by
  have href := reference_toString n hlo hhi
  refine ⟨fun xml => ?_, fun xml => ?_, fun xml => ?_, fun xml => ?_⟩
  · exact ⟨_, _, number_transform_eq toIdName { xml with Length := toString n } errs, href,
      _, number_transform_eq toIdName { xml with Length := l } errs⟩
  · obtain ⟨s, hs, _, _, hlen, _⟩ :=
      string_transform_eq toIdName { xml with Length := toString n } errs
    obtain ⟨s2, hs2, _, _, hlen2, _⟩ :=
      string_transform_eq toIdName { xml with Length := l } errs
    have hd : XmlString.lengthDiag s = [] := by
      apply lengthDiag_of_length
      rw [hlen]
      exact fun h => Option.some_ne_none _ (href.symm.trans h)
    have hd2 : XmlString.lengthDiag s2 = [] := by
      apply lengthDiag_of_length
      rw [hlen2]
      exact fun h => hl ((reference_eq_none_iff l).1 h)
    refine ⟨s, _, hs, hlen.trans href, s2, ?_⟩
    rw [hs2, hd, hd2]
  · exact ⟨_, _, binary_transform_eq toIdName { xml with Length := toString n } errs, href,
      _, binary_transform_eq toIdName { xml with Length := l } errs⟩
  · obtain ⟨s, cs, h, _, hlen⟩ :=
      structure_transform_eq toIdName hId { xml.attr with Length := toString n } xml.Elements
    obtain ⟨s2, cs2, h2, _, _⟩ :=
      structure_transform_eq toIdName hId { xml.attr with Length := l } xml.Elements
    exact ⟨s, cs, _, h errs, hlen.trans href, s2, cs2, h2 errs⟩

/-- Witness for C20: the length `-5` against the length `5` on a number node. -/
theorem transform_length_unchecked_witness :
    ∃ (el : Number) (e : Errors),
      XmlNumber.transform plainToIdName { Length := toString (-5 : Int) } {} = .ret (el, e) ∧
      el.length = some (.ConstExpression (-5)) ∧
      ∃ el2 : Number, XmlNumber.transform plainToIdName { Length := "5" } {} = .ret (el2, e) :=
  (transform_length_unchecked plainToIdName appendOnly_plain (-5) (by decide) (by decide)
    "5" (by decide) {}).1 {}

/-! ## The attribute parsers, `SetSigned`, `validValues` and `colour` -/

/-- C22: for each of the parsers `endian`, `display`, `lengthunit` and `order`, on every
aggregator: a keyword gives the matching enum value and appends nothing, the empty text
gives the Unknown value and appends nothing, and every other text `s` gives the Unknown
value and appends exactly one error (the one that names `s`). -/
theorem attribute_parsers_report_unknown (s : String) (errs : Errors) :
    (endian "big" errs = (.BigEndian, errs) ∧
     endian "little" errs = (.LittleEndian, errs) ∧
     endian "dynamic" errs = (.DynamicEndian, errs) ∧
     endian "" errs = (.UnknownEndian, errs) ∧
     (s ≠ "big" → s ≠ "little" → s ≠ "dynamic" → s ≠ "" →
       endian s errs =
         (.UnknownEndian, { errs := errs.errs ++ [.errorf "unknown endian: %q" s] }))) ∧
    (display "dec" errs = (.DecDisplay, errs) ∧
     display "hex" errs = (.HexDisplay, errs) ∧
     display "binary" errs = (.BinaryDisplay, errs) ∧
     display "" errs = (.UnknownDisplay, errs) ∧
     (s ≠ "dec" → s ≠ "hex" → s ≠ "binary" → s ≠ "" →
       display s errs =
         (.UnknownDisplay, { errs := errs.errs ++ [.errorf "unknown display: %q" s] }))) ∧
    (lengthunit "bit" errs = (.BitLengthUnit, errs) ∧
     lengthunit "byte" errs = (.ByteLengthUnit, errs) ∧
     lengthunit "" errs = (.UnknownLengthUnit, errs) ∧
     (s ≠ "bit" → s ≠ "byte" → s ≠ "" →
       lengthunit s errs =
         (.UnknownLengthUnit,
           { errs := errs.errs ++ [.errorf "unknown length unit: %q" s] }))) ∧
    (order "fixed" errs = (.FixedOrder, errs) ∧
     order "variable" errs = (.VariableOrder, errs) ∧
     order "" errs = (.UnknownOrder, errs) ∧
     (s ≠ "fixed" → s ≠ "variable" → s ≠ "" →
       order s errs =
         (.UnknownOrder, { errs := errs.errs ++ [.errorf "unknown order: %q" s] }))) := by
  refine ⟨⟨rfl, rfl, rfl, rfl, fun h1 h2 h3 h4 => ?_⟩, ⟨rfl, rfl, rfl, rfl, fun h1 h2 h3 h4 => ?_⟩,
    ⟨rfl, rfl, rfl, fun h1 h2 h3 => ?_⟩, ⟨rfl, rfl, rfl, fun h1 h2 h3 => ?_⟩⟩
  · simp [endian, h1, h2, h3, h4, Errors.Append]
  · simp [display, h1, h2, h3, h4, Errors.Append]
  · simp [lengthunit, h1, h2, h3, Errors.Append]
  · simp [order, h1, h2, h3, Errors.Append]

/-- Witness for C22: the unknown endian `middle` on an aggregator that holds one error. -/
theorem attribute_parsers_report_unknown_witness :
    endian "middle" { errs := [.eof] } =
      (.UnknownEndian, { errs := [.eof, .errorf "unknown endian: %q" "middle"] }) :=
  (attribute_parsers_report_unknown "middle" { errs := [.eof] }).1.2.2.2.2
    (by decide) (by decide) (by decide) (by decide)

/-- C26: for every Number and every Structure of a store and every boolean `b`, after
`SetSigned(b)` the call `Signed()` returns `b` (with any positive recursion budget),
whatever the node's `derives` target and parent; `SetSigned` changes the field `signed` of
that node and nothing else in the store; and `boolOf(b)` is never `UnknownBool` and
`boolOf(b).bool()` returns `b`. -/
theorem setSigned_signed_round_trip (h : Heap) (a : Nat) (b : Bool) (fuel : Nat) :
    Number.Signed (Number.SetSigned h a b) (fuel + 1) a = .ret b ∧
    Structure.Signed (Structure.SetSigned h a b) (fuel + 1) a = .ret b ∧
    (Number.SetSigned h a b).numbers a = { h.numbers a with signed := boolOf b } ∧
    (∀ x, x ≠ a → (Number.SetSigned h a b).numbers x = h.numbers x) ∧
    Number.SetSigned h a b = { h with numbers := (Number.SetSigned h a b).numbers } ∧
    (Structure.SetSigned h a b).structures a = { h.structures a with signed := boolOf b } ∧
    (∀ x, x ≠ a → (Structure.SetSigned h a b).structures x = h.structures x) ∧
    Structure.SetSigned h a b =
      { h with structures := (Structure.SetSigned h a b).structures } ∧
    boolOf b ≠ .UnknownBool ∧ (boolOf b).bool = .ret b := by
  refine ⟨?_, ?_, ?_, ?_, rfl, ?_, ?_, rfl, boolOf_ne_unknown b, bool_boolOf b⟩
  · exact number_signed_set _ fuel a b (by simp [Number.SetSigned])
  · exact structure_signed_set _ fuel a b (by simp [Structure.SetSigned])
  · simp [Number.SetSigned]
  · intro x hx
    simp [Number.SetSigned, hx]
  · simp [Structure.SetSigned]
  · intro x hx
    simp [Structure.SetSigned, hx]

/-- Witness for C26: after `SetSigned(false)` on the Number at address 0 of the sample
store, `Signed()` of it is false and the Number at address 1 is as it was. -/
theorem setSigned_signed_round_trip_witness :
    Number.Signed (Number.SetSigned sampleHeap 0 false) 1 0 = .ret false ∧
    (Number.SetSigned sampleHeap 0 false).numbers 1 = sampleHeap.numbers 1 :=
  ⟨(setSigned_signed_round_trip sampleHeap 0 false 0).1,
   (setSigned_signed_round_trip sampleHeap 0 false 0).2.2.2.1 1 (by decide)⟩

/-- C23 (the code at the kind `bool`): the first value that `validValues` lists for `bool`
is `no`, which `yesno` parses to `False`, with `bool()` false; but a Number with `signed`
unset, no `derives` and no parent has `Signed()` true, and the tag of `signed` is
`default:"True"`: the first listed value is not the default.  The entries for `endian`,
`lengthunit` and `display` do list the default first: parsed with their helpers they give
the values the struct tags declare (`LittleEndian`, `ByteLengthUnit`, `DecDisplay`) and
append nothing. -/
theorem first_bool_value_not_default (errs : Errors) (h : Heap) (a fuel : Nat)
    (hs : (h.numbers a).signed = .UnknownBool) (hd : (h.numbers a).derives = none)
    (hp : (h.numbers a).parent = none) :
    (validValues "bool" = some ["no", "yes"] ∧ firstValidValue "bool" = some "no" ∧
      yesno "no" errs = (.False, errs) ∧ (yesno "no" errs).1.bool = .ret false ∧
      Number.Signed h (fuel + 1) a = .ret true ∧
      (yesno "no" errs).1.bool ≠ Number.Signed h (fuel + 1) a ∧
      (yesno "no" errs).1 ≠ Number.defaults.signed) ∧
    (firstValidValue "endian" = some "little" ∧
      endian "little" errs = (Number.defaults.endian, errs)) ∧
    (firstValidValue "lengthunit" = some "byte" ∧
      lengthunit "byte" errs = (Number.defaults.lengthUnit, errs)) ∧
    (firstValidValue "display" = some "dec" ∧
      display "dec" errs = (Number.defaults.display, errs)) := by
  have hsigned : Number.Signed h (fuel + 1) a = .ret true := by
    rw [number_signed_succ]
    simp [hs, hd, hp]
  refine ⟨⟨rfl, rfl, rfl, rfl, hsigned, ?_, ?_⟩, ⟨rfl, rfl⟩, ⟨rfl, rfl⟩, ⟨rfl, rfl⟩⟩
  · rw [hsigned]
    show TriBool.bool .False ≠ .ret true
    decide
  · show TriBool.False ≠ TriBool.True
    decide

/-- Witness for C23: the Number with every field unset, as `&Number{}` is. -/
theorem first_bool_value_not_default_witness :
    (yesno "no" {}).1.bool = .ret false ∧
    Number.Signed { numbers := fun _ => {}, structures := fun _ => {} } 1 0 = .ret true :=
  ⟨(first_bool_value_not_default {} { numbers := fun _ => {}, structures := fun _ => {} } 0 0
      rfl rfl rfl).1.2.2.2.1,
   (first_bool_value_not_default {} { numbers := fun _ => {}, structures := fun _ => {} } 0 0
      rfl rfl rfl).1.2.2.2.2.1⟩

/-- The three bytes of a colour packed by shifts and bitwise or are the base-256 number
they spell. -/
theorem colour_pack (b0 b1 b2 : Nat) (_h0 : b0 < 256) (h1 : b1 < 256) (h2 : b2 < 256) :
    (b0 <<< 16 ||| b1 <<< 8 ||| b2) % 2 ^ 32 = b0 * 65536 + b1 * 256 + b2 := by
  have e0 : b0 <<< 16 = 2 ^ 16 * b0 := by rw [Nat.shiftLeft_eq]; omega
  have e1 : b1 <<< 8 = 2 ^ 8 * b1 := by rw [Nat.shiftLeft_eq]; omega
  have h3 : 2 ^ 8 * b1 < 2 ^ 16 := by omega
  rw [e0, e1, ← Nat.mul_add_lt_is_or h3 b0]
  have e2 : 2 ^ 16 * b0 + 2 ^ 8 * b1 = 2 ^ 8 * (b0 * 256 + b1) := by omega
  rw [e2, ← Nat.mul_add_lt_is_or (by omega : b2 < 2 ^ 8)]
  omega

/-- The class `[0-9A-F]` holds exactly the sixteen characters `0123456789ABCDEF`. -/
theorem isUpperHexDigit_iff (c : Char) : isUpperHexDigit c = true ↔ c ∈ upperHexDigits := by
  have hall : ∀ d ∈ upperHexDigits, isUpperHexDigit d = true := by decide
  constructor
  · intro h
    have hr : (48 ≤ c.toNat ∧ c.toNat ≤ 57) ∨ (65 ≤ c.toNat ∧ c.toNat ≤ 70) := by
      simpa [isUpperHexDigit] using h
    have hc : c = Char.ofNat c.toNat := (Char.ofNat_toNat c).symm
    generalize c.toNat = n at hr hc
    subst hc
    have hn : 48 ≤ n ∧ n ≤ 70 := by omega
    obtain ⟨h1, h2⟩ := hn
    interval_cases n <;> first | decide | (exfalso; omega)
  · exact hall c

/-- The pattern of `colourRegex` matches exactly the texts of six characters from
`0-9A-F`. -/
theorem colourRegexMatch_iff (s : String) : colourRegexMatch s = true ↔ IsSixUpperHex s := by
  simp only [colourRegexMatch, IsSixUpperHex, decide_eq_true_eq, List.all_eq_true,
    isUpperHexDigit_iff]

/-- The hex digit table on the sixteen characters: one byte each, with the value of its
place. -/
theorem fromHexChar_upper :
    ∀ c ∈ upperHexDigits, charBytes c = [c.toNat] ∧
      fromHexChar c.toNat = some (upperHexDigitValue c) ∧ upperHexDigitValue c < 16 := by
  decide

/-- A text of six characters from `0-9A-F` hex-decodes without error to three bytes that
spell, in base 256, the text read as a base-16 number. -/
theorem hexDecodeString_six (s : String) (h : IsSixUpperHex s) :
    ∃ b0 b1 b2, hexDecodeString s = ([b0, b1, b2], none) ∧
      b0 < 256 ∧ b1 < 256 ∧ b2 < 256 ∧ b0 * 65536 + b1 * 256 + b2 = base16Value s := by
  obtain ⟨hlen, hall⟩ := h
  match hdata : s.data, hlen, hall with
  | [c1, c2, c3, c4, c5, c6], _, hall =>
    obtain ⟨hb1, hv1, hl1⟩ := fromHexChar_upper c1 (hall c1 (by simp))
    obtain ⟨hb2, hv2, hl2⟩ := fromHexChar_upper c2 (hall c2 (by simp))
    obtain ⟨hb3, hv3, hl3⟩ := fromHexChar_upper c3 (hall c3 (by simp))
    obtain ⟨hb4, hv4, hl4⟩ := fromHexChar_upper c4 (hall c4 (by simp))
    obtain ⟨hb5, hv5, hl5⟩ := fromHexChar_upper c5 (hall c5 (by simp))
    obtain ⟨hb6, hv6, hl6⟩ := fromHexChar_upper c6 (hall c6 (by simp))
    refine ⟨upperHexDigitValue c1 * 16 + upperHexDigitValue c2,
      upperHexDigitValue c3 * 16 + upperHexDigitValue c4,
      upperHexDigitValue c5 * 16 + upperHexDigitValue c6, ?_, by omega, by omega, by omega, ?_⟩
    · simp [hexDecodeString, goBytes, hdata, hb1, hb2, hb3, hb4, hb5, hb6, hexDecodeLoop,
        hv1, hv2, hv3, hv4, hv5, hv6]
    · simp only [base16Value, hdata, List.foldl]
      omega

/-- The function `colour` on a text of six characters from `0-9A-F`. -/
theorem colour_of_six (s : String) (h : IsSixUpperHex s) (errs : Errors) :
    colour s errs = .ret (some (base16Value s), errs) ∧ base16Value s ≤ 0xFFFFFF := by
  obtain ⟨b0, b1, b2, hdec, h0, h1, h2, hval⟩ := hexDecodeString_six s h
  have hm : colourRegexMatch s = true := (colourRegexMatch_iff s).2 h
  have hs : s ≠ "" := by
    intro he
    have := h.1
    rw [he] at this
    exact absurd this (by decide)
  constructor
  · unfold colour
    simp only [hs, if_false, hm, hdec, Bool.true_eq_false]
    rw [colour_pack b0 b1 b2 h0 h1 h2, hval]
  · omega

/-- C24: `colour` parses exactly six upper-case hex digits.  For every text `s` and
aggregator: the empty text gives nil and appends nothing; a non-empty text that does not
consist of exactly six characters from `0-9A-F` gives nil and appends exactly one error;
every other text gives the Colour whose number is `s` read in base 16, at most `0xFFFFFF`,
and appends nothing.  So the lower-case `ffffff` is rejected, `000000` is `Black` and
`FFFFFF` is `White`. -/
theorem colour_six_upper_hex (s : String) (errs : Errors) :
    (s = "" → colour s errs = .ret (none, errs)) ∧
    (s ≠ "" → ¬ IsSixUpperHex s →
      colour s errs =
        .ret (none, { errs := errs.errs ++ [.errorf "invalid colour: %q" s] })) ∧
    (IsSixUpperHex s →
      colour s errs = .ret (some (base16Value s), errs) ∧ base16Value s ≤ 0xFFFFFF) ∧
    colour "ffffff" errs =
      .ret (none, { errs := errs.errs ++ [.errorf "invalid colour: %q" "ffffff"] }) ∧
    colour "000000" errs = .ret (some Black, errs) ∧
    colour "FFFFFF" errs = .ret (some White, errs) := by
  have hbad : ∀ t : String, t ≠ "" → ¬ IsSixUpperHex t →
      colour t errs =
        .ret (none, { errs := errs.errs ++ [.errorf "invalid colour: %q" t] }) := by
    intro t ht hsix
    have hm : colourRegexMatch t = false := by
      cases hc : colourRegexMatch t with
      | false => rfl
      | true => exact absurd ((colourRegexMatch_iff t).1 hc) hsix
    simp [colour, ht, hm, Errors.Append]
  refine ⟨fun h => ?_, hbad s, fun h => colour_of_six s h errs,
    hbad "ffffff" (by decide) (by decide), ?_, ?_⟩
  · simp [colour, h]
  · exact (colour_of_six "000000" (by decide) errs).1
  · exact (colour_of_six "FFFFFF" (by decide) errs).1

/-- Witness for C24: the text `0A1B2C` is the colour `0x0A1B2C`, and the text `12345` is
rejected with one error. -/
theorem colour_six_upper_hex_witness :
    colour "0A1B2C" {} = .ret (some 0x0A1B2C, {}) ∧
    colour "12345" {} = .ret (none, { errs := [.errorf "invalid colour: %q" "12345"] }) :=
  ⟨((colour_six_upper_hex "0A1B2C" {}).2.2.1 (by decide)).1,
   (colour_six_upper_hex "12345" {}).2.1 (by decide) (by decide)⟩

/-- C25: for every text that the pattern `^[0-9A-F]{6}$` accepts, the hex decoding returns
no error and exactly three bytes, so `colour` does not take the error branch, reads
`b[0]`, `b[1]`, `b[2]` in bounds and returns the Colour without appending; and for every
text whatsoever `colour` returns, it never ends in the index panic. -/
theorem colour_decode_in_bounds (s : String) :
    (colourRegexMatch s = true →
      ∃ b0 b1 b2, hexDecodeString s = ([b0, b1, b2], none) ∧
        ∀ errs : Errors,
          colour s errs = .ret (some ((b0 <<< 16 ||| b1 <<< 8 ||| b2) % 2 ^ 32), errs)) ∧
    (∀ errs : Errors, ∃ r, colour s errs = .ret r) := by
  constructor
  · intro hm
    obtain ⟨b0, b1, b2, hdec, _, _, _⟩ := hexDecodeString_of_match s hm
    refine ⟨b0, b1, b2, hdec, fun errs => ?_⟩
    have hs : s ≠ "" := by
      intro he
      rw [he] at hm
      exact absurd hm (by decide)
    unfold colour
    simp only [hs, if_false, hm, hdec, Bool.true_eq_false]
  · intro errs
    exact ⟨_, colour_eq s errs⟩

/-- Witness for C25: the text `0A1B2C`. -/
theorem colour_decode_in_bounds_witness :
    ∃ b0 b1 b2, hexDecodeString "0A1B2C" = ([b0, b1, b2], none) ∧
      ∀ errs : Errors,
        colour "0A1B2C" errs =
          .ret (some ((b0 <<< 16 ||| b1 <<< 8 ||| b2) % 2 ^ 32), errs) :=
  (colour_decode_in_bounds "0A1B2C").1 (by decide)

/-! ## `transform` keeps the children and the values, one for one and in order -/

/-- The loop over the children returns when every child's transform does, with one element
per child, in order, each what the transform of that child returned. -/
theorem transformAll_returns (toIdName : ToIdName) :
    ∀ cs : List XmlElement,
      (∀ c ∈ cs, ∀ errs : Errors, ∃ el e,
        XmlElement.transform toIdName c errs = .ret (el, e)) →
      ∀ errs : Errors, ∃ els e,
        XmlElement.transformAll toIdName cs errs = .ret (els, e) ∧
        List.Forall₂ (fun c el => ∃ e0 e1,
          XmlElement.transform toIdName c e0 = .ret (el, e1)) cs els := by
  intro cs
  induction cs with
  | nil =>
    intro _ errs
    exact ⟨[], errs, by rw [transformAll_nil], List.Forall₂.nil⟩
  | cons c rest ih =>
    intro hall errs
    obtain ⟨el, e1, hc⟩ := hall c (List.mem_cons_self _ _) errs
    obtain ⟨els, e2, hrest, hels⟩ :=
      ih (fun x hx => hall x (List.mem_cons_of_mem _ hx)) e1
    refine ⟨el :: els, e2, ?_, List.Forall₂.cons ⟨errs, e1, hc⟩ hels⟩
    rw [transformAll_cons, hc]
    simp only [Run.bind]
    rw [hrest]

/-- The transform of a structure node returns a Structure when the transforms of its
children return. -/
theorem structure_transform_returns (toIdName : ToIdName) (xml : XmlStructureAttr)
    (els : List XmlElement)
    (hall : ∀ c ∈ els, ∀ errs : Errors, ∃ el e,
      XmlElement.transform toIdName c errs = .ret (el, e)) (errs : Errors) :
    ∃ s cs e,
      XmlElement.transform toIdName (.ofStructure xml els) errs =
        .ret (.ofStructure s cs, e) ∧
      List.Forall₂ (fun c el => ∃ e0 e1,
        XmlElement.transform toIdName c e0 = .ret (el, e1)) els cs := by
  have key : ∀ (e1 : Errors) (s : Structure), ∃ cs e,
      ((XmlElement.transformAll toIdName els e1).bind fun (cs, e2) =>
        Run.ret (Element.ofStructure s cs, e2)) = .ret (.ofStructure s cs, e) ∧
      List.Forall₂ (fun c el => ∃ e0 e1,
        XmlElement.transform toIdName c e0 = .ret (el, e1)) els cs := by
    intro e1 s
    obtain ⟨cs, e2, hcs, hrel⟩ := transformAll_returns toIdName els hall e1
    exact ⟨cs, e2, by rw [hcs]; rfl, hrel⟩
  rw [transform_ofStructure, structure_literal_eq]
  obtain ⟨cs, e, h, hrel⟩ := key _ _
  exact ⟨_, cs, e, h, hrel⟩

/-- The transform of every node returns, whatever `toIdName` does. -/
theorem transform_returns (toIdName : ToIdName) (x : XmlElement) :
    ∀ errs : Errors, ∃ el e, XmlElement.transform toIdName x errs = .ret (el, e) := by
  induction x using xmlElement_induction with
  | hstruct xml els ih =>
    intro errs
    obtain ⟨s, cs, e, h, _⟩ := structure_transform_returns toIdName xml els ih errs
    exact ⟨_, _, h⟩
  | hstring xml =>
    intro errs
    obtain ⟨s, hs, _⟩ := string_transform_eq toIdName xml errs
    rw [XmlElement.transform, hs]
    exact ⟨_, _, rfl⟩
  | hbinary xml =>
    intro errs
    rw [XmlElement.transform, binary_transform_eq]
    exact ⟨_, _, rfl⟩
  | hnumber xml =>
    intro errs
    rw [XmlElement.transform, number_transform_eq]
    exact ⟨_, _, rfl⟩
  | hcustom xml =>
    intro errs
    rw [XmlElement.transform, XmlCustom.transform]
    exact ⟨_, _, rfl⟩
  | hstructRef xml =>
    intro errs
    rw [XmlElement.transform, structRef_transform_eq]
    exact ⟨_, _, rfl⟩
  | hgrammarRef xml =>
    intro errs
    rw [XmlElement.transform, XmlGrammarRef.transform]
    exact ⟨_, _, rfl⟩
  | hoffset xml =>
    intro errs
    rw [XmlElement.transform, XmlOffset.transform]
    exact ⟨_, _, rfl⟩
  | hscript xml =>
    intro errs
    rw [XmlElement.transform, XmlScriptElement.transform]
    exact ⟨_, _, rfl⟩

/-- The loop over the top-level structures returns, with one element per structure, in
order, each what the transform of that structure returned. -/
theorem structuresLoop_returns (toIdName : ToIdName) :
    ∀ (ss : List XmlStructure) (errs : Errors), ∃ els e,
      XmlGrammar.structuresLoop toIdName ss errs = .ret (els, e) ∧
      List.Forall₂ (fun x el => ∃ e0 e1,
        XmlStructure.transform toIdName x e0 = .ret (el, e1)) ss els := by
  intro ss
  induction ss with
  | nil =>
    intro errs
    exact ⟨[], errs, by rw [XmlGrammar.structuresLoop], List.Forall₂.nil⟩
  | cons x rest ih =>
    intro errs
    obtain ⟨el, e1, hx⟩ :=
      transform_returns toIdName (.ofStructure x.attr x.Elements) errs
    obtain ⟨els, e2, hrest, hels⟩ := ih e1
    refine ⟨el :: els, e2, ?_, List.Forall₂.cons ⟨errs, e1, hx⟩ hels⟩
    rw [XmlGrammar.structuresLoop, XmlStructure.transform, hx]
    simp only [Run.bind]
    rw [hrest]

/-- The values that the loop of `XmlBinary.transform` appends: one per XML value, in
order, with its name and the bytes decoded from its text without `0x` and `0X`. -/
theorem valuesOf_eq_map :
    ∀ vs : List XmlFixedValue, XmlBinary.valuesOf vs =
      vs.map (fun x =>
        ({ name := x.Name
           value := (hexDecodeString (TrimPrefix (TrimPrefix x.Value "0x") "0X")).1 } :
          FixedBinaryValue)) := by
  intro vs
  induction vs with
  | nil => rfl
  | cons x rest ih =>
    have hv : XmlBinary.valuesOf (x :: rest) =
        (XmlBinary.valuesLoop (x :: rest) [] {}).1 := rfl
    rw [hv]
    simp only [XmlBinary.valuesLoop, binary_valuesLoop_eq, ih]
    simp

/-- The fixed values of the String that `XmlString.transform` returns: one per XML value,
in order, with its name and its text. -/
theorem string_transform_values (toIdName : ToIdName) (xml : XmlString) (errs : Errors) :
    ∃ (el : StringElement) (e : Errors),
      XmlString.transform toIdName xml errs = .ret (el, e) ∧
      el.values = xml.Values.map (fun x =>
        ({ name := x.Name
           value := x.Value } : FixedStringValue)) := by
  rw [XmlString.transform, string_literal_eq]
  exact ⟨_, _, rfl, List.nil_append _⟩

/-- The transform of a grammar node returns a Grammar whose elements are what the loop
over the top-level structures returned. -/
theorem grammar_transform_returns (toIdName : ToIdName) (xml : XmlGrammar) (errs : Errors) :
    ∃ (g : Grammar) (els : List Element) (e : Errors),
      XmlGrammar.transform toIdName xml errs = .ret (.ofGrammar g els, e) ∧
      (∃ e3, XmlGrammar.structuresLoop toIdName xml.Structures e3 = .ret (els, e)) ∧
      List.Forall₂ (fun x el => ∃ e0 e1,
        XmlStructure.transform toIdName x e0 = .ret (el, e1)) xml.Structures els := by
  have key : ∀ (e3 : Errors) (g : Grammar), ∃ els e,
      ((XmlGrammar.structuresLoop toIdName xml.Structures e3).bind fun (els, e4) =>
        Run.ret (Element.ofGrammar g els, e4)) = .ret (.ofGrammar g els, e) ∧
      (∃ e3, XmlGrammar.structuresLoop toIdName xml.Structures e3 = .ret (els, e)) ∧
      List.Forall₂ (fun x el => ∃ e0 e1,
        XmlStructure.transform toIdName x e0 = .ret (el, e1)) xml.Structures els := by
    intro e3 g
    obtain ⟨els, e, hloop, hrel⟩ := structuresLoop_returns toIdName xml.Structures e3
    exact ⟨els, e, by rw [hloop]; rfl, ⟨e3, hloop⟩, hrel⟩
  rcases hpair : toIdName xml.idName "Grammar" errs with ⟨base, e1⟩
  rw [XmlGrammar.transform, hpair]
  simp only [yesno_eq]
  obtain ⟨els, e, h, hloop, hrel⟩ := key _ _
  exact ⟨_, els, e, h, hloop, hrel⟩

/-- C21: `transform` is one-for-one and order-preserving.  For every XML structure node
the transform returns a Structure with exactly as many children as the node has child
nodes, the i-th child being what the transform of the i-th child node returned (on the
aggregator it was handed; on any aggregator at all when `toIdName` only appends).  For
every XML grammar node the transform returns a Grammar with exactly one element per
top-level structure, in order, in the same sense.  The Number, String and Binary returned
by their transforms have exactly one fixed value per XML fixed value, in order, with the
name of that value (and its text for a String, its decoded bytes for a Binary). -/
theorem transform_one_to_one (toIdName : ToIdName) (errs : Errors) :
    (∀ xml : XmlStructure, ∃ (s : Structure) (cs : List Element) (e : Errors),
      XmlStructure.transform toIdName xml errs = .ret (.ofStructure s cs, e) ∧
      cs.length = xml.Elements.length ∧
      List.Forall₂ (fun c el => ∃ e0 e1,
        XmlElement.transform toIdName c e0 = .ret (el, e1)) xml.Elements cs ∧
      (AppendOnly toIdName →
        List.Forall₂ (fun c el => ∀ e0 : Errors, ∃ e1,
          XmlElement.transform toIdName c e0 = .ret (el, e1)) xml.Elements cs)) ∧
    (∀ xml : XmlGrammar, ∃ (g : Grammar) (els : List Element) (e : Errors),
      XmlGrammar.transform toIdName xml errs = .ret (.ofGrammar g els, e) ∧
      els.length = xml.Structures.length ∧
      List.Forall₂ (fun x el => ∃ e0 e1,
        XmlStructure.transform toIdName x e0 = .ret (el, e1)) xml.Structures els ∧
      (AppendOnly toIdName →
        List.Forall₂ (fun x el => ∀ e0 : Errors, ∃ e1,
          XmlStructure.transform toIdName x e0 = .ret (el, e1)) xml.Structures els)) ∧
    (∀ xml : XmlNumber, ∃ (n : Number) (e : Errors),
      XmlNumber.transform toIdName xml errs = .ret (n, e) ∧
      n.values = xml.Values.map (fun x => ({ name := x.Name } : FixedValue))) ∧
    (∀ xml : XmlString, ∃ (el : StringElement) (e : Errors),
      XmlString.transform toIdName xml errs = .ret (el, e) ∧
      el.values = xml.Values.map (fun x =>
        ({ name := x.Name
           value := x.Value } : FixedStringValue))) ∧
    (∀ xml : XmlBinary, ∃ (b : Binary) (e : Errors),
      XmlBinary.transform toIdName xml errs = .ret (b, e) ∧
      b.values = xml.Values.map (fun x =>
        ({ name := x.Name
           value := (hexDecodeString (TrimPrefix (TrimPrefix x.Value "0x") "0X")).1 } :
          FixedBinaryValue))) := by
  refine ⟨fun xml => ?_, fun xml => ?_, fun xml => ?_,
    fun xml => string_transform_values toIdName xml errs, fun xml => ?_⟩
  · obtain ⟨s, cs, e, h, hrel⟩ :=
      structure_transform_returns toIdName xml.attr xml.Elements
        (fun c _ => transform_returns toIdName c) errs
    refine ⟨s, cs, e, h, hrel.length_eq.symm, hrel, fun hId => ?_⟩
    obtain ⟨s2, cs2, h2, hall, _⟩ :=
      structure_transform_eq toIdName hId xml.attr xml.Elements
    have heq := h2 errs
    rw [h] at heq
    injection heq with heq
    have hcs : cs = cs2 := by
      have h1 := (Prod.mk.inj heq).1
      injection h1
    rw [hcs]
    exact List.Forall₂.imp (fun _ _ hc e0 => ⟨_, hc e0⟩) hall
  · obtain ⟨g, els, e, h, ⟨e3, hloop⟩, hrel⟩ := grammar_transform_returns toIdName xml errs
    refine ⟨g, els, e, h, hrel.length_eq.symm, hrel, fun hId => ?_⟩
    obtain ⟨els2, hloop2, hall⟩ := structuresLoop_diags toIdName hId xml.Structures
    have heq := hloop2 e3
    rw [hloop] at heq
    injection heq with heq
    rw [(Prod.mk.inj heq).1]
    exact List.Forall₂.imp (fun _ _ hx e0 => ⟨_, hx.2 e0⟩) hall
  · exact ⟨_, _, number_transform_eq toIdName xml errs, rfl⟩
  · exact ⟨_, _, binary_transform_eq toIdName xml errs, valuesOf_eq_map xml.Values⟩

/-- Witness for C21: the sample structure node and its two children, under the plain
`toIdName`. -/
theorem transform_one_to_one_witness :
    ∃ (s : Structure) (cs : List Element) (e : Errors),
      XmlStructure.transform plainToIdName sampleStructureNode {} =
        .ret (.ofStructure s cs, e) ∧
      cs.length = 2 ∧
      List.Forall₂ (fun c el => ∀ e0 : Errors, ∃ e1,
        XmlElement.transform plainToIdName c e0 = .ret (el, e1))
        sampleStructureNode.Elements cs := by
  obtain ⟨s, cs, e, h, hlen, _, hall⟩ :=
    (transform_one_to_one plainToIdName {}).1 sampleStructureNode
  exact ⟨s, cs, e, h, hlen, hall appendOnly_plain⟩

/-! ## `NewExpression` on integer literals -/

theorem digitsValue_ge (base : Nat) (hb : 1 ≤ base) :
    ∀ (cs : List Nat) (acc : Nat), acc ≤ digitsValue base cs acc := by
  intro cs
  induction cs with
  | nil => intro acc; exact le_refl _
  | cons c cs ih =>
    intro acc
    rw [digitsValue]
    split
    · exact ih acc
    · have h1 : acc ≤ acc * base := Nat.le_mul_of_pos_right acc hb
      have h2 := ih (acc * base + digitValue c)
      omega

/-- The digit that the loop reads off a digit byte of the base. -/
theorem loop_digit (base c : Nat) (h : isDigitOf base c = true) :
    (if 48 ≤ c ∧ c ≤ 57 then some (c - 48)
     else if 97 ≤ lower c ∧ lower c ≤ 122 then some (lower c - 97 + 10)
     else none) = some (digitValue c) ∧ digitValue c < base ∧ c ≠ 95 := by
  rcases (isDigitOf_iff base c).1 h with h1 | h1 | h1
  · have : 48 ≤ c ∧ c ≤ 57 := ⟨h1.1, h1.2.1⟩
    simp only [digitValue, this, and_self, if_true]
    exact ⟨trivial, h1.2.2, by omega⟩
  · have hl := lower_of_lowercase c (Or.inr ⟨h1.1, h1.2.1⟩)
    have h2 : ¬ (48 ≤ c ∧ c ≤ 57) := by omega
    have h3 : 97 ≤ c ∧ c ≤ 122 := ⟨h1.1, h1.2.1⟩
    simp only [digitValue, hl, h2, h3, and_self, if_true, if_false]
    exact ⟨trivial, h1.2.2, by omega⟩
  · have hl := lower_of_uppercase c ⟨h1.1, h1.2.1⟩
    have h2 : ¬ (48 ≤ c ∧ c ≤ 57) := by omega
    have h3 : ¬ (97 ≤ c ∧ c ≤ 122) := by omega
    have h4 : 97 ≤ c + 32 ∧ c + 32 ≤ 122 := by omega
    simp only [digitValue, hl, h2, h3, h4, and_self, if_true, if_false]
    have h5 : c + 32 - 97 + 10 = c - 65 + 10 := by omega
    exact ⟨by rw [h5], h1.2.2, by omega⟩

theorem parseUintLoop_digits (base cutoff : Nat) (hb1 : 1 ≤ base) (hb2 : base ≤ 36)
    (hcut : ∀ n, n < cutoff ↔ n * base < 2 ^ 64) :
    ∀ (cs : List Nat) (n : Nat) (us : Bool), n < 2 ^ 64 →
      (∀ c ∈ cs, c = 95 ∨ isDigitOf base c = true) →
      (digitsValue base cs n < 2 ^ 64 →
        ∃ us2, parseUintLoop base true cutoff (2 ^ 64 - 1) cs n us =
          .ok (digitsValue base cs n, us2)) ∧
      (2 ^ 64 ≤ digitsValue base cs n →
        parseUintLoop base true cutoff (2 ^ 64 - 1) cs n us =
          .error (2 ^ 64 - 1, .ErrRange)) := by
  intro cs
  induction cs with
  | nil =>
    intro n us hn _
    simp only [digitsValue, parseUintLoop]
    exact ⟨fun _ => ⟨us, rfl⟩, fun h => absurd h (by omega)⟩
  | cons c cs ih =>
    intro n us hn hall
    have hrest : ∀ x ∈ cs, x = 95 ∨ isDigitOf base x = true :=
      fun x hx => hall x (List.mem_cons_of_mem _ hx)
    by_cases hc : c = 95
    · subst hc
      have h1 : digitsValue base (95 :: cs) n = digitsValue base cs n := by
        simp [digitsValue]
      have h2 : parseUintLoop base true cutoff (2 ^ 64 - 1) (95 :: cs) n us =
          parseUintLoop base true cutoff (2 ^ 64 - 1) cs n true := by
        rw [parseUintLoop]
        simp
      rw [h1, h2]
      exact ih n true hn hrest
    · have hdig : isDigitOf base c = true := by
        rcases hall c (List.mem_cons_self _ _) with h | h
        · exact absurd h hc
        · exact h
      obtain ⟨hd, hlt, _⟩ := loop_digit base c hdig
      have h1 : digitsValue base (c :: cs) n =
          digitsValue base cs (n * base + digitValue c) := by
        simp [digitsValue, hc]
      have hge := digitsValue_ge base hb1 cs (n * base + digitValue c)
      rw [h1]
      rw [parseUintLoop]
      simp only [hc, false_and, if_false, hd]
      have hnb : ¬ digitValue c ≥ base := by omega
      simp only [hnb, if_false]
      by_cases hco : n ≥ cutoff
      · simp only [hco, if_true]
        have : ¬ n * base < 2 ^ 64 := fun h => absurd ((hcut n).2 h) (by omega)
        exact ⟨fun h => absurd h (by omega), fun _ => trivial⟩
      · simp only [hco, if_false]
        have hm : n * base < 2 ^ 64 := (hcut n).1 (by omega)
        have hn0 : n * base % 2 ^ 64 = n * base := Nat.mod_eq_of_lt hm
        rw [hn0]
        by_cases hov : n * base + digitValue c < 2 ^ 64
        · have hn1 : (n * base + digitValue c) % 2 ^ 64 = n * base + digitValue c :=
            Nat.mod_eq_of_lt hov
          rw [hn1]
          have hcond : ¬ (n * base + digitValue c < n * base ∨
              n * base + digitValue c > 2 ^ 64 - 1) := by omega
          simp only [hcond, if_false]
          exact ih _ us hov hrest
        · have hn1 : (n * base + digitValue c) % 2 ^ 64 < n * base := by
            have : (n * base + digitValue c) % 2 ^ 64 =
                n * base + digitValue c - 2 ^ 64 := by
              rw [Nat.mod_eq_sub_mod (by omega)]
              exact Nat.mod_eq_of_lt (by omega)
            omega
          simp only [hn1, true_or, if_true]
          exact ⟨fun h => absurd h (by omega), fun _ => trivial⟩

/-- A run of the shape `{ [ "_" ] digit }` holds only digits and underscores, and
`underscoreOK` is content with it after a digit or a base prefix. -/
theorem sepDigits_spec (base : Nat) :
    ∀ (n : Nat) (cs : List Nat), cs.length ≤ n → sepDigits base cs = true →
      (∀ c ∈ cs, c = 95 ∨ isDigitOf base c = true) ∧
      (∀ hex : Bool,
        (∀ c, isDigitOf base c = true →
          (48 ≤ c ∧ c ≤ 57) ∨ (hex = true ∧ 97 ≤ lower c ∧ lower c ≤ 102)) →
        underscoreLoop hex cs 48 = true) := by
  intro n
  induction n with
  | zero =>
    intro cs hlen _
    have : cs = [] := List.length_eq_zero.1 (by omega)
    subst this
    exact ⟨fun c hc => absurd hc (List.not_mem_nil c), fun hex _ => by simp [underscoreLoop]⟩
  | succ n ih =>
    intro cs hlen h
    cases cs with
    | nil =>
      exact ⟨fun c hc => absurd hc (List.not_mem_nil c), fun hex _ => by simp [underscoreLoop]⟩
    | cons c rest =>
      rw [sepDigits.eq_def] at h
      simp only at h
      by_cases hc : c = 95
      · subst hc
        simp only [if_true] at h
        cases rest with
        | nil => simp at h
        | cons d rest2 =>
          simp only [Bool.and_eq_true] at h
          obtain ⟨hd, hrest⟩ := h
          have hlen2 : rest2.length ≤ n := by
            simp only [List.length_cons] at hlen
            omega
          obtain ⟨hall, hus⟩ := ih rest2 hlen2 hrest
          refine ⟨fun x hx => ?_, fun hex hrec => ?_⟩
          · rcases List.mem_cons.1 hx with rfl | hx
            · exact Or.inl rfl
            · rcases List.mem_cons.1 hx with rfl | hx
              · exact Or.inr hd
              · exact hall x hx
          · rw [underscoreLoop_cons_underscore]
            simp only [ne_eq, not_true_eq_false, if_false]
            rw [underscoreLoop_cons_digit hex d rest2 95 (hrec d hd)]
            exact hus hex hrec
      · simp only [hc, if_false, Bool.and_eq_true] at h
        obtain ⟨hd, hrest⟩ := h
        have hlen2 : rest.length ≤ n := by
          simp only [List.length_cons] at hlen
          omega
        obtain ⟨hall, hus⟩ := ih rest hlen2 hrest
        refine ⟨fun x hx => ?_, fun hex hrec => ?_⟩
        · rcases List.mem_cons.1 hx with rfl | hx
          · exact Or.inr hd
          · exact hall x hx
        · rw [underscoreLoop_cons_digit hex c rest 48 (hrec c hd)]
          exact hus hex hrec

theorem cutoff_two : ∀ n, n < (2 ^ 64 - 1) / 2 + 1 ↔ n * 2 < 2 ^ 64 := by
  intro n
  omega

theorem cutoff_eight : ∀ n, n < (2 ^ 64 - 1) / 8 + 1 ↔ n * 8 < 2 ^ 64 := by
  intro n
  omega

theorem cutoff_ten : ∀ n, n < (2 ^ 64 - 1) / 10 + 1 ↔ n * 10 < 2 ^ 64 := by
  intro n
  omega

theorem cutoff_sixteen : ∀ n, n < (2 ^ 64 - 1) / 16 + 1 ↔ n * 16 < 2 ^ 64 := by
  intro n
  omega

/-- `ParseUint` with base 0 on bytes whose prefix gives `base` and whose digits are digits
of that base and underscores that `underscoreOK` accepts: the value the digits spell, or
the range error when that value does not fit 64 bits. -/
theorem parseUint_of_digits (s : List Nat) (hs : s ≠ []) (base : Nat) (digits : List Nat)
    (hbp : basePrefix s = (base, digits))
    (hb : base = 2 ∨ base = 8 ∨ base = 10 ∨ base = 16)
    (hall : ∀ c ∈ digits, c = 95 ∨ isDigitOf base c = true)
    (hus : underscoreOK s = true) :
    (digitsValue base digits 0 < 2 ^ 64 →
      ParseUint s 0 64 = (digitsValue base digits 0, none)) ∧
    (2 ^ 64 ≤ digitsValue base digits 0 →
      ParseUint s 0 64 = (2 ^ 64 - 1, some .ErrRange)) := by
  have hloop : (digitsValue base digits 0 < 2 ^ 64 →
        ∃ us2, parseUintLoop base true ((2 ^ 64 - 1) / base + 1) (2 ^ 64 - 1) digits 0 false =
          .ok (digitsValue base digits 0, us2)) ∧
      (2 ^ 64 ≤ digitsValue base digits 0 →
        parseUintLoop base true ((2 ^ 64 - 1) / base + 1) (2 ^ 64 - 1) digits 0 false =
          .error (2 ^ 64 - 1, .ErrRange)) := by
    rcases hb with rfl | rfl | rfl | rfl
    · exact parseUintLoop_digits 2 _ (by decide) (by decide) cutoff_two digits 0 false
        (by decide) hall
    · exact parseUintLoop_digits 8 _ (by decide) (by decide) cutoff_eight digits 0 false
        (by decide) hall
    · exact parseUintLoop_digits 10 _ (by decide) (by decide) cutoff_ten digits 0 false
        (by decide) hall
    · exact parseUintLoop_digits 16 _ (by decide) (by decide) cutoff_sixteen digits 0 false
        (by decide) hall
  rw [parseUint_zero s hs, hbp]
  constructor
  · intro h
    obtain ⟨us2, hl⟩ := hloop.1 h
    simp only [hl, hus]
    simp
  · intro h
    simp only [hloop.2 h]

theorem lower_ne_of_ne (p v : Nat) (hv1 : 97 ≤ v) (hv2 : v ≤ 122)
    (h : ¬ (p = v ∨ p = v - 32)) : lower p ≠ v :=
  fun hl => h (eq_of_lower_eq p v hv1 hv2 hl)

/-- A prefixed literal `0b…`, `0o…`, `0x…` under `ParseUint`. -/
theorem parseUint_of_prefixed (base p : Nat) (ds : List Nat)
    (hp : lower p = 98 ∧ base = 2 ∨ lower p = 111 ∧ base = 8 ∨ lower p = 120 ∧ base = 16)
    (hemp : ds.isEmpty = false) (hsep : sepDigits base ds = true) :
    (digitsValue base ds 0 < 2 ^ 64 →
      ParseUint (48 :: p :: ds) 0 64 = (digitsValue base ds 0, none)) ∧
    (2 ^ 64 ≤ digitsValue base ds 0 →
      ParseUint (48 :: p :: ds) 0 64 = (2 ^ 64 - 1, some .ErrRange)) := by
  obtain ⟨hall, hus⟩ := sepDigits_spec base ds.length ds le_rfl hsep
  have hne : ds ≠ [] := by
    intro h
    subst h
    simp at hemp
  have hlen : (48 :: p :: ds).length ≥ 3 := by
    cases ds with
    | nil => exact absurd rfl hne
    | cons d rest => simp
  have hbp : basePrefix (48 :: p :: ds) = (base, ds) := by
    rcases hp with ⟨h1, rfl⟩ | ⟨h1, rfl⟩ | ⟨h1, rfl⟩ <;>
      simp [basePrefix, hlen, h1, hne]
  have hp2 : lower p = 98 ∨ lower p = 111 ∨ lower p = 120 := by
    rcases hp with ⟨h1, _⟩ | ⟨h1, _⟩ | ⟨h1, _⟩
    · exact Or.inl h1
    · exact Or.inr (Or.inl h1)
    · exact Or.inr (Or.inr h1)
  have hok : underscoreOK (48 :: p :: ds) = true := by
    rw [underscoreOK_prefixed p ds hp2]
    apply hus
    intro c hc
    rcases hp with ⟨h1, rfl⟩ | ⟨h1, rfl⟩ | ⟨h1, rfl⟩
    · exact digit_recognised_le_ten 2 (by decide) _ c hc
    · exact digit_recognised_le_ten 8 (by decide) _ c hc
    · have := digit_recognised_hex c hc
      simpa [h1] using this
  have hb : base = 2 ∨ base = 8 ∨ base = 10 ∨ base = 16 := by
    rcases hp with ⟨_, rfl⟩ | ⟨_, rfl⟩ | ⟨_, rfl⟩ <;> simp
  exact parseUint_of_digits _ (by simp) base ds hbp hb hall hok

/-- An `int_lit` under `ParseUint` with base 0: its value, or the range error when the
value does not fit 64 bits. -/
theorem parseUint_of_isIntLit (s : List Nat) (h : isIntLit s = true) :
    (intLitValue s < 2 ^ 64 → ParseUint s 0 64 = (intLitValue s, none)) ∧
    (2 ^ 64 ≤ intLitValue s → ParseUint s 0 64 = (2 ^ 64 - 1, some .ErrRange)) := by
  cases s with
  | nil => simp [isIntLit] at h
  | cons c rest =>
    by_cases hc : c = 48
    · subst hc
      cases rest with
      | nil =>
        have h0 : ParseUint [48] 0 64 = (0, none) := by decide
        simp [intLitValue, h0]
      | cons p ds =>
        by_cases hb : p = 98 ∨ p = 66
        · have hv : intLitValue (48 :: p :: ds) = digitsValue 2 ds 0 := by
            simp [intLitValue, hb]
          simp only [isIntLit, if_true, hb, Bool.and_eq_true, Bool.not_eq_true'] at h
          rw [hv]
          have hl : lower p = 98 := by
            rcases hb with rfl | rfl <;> decide
          exact parseUint_of_prefixed 2 p ds (Or.inl ⟨hl, rfl⟩) h.1 h.2
        · by_cases ho : p = 111 ∨ p = 79
          · have hv : intLitValue (48 :: p :: ds) = digitsValue 8 ds 0 := by
              simp [intLitValue, hb, ho]
            simp only [isIntLit, if_true, hb, ho, if_false, Bool.and_eq_true,
              Bool.not_eq_true'] at h
            rw [hv]
            have hl : lower p = 111 := by
              rcases ho with rfl | rfl <;> decide
            exact parseUint_of_prefixed 8 p ds (Or.inr (Or.inl ⟨hl, rfl⟩)) h.1 h.2
          · by_cases hx : p = 120 ∨ p = 88
            · have hv : intLitValue (48 :: p :: ds) = digitsValue 16 ds 0 := by
                simp [intLitValue, hb, ho, hx]
              simp only [isIntLit, if_true, hb, ho, hx, if_false, Bool.and_eq_true,
                Bool.not_eq_true'] at h
              rw [hv]
              have hl : lower p = 120 := by
                rcases hx with rfl | rfl <;> decide
              exact parseUint_of_prefixed 16 p ds (Or.inr (Or.inr ⟨hl, rfl⟩)) h.1 h.2
            · have hv : intLitValue (48 :: p :: ds) = digitsValue 8 (p :: ds) 0 := by
                simp [intLitValue, hb, ho, hx]
              simp only [isIntLit, if_true, hb, ho, hx, if_false] at h
              rw [hv]
              obtain ⟨hall, hus⟩ := sepDigits_spec 8 (p :: ds).length (p :: ds) le_rfl h
              have hl1 : lower p ≠ 98 := lower_ne_of_ne p 98 (by decide) (by decide) hb
              have hl2 : lower p ≠ 111 := lower_ne_of_ne p 111 (by decide) (by decide) ho
              have hl3 : lower p ≠ 120 := lower_ne_of_ne p 120 (by decide) (by decide) hx
              have hbp : basePrefix (48 :: p :: ds) = (8, p :: ds) := by
                simp [basePrefix, hl1, hl2, hl3]
              have hok : underscoreOK (48 :: p :: ds) = true := by
                rw [underscoreOK_zero_plain p ds (by
                  intro hh
                  rcases hh with hh | hh | hh
                  · exact hl1 hh
                  · exact hl2 hh
                  · exact hl3 hh)]
                exact hus false (digit_recognised_le_ten 8 (by decide) false)
              exact parseUint_of_digits _ (by simp) 8 (p :: ds) hbp (Or.inr (Or.inl rfl))
                hall hok
    · simp only [isIntLit, hc, if_false, Bool.and_eq_true, decide_eq_true_eq] at h
      obtain ⟨hrange, hsep⟩ := h
      have hv : intLitValue (c :: rest) = digitsValue 10 (c :: rest) 0 := by
        simp [intLitValue, hc]
      rw [hv]
      obtain ⟨hall, hus⟩ := sepDigits_spec 10 rest.length rest le_rfl hsep
      have hdig : isDigitOf 10 c = true :=
        (isDigitOf_iff 10 c).2 (Or.inl ⟨by omega, by omega, by omega⟩)
      have hbp : basePrefix (c :: rest) = (10, c :: rest) := by
        simp [basePrefix, hc]
      have hok : underscoreOK (c :: rest) = true := by
        rw [underscoreOK_unprefixed c rest (by omega) (by omega) hc,
          underscoreLoop_cons_digit false c rest 94 (Or.inl ⟨by omega, by omega⟩)]
        exact hus false (digit_recognised_le_ten 10 (by decide) false)
      refine parseUint_of_digits _ (by simp) 10 (c :: rest) hbp (Or.inr (Or.inr (Or.inl rfl)))
        (fun x hx => ?_) hok
      rcases List.mem_cons.1 hx with rfl | hx
      · exact Or.inr hdig
      · exact hall x hx

theorem int64_of_small (x : Int) (h1 : -2 ^ 63 ≤ x) (h2 : x < 2 ^ 63) : int64 x = x := by
  unfold int64
  omega

theorem int64_two_pow : int64 (2 ^ 63) = -2 ^ 63 := by
  unfold int64
  omega

/-- `ParseInt` after `ParseUint` returned a value without error. -/
theorem parseInt_of_parseUint_ok (s : List Nat) (hs : s ≠ []) (un : Nat)
    (hu : ParseUint (if s.head? = some 43 ∨ s.head? = some 45 then s.tail else s) 0 64 =
      (un, none)) :
    ParseInt s 0 64 =
      if s.head? ≠ some 45 ∧ un ≥ 2 ^ 63 then (int64 ((2 ^ 63 - 1 : Nat) : Int), some .ErrRange)
      else if s.head? = some 45 ∧ un > 2 ^ 63 then
        (int64 (-((2 ^ 63 : Nat) : Int)), some .ErrRange)
      else (if s.head? = some 45 then int64 (-(int64 un)) else int64 un, none) := by
  simp only [ParseInt, hs, if_false, hu]
  by_cases hneg : s.head? = some 45 <;> simp [hneg]

/-- `ParseInt` after `ParseUint` returned the range error. -/
theorem parseInt_of_parseUint_range (s : List Nat) (hs : s ≠ [])
    (hu : ParseUint (if s.head? = some 43 ∨ s.head? = some 45 then s.tail else s) 0 64 =
      (2 ^ 64 - 1, some .ErrRange)) :
    ∃ i, ParseInt s 0 64 = (i, some .ErrRange) := by
  simp only [ParseInt, hs, if_false, hu]
  by_cases hneg : s.head? = some 45 <;> simp [hneg]

/-- An optionally signed `int_lit` under `ParseInt` with base 0 and 64 bits: its value when
that fits the signed 64-bit range, the range error when it does not. -/
theorem parseInt_of_literal (s : List Nat) (h : isSignedIntLit s = true) :
    (-2 ^ 63 ≤ signedIntLitValue s ∧ signedIntLitValue s < 2 ^ 63 →
      ParseInt s 0 64 = (signedIntLitValue s, none)) ∧
    (signedIntLitValue s < -2 ^ 63 ∨ 2 ^ 63 ≤ signedIntLitValue s →
      ∃ i, ParseInt s 0 64 = (i, some .ErrRange)) := by
  have hs : s ≠ [] := by
    intro he
    subst he
    simp [isSignedIntLit, isIntLit] at h
  have hlit : isIntLit (if s.head? = some 43 ∨ s.head? = some 45 then s.tail else s) = true := by
    by_cases hsign : s.head? = some 43 ∨ s.head? = some 45
    · simpa [isSignedIntLit, hsign] using h
    · simpa [isSignedIntLit, hsign] using h
  have hval : signedIntLitValue s =
      if s.head? = some 45 then
        -(intLitValue (if s.head? = some 43 ∨ s.head? = some 45 then s.tail else s) : Int)
      else (intLitValue (if s.head? = some 43 ∨ s.head? = some 45 then s.tail else s) : Int) := by
    unfold signedIntLitValue
    by_cases h45 : s.head? = some 45
    · simp [h45]
    · by_cases h43 : s.head? = some 43
      · simp [h45, h43]
      · simp [h45, h43]
  obtain ⟨hlt, hge⟩ := parseUint_of_isIntLit _ hlit
  rw [hval]
  generalize intLitValue (if s.head? = some 43 ∨ s.head? = some 45 then s.tail else s) = v
    at hlt hge
  by_cases hv : v < 2 ^ 64
  · rw [parseInt_of_parseUint_ok s hs v (hlt hv)]
    by_cases hneg : s.head? = some 45
    · simp only [hneg, ne_eq, not_true_eq_false, false_and, if_false, true_and, if_true]
      constructor
      · intro hr
        have h1 : ¬ v > 2 ^ 63 := by omega
        simp only [h1, if_false]
        by_cases he : v = 2 ^ 63
        · subst he
          have e1 : int64 ((2 ^ 63 : Nat) : Int) = -2 ^ 63 := by
            unfold int64
            omega
          rw [e1]
          have e2 : int64 (-(-2 ^ 63)) = -2 ^ 63 := by
            unfold int64
            omega
          rw [e2]
          norm_num
        · have e1 : int64 (v : Int) = v := int64_of_small _ (by omega) (by omega)
          rw [e1, int64_of_small _ (by omega) (by omega)]
      · intro hr
        have h1 : v > 2 ^ 63 := by omega
        simp only [h1, if_true]
        exact ⟨_, rfl⟩
    · simp only [hneg, ne_eq, not_false_eq_true, true_and, false_and, if_false]
      constructor
      · intro hr
        have h1 : ¬ v ≥ 2 ^ 63 := by omega
        simp only [h1, if_false]
        rw [int64_of_small _ (by omega) (by omega)]
      · intro hr
        have h1 : v ≥ 2 ^ 63 := by omega
        simp only [h1, if_true]
        exact ⟨_, rfl⟩
  · constructor
    · intro hr
      exfalso
      split at hr <;> omega
    · intro _
      exact parseInt_of_parseUint_range s hs (hge (by omega))

/-- C27: `NewExpression` classifies by 64-bit base-prefixed integer parsing.  For every
text that is an optionally signed integer literal of the Go grammar: if the value of the
literal (in the base its prefix gives) lies in the signed 64-bit range, the result is the
`ConstExpression` of that value; if it lies outside, the result is the `StringExpression`
carrying the input text.  So `9223372036854775808` stays a `StringExpression`, `0x10` is
`ConstExpression(16)` and the leading-zero literal `010` is `ConstExpression(8)`. -/
theorem newExpression_literal_range :
    (∀ s : String, IsIntegerLiteral s →
      (-2 ^ 63 ≤ IntegerLiteralValue s ∧ IntegerLiteralValue s < 2 ^ 63 →
        NewExpression s = some (.ConstExpression (IntegerLiteralValue s))) ∧
      (IntegerLiteralValue s < -2 ^ 63 ∨ 2 ^ 63 ≤ IntegerLiteralValue s →
        NewExpression s = some (.StringExpression s))) ∧
    (IsIntegerLiteral "9223372036854775808" ∧
      IntegerLiteralValue "9223372036854775808" = 2 ^ 63 ∧
      NewExpression "9223372036854775808" =
        some (.StringExpression "9223372036854775808")) ∧
    (IsIntegerLiteral "0x10" ∧ IntegerLiteralValue "0x10" = 16 ∧
      NewExpression "0x10" = some (.ConstExpression 16)) ∧
    (IsIntegerLiteral "010" ∧ IntegerLiteralValue "010" = 8 ∧
      NewExpression "010" = some (.ConstExpression 8)) := by
  refine ⟨fun s h => ?_, by decide, by decide, by decide⟩
  have hne : s ≠ "" := by
    intro he
    subst he
    revert h
    decide
  obtain ⟨hin, hout⟩ := parseInt_of_literal (goBytes s) h
  rw [newExpression_of_ne_empty s hne]
  constructor
  · intro hr
    rw [hin hr]
    rfl
  · intro hr
    obtain ⟨i, hi⟩ := hout hr
    rw [hi]

/-- Witness for C27: the literal `-0x8000000000000000` is the smallest 64-bit constant, and
the literal `0xFFFFFFFFFFFFFFFF` is out of range. -/
theorem newExpression_literal_range_witness :
    NewExpression "-0x8000000000000000" = some (.ConstExpression (-9223372036854775808)) ∧
    NewExpression "0xFFFFFFFFFFFFFFFF" = some (.StringExpression "0xFFFFFFFFFFFFFFFF") :=
  ⟨(newExpression_literal_range.1 "-0x8000000000000000" (by decide)).1 (by decide),
   (newExpression_literal_range.1 "0xFFFFFFFFFFFFFFFF" (by decide)).2 (by decide)⟩

end ufwb
